import Mathlib

/-!
# TIC-80 software rasteriser (`src/core/draw.c`): shallow embedding

The C program is embedded as pure Lean functions over an explicit `Core` state.

* `s32`/`s64` values are `Int`.  Signed overflow is undefined behaviour in C, so the
  embedding is the mathematical reading of the arithmetic; the narrowing conversions that C
  defines (`(s32)` casts of `s64` values, stores into the `s16` span buffer) are explicit
  (`wrapS32`, `wrapS16`), and so are the sums of `tic_api_clip`, which set the clip state
  every other function relies on: they are the wrapping sums of the compiled code.
* `u8` colours are `Nat`; `color & 0xf` is `color % 16`.
* `for (i = lo; i < hi; ++i)` loops are `forRange lo hi`; a second induction variable that
  advances in lock step (`y += scale`) is written in closed form.
* `colors`/`count` pairs (count-prefixed arrays) are lists; tables indexed by a colour
  (`mapping[...]`) are functions on the index, of which the C arrays hold the first entries.
* The remap callback of `drawMap` is a function of the cell and of the default result.
* `double` values are rationals and every `double` operation is the exact operation followed
  by rounding to the nearest binary64 value; the conversions to `s32` are explicit.
* Helpers of other translation units (`tic_api_peek4`, `tic_api_poke4`, `tic_tool_peek4`,
  the tile sheet accessors) and the constants of the headers are modelled from the
  specification and marked as such.
-/

namespace TIC80

/-! ## Constants and data model -/

/-- Modelled from the spec: framebuffer width in pixels (`TIC80_WIDTH`). -/
def TIC80_WIDTH : Int := 240

/-- Modelled from the spec: framebuffer height in pixels (`TIC80_HEIGHT`). -/
def TIC80_HEIGHT : Int := 136

/-- Modelled from the spec: side length of a tile (`TIC_SPRITESIZE`). -/
def TIC_SPRITESIZE : Int := 8

/-- Modelled from the spec: number of entries of the palette mapping table
(`TIC_PALETTE_SIZE`). -/
def TIC_PALETTE_SIZE : Nat := 16

/-- Modelled from the spec: width of the tile map in cells (`TIC_MAP_WIDTH`). -/
def TIC_MAP_WIDTH : Int := 240

/-- Modelled from the spec: height of the tile map in cells (`TIC_MAP_HEIGHT`). -/
def TIC_MAP_HEIGHT : Int := 136

/-- Modelled from the spec: number of glyphs of one font variant (`TIC_FONT_CHARS`). -/
def TIC_FONT_CHARS : Int := 256

/-- The sentinel `TRANSPARENT_COLOR` of draw.c. -/
def TRANSPARENT_COLOR : Nat := 255

/-- Modelled from the spec: a tile pointer, observed through `tic_tilesheet_gettilepix`:
`tile x y` is the colour index stored at tile-local position `(x, y)`. -/
abbrev Tile := Int → Int → Nat

/-- Modelled from the spec: a tile sheet, observed through `tic_tilesheet_gettile`
(tile index and the `local` flag) and the `sheet_width` of its segment. -/
structure Tilesheet where
  gettile : Int → Bool → Tile
  sheet_width : Int

/-- The clip rectangle `core->state.clip`. -/
structure ClipRect where
  l : Int
  t : Int
  r : Int
  b : Int

/-- The static span buffer `SidesBuffer` (two `s16` arrays indexed by the row). -/
structure SidesBuffer where
  Left : Int → Int
  Right : Int → Int

/-- The `width`/`height` header of one font variant (`tic_font_data`). -/
structure FontData where
  width : Int
  height : Int

/-- The result of a remap callback (`RemapResult`). -/
structure RemapResult where
  index : Int
  flip : Int
  rotate : Int

/-- The part of `tic_core` (and of the statics of draw.c) the drawing code reads or writes.
`screen` is the video memory seen through `tic_api_peek4`/`tic_api_poke4` (one entry per
4-bit cell, addressed by `row * width + col`), `mapping` the table `vram.mapping` seen
through `tic_tool_peek4`, `tilesheet seg` the sheet `tic_tilesheet_get` returns for a
segment and `tilesheet_getpix seg` that sheet seen through `tic_tilesheet_getpix`, `vbank`
the memory `state.vbank.mem` seen through `tic_tool_peek4`, `flags` the bytes around
`ram->flags.data` (entry `index` is `flags.data[index]`) and `flag_stub` the static `stub`
of `getFlag`. -/
structure Core where
  screen : Int → Nat
  mapping : Nat → Nat
  clip : ClipRect
  sides : SidesBuffer
  tilesheet : Nat → Tilesheet
  blit_segment : Nat
  map : Int → Int
  font_regular : FontData
  font_alt : FontData
  tilesheet_getpix : Nat → Int → Int → Nat
  vbank : Int → Nat
  flags : Int → Nat
  flag_stub : Nat

/-- A `for (i = lo; i < hi; ++i) body` loop. -/
def forRange {σ : Type} (lo hi : Int) (body : Int → σ → σ) (s : σ) : σ :=
  (List.range (hi - lo).toNat).foldl (fun (acc : σ) (k : Nat) => body (lo + (k : Int)) acc) s

/-- Conversion of an integer to `s16` (two's complement wrap-around). -/
def wrapS16 (x : Int) : Int := (x + 32768) % 65536 - 32768

/-- Conversion of an integer to `s32` (two's complement wrap-around). -/
def wrapS32 (x : Int) : Int := (x + 2147483648) % 4294967296 - 2147483648

/-! ## Memory access -/

/-- Modelled from the spec: `tic_tool_peek4` on a packed table of 4-bit entries. -/
def tic_tool_peek4 (table : Nat → Nat) (index : Nat) : Nat := table index % 16

/-- Modelled from the spec: `tic_api_poke4` stores the low four bits of `value` in cell
`address` of the video memory. -/
def tic_api_poke4 (core : Core) (address : Int) (value : Nat) : Core :=
  { core with screen := fun a => if a = address then value % 16 else core.screen a }

/-- Modelled from the spec: `tic_api_peek4` reads the 4-bit cell `address`. -/
def tic_api_peek4 (core : Core) (address : Int) : Nat := core.screen address % 16

/-! ## Palette mapper -/

/-- The palette table built by `getPalette`: the colour mapping, overlaid with the
transparency sentinel at every listed key. -/
def getPalette (core : Core) (colors : List Nat) : Nat → Nat :=
  colors.foldl (fun mapping c => fun i => if i = c then TRANSPARENT_COLOR else mapping i)
    (fun i => tic_tool_peek4 core.mapping i)

/-- The colour `mapColor` resolves a drawing-call colour to. -/
def mapColor (core : Core) (color : Nat) : Nat := tic_tool_peek4 core.mapping (color % 16)

/-! ## Pixel and span primitives -/

/-- Clipped pixel write `setPixel`. -/
def setPixel (core : Core) (x y : Int) (color : Nat) : Core :=
  if x < core.clip.l ∨ y < core.clip.t ∨ x ≥ core.clip.r ∨ y ≥ core.clip.b then core
  else tic_api_poke4 core (y * TIC80_WIDTH + x) color

/-- Unchecked pixel write `setPixelFast`. -/
def setPixelFast (core : Core) (x y : Int) (color : Nat) : Core :=
  tic_api_poke4 core (y * TIC80_WIDTH + x) color

/-- Pixel read `getPixel`. -/
def getPixel (core : Core) (x y : Int) : Nat := tic_api_peek4 core (y * TIC80_WIDTH + x)

/-- The macro `EARLY_CLIP`. -/
@[reducible] def EARLY_CLIP (core : Core) (x y width height : Int) : Prop :=
  y + height - 1 < core.clip.t ∨ x + width - 1 < core.clip.l ∨ y ≥ core.clip.b ∨ x ≥ core.clip.r

/-- Clipped horizontal span `drawHLine`. -/
def drawHLine (core : Core) (x y width : Int) (color : Nat) : Core :=
  if y < core.clip.t ∨ core.clip.b ≤ y then core
  else
    let xl := max x core.clip.l
    let xr := min (x + width) core.clip.r
    let start := y * TIC80_WIDTH
    forRange (start + xl) (start + xr) (fun i c => tic_api_poke4 c i color) core

/-- Clipped vertical span `drawVLine`. -/
def drawVLine (core : Core) (x y height : Int) (color : Nat) : Core :=
  if x < core.clip.l ∨ core.clip.r ≤ x then core
  else
    let yl := if y < 0 then 0 else y
    let yr := if y + height ≥ TIC80_HEIGHT then TIC80_HEIGHT else y + height
    forRange yl yr (fun i c => setPixel c x i color) core

/-- Filled rectangle `drawRect`. -/
def drawRect (core : Core) (x y width height : Int) (color : Nat) : Core :=
  forRange y (y + height) (fun i c => drawHLine c x i width color) core

/-- Rectangle outline `drawRectBorder`. -/
def drawRectBorder (core : Core) (x y width height : Int) (color : Nat) : Core :=
  let core := drawHLine core x y width color
  let core := drawHLine core x (y + height - 1) width color
  let core := drawVLine core x y height color
  drawVLine core (x + width - 1) y height color

/-! ## Tile and sprite blitter -/

/-- The macro `REVERT`. -/
def REVERT (X : Int) : Int := TIC_SPRITESIZE - 1 - X

/-- The macro `DRAW_TILE_BODY(X, Y)`; `X` and `Y` are expressions in `px` and `py`, and
`x`, `y` are the destination of the first sample `(sx, sy)`. -/
def DRAW_TILE_BODY (core : Core) (tile : Tile) (mapping : Nat → Nat) (x y sx sy ex ey : Int)
    (X Y : Int → Int → Int) : Core :=
  forRange sy ey (fun py c =>
    forRange sx ex (fun px c =>
      let color := mapping (tile (X px py) (Y px py))
      if color ≠ TRANSPARENT_COLOR then setPixelFast c (x + (px - sx)) (y + (py - sy)) color
      else c) c) core

/-- The orientation code `drawTile` derives from `flip` and `rotate`
(`x & 0b11` on an integer is `x % 4`). -/
def orientation (flip rotate : Int) : Nat :=
  let rotate := rotate % 4
  let o : Nat := (flip % 4).toNat
  let o := if rotate = 1 then o ^^^ 1 else if rotate = 2 then o ^^^ 3
    else if rotate = 3 then o ^^^ 2 else o
  if rotate = 1 ∨ rotate = 3 then o ||| 4 else o

/-- The tile-local source coordinate the `switch` of the `scale == 1` path of `drawTile`
samples for the destination offset `(px, py)`. -/
def fastSource (o : Nat) (px py : Int) : Int × Int :=
  match o with
  | 4 => (py, px)
  | 6 => (REVERT py, px)
  | 5 => (py, REVERT px)
  | 7 => (REVERT py, REVERT px)
  | 0 => (px, py)
  | 2 => (px, REVERT py)
  | 1 => (REVERT px, py)
  | 3 => (REVERT px, REVERT py)
  | _ => (px, py)

/-- The tile-local source coordinate `(ix, iy)` the scaled path of `drawTile` samples for
the destination offset `(px, py)`. -/
def scaledSource (o : Nat) (px py : Int) : Int × Int :=
  let ix := if o &&& 1 ≠ 0 then TIC_SPRITESIZE - px - 1 else px
  let iy := if o &&& 2 ≠ 0 then TIC_SPRITESIZE - py - 1 else py
  if o &&& 4 ≠ 0 then (iy, ix) else (ix, iy)

/-- Tile blit `drawTile`. -/
def drawTile (core : Core) (tile : Tile) (x y : Int) (colors : List Nat) (scale : Int)
    (flip rotate : Int) : Core :=
  let mapping := getPalette core colors
  let o := orientation flip rotate
  if scale = 1 then
    let sx := core.clip.l - x
    let sx := if sx < 0 then 0 else sx
    let sy := core.clip.t - y
    let sy := if sy < 0 then 0 else sy
    let ex := core.clip.r - x
    let ex := if ex > TIC_SPRITESIZE then TIC_SPRITESIZE else ex
    let ey := core.clip.b - y
    let ey := if ey > TIC_SPRITESIZE then TIC_SPRITESIZE else ey
    let y := y + sy
    let x := x + sx
    match o with
    | 4 => DRAW_TILE_BODY core tile mapping x y sx sy ex ey (fun _ py => py) (fun px _ => px)
    | 6 => DRAW_TILE_BODY core tile mapping x y sx sy ex ey (fun _ py => REVERT py)
        (fun px _ => px)
    | 5 => DRAW_TILE_BODY core tile mapping x y sx sy ex ey (fun _ py => py)
        (fun px _ => REVERT px)
    | 7 => DRAW_TILE_BODY core tile mapping x y sx sy ex ey (fun _ py => REVERT py)
        (fun px _ => REVERT px)
    | 0 => DRAW_TILE_BODY core tile mapping x y sx sy ex ey (fun px _ => px) (fun _ py => py)
    | 2 => DRAW_TILE_BODY core tile mapping x y sx sy ex ey (fun px _ => px)
        (fun _ py => REVERT py)
    | 1 => DRAW_TILE_BODY core tile mapping x y sx sy ex ey (fun px _ => REVERT px)
        (fun _ py => py)
    | 3 => DRAW_TILE_BODY core tile mapping x y sx sy ex ey (fun px _ => REVERT px)
        (fun _ py => REVERT py)
    | _ => core
  else if EARLY_CLIP core x y (TIC_SPRITESIZE * scale) (TIC_SPRITESIZE * scale) then core
  else
    forRange 0 TIC_SPRITESIZE (fun py c =>
      forRange 0 TIC_SPRITESIZE (fun px c =>
        let src := scaledSource o px py
        let color := mapping (tile src.1 src.2)
        if color ≠ TRANSPARENT_COLOR then
          drawRect c (x + px * scale) (y + py * scale) scale scale color
        else c) c) core

/-- Modelled from the spec: the values of `tic_flip` (`tic_no_flip`, `tic_horz_flip`,
`tic_vert_flip`; both bits set is `tic_horz_flip | tic_vert_flip`). -/
def tic_no_flip : Int := 0

/-- Modelled from the spec: horizontal flip bit of `tic_flip`. -/
def tic_horz_flip : Int := 1

/-- Modelled from the spec: vertical flip bit of `tic_flip`. -/
def tic_vert_flip : Int := 2

/-- The local constant `vert_horz_flip` of `drawSprite`. -/
def vert_horz_flip : Int := 3

/-- Modelled from the spec: the values of `tic_rotate`. -/
def tic_no_rotate : Int := 0

/-- Modelled from the spec: rotation by 90 degrees. -/
def tic_90_rotate : Int := 1

/-- Modelled from the spec: rotation by 180 degrees. -/
def tic_180_rotate : Int := 2

/-- Modelled from the spec: rotation by 270 degrees. -/
def tic_270_rotate : Int := 3

/-- The sheet `getTileSheetFromSegment` returns for a segment. -/
def getTileSheetFromSegment (core : Core) (segment : Nat) : Tilesheet := core.tilesheet segment

/-- The tile-grid cell `(mx, my)` of the sprite block that `drawSprite` blits in iteration
`(i, j)`. -/
def spriteCell (w h flip rotate i j : Int) : Int × Int :=
  let mx := i
  let my := j
  let mx := if flip = tic_horz_flip ∨ flip = vert_horz_flip then w - 1 - i else mx
  let my := if flip = tic_vert_flip ∨ flip = vert_horz_flip then h - 1 - j else my
  if rotate = tic_180_rotate then (w - 1 - mx, h - 1 - my)
  else if rotate = tic_90_rotate then
    if flip = tic_no_flip ∨ flip = vert_horz_flip then (mx, h - 1 - my) else (w - 1 - mx, my)
  else if rotate = tic_270_rotate then
    if flip = tic_no_flip ∨ flip = vert_horz_flip then (w - 1 - mx, my) else (mx, h - 1 - my)
  else (mx, my)

/-- Sprite blit `drawSprite`. -/
def drawSprite (core : Core) (index x y w h : Int) (colors : List Nat) (scale : Int)
    (flip rotate : Int) : Core :=
  if index < 0 then core
  else
    let rotate := rotate % 4
    let flip := flip % 4
    let sheet := getTileSheetFromSegment core core.blit_segment
    if w = 1 ∧ h = 1 then
      drawTile core (sheet.gettile index false) x y colors scale flip rotate
    else
      let step := TIC_SPRITESIZE * scale
      let cols := sheet.sheet_width
      if EARLY_CLIP core x y (w * step) (h * step) then core
      else
        forRange 0 w (fun i c =>
          forRange 0 h (fun j c =>
            let m := spriteCell w h flip rotate i j
            let tile := sheet.gettile (index + m.1 + m.2 * cols) false
            if rotate = 0 ∨ rotate = 2 then
              drawTile c tile (x + i * step) (y + j * step) colors scale flip rotate
            else
              drawTile c tile (x + j * step) (y + i * step) colors scale flip rotate) c) core

/-! ## Map compositor -/

/-- The loop `while (m < 0) m += n`. -/
def whileNegAdd (n : Int) (hn : 0 < n) (m : Int) : Int :=
  if m < 0 then whileNegAdd n hn (m + n) else m
termination_by (-m).toNat
decreasing_by omega

/-- The loop `while (m >= n) m -= n`. -/
def whileGeSub (n : Int) (hn : 0 < n) (m : Int) : Int :=
  if m ≥ n then whileGeSub n hn (m - n) else m
termination_by m.toNat
decreasing_by omega

/-- Map blit `drawMap`; the remap callback is a function of the cell and the default
result. -/
def drawMap (core : Core) (src : Int → Int) (x y width height sx sy : Int)
    (colors : List Nat) (scale : Int)
    (remap : Option (Int → Int → RemapResult → RemapResult)) : Core :=
  let size := TIC_SPRITESIZE * scale
  let sheet := getTileSheetFromSegment core core.blit_segment
  forRange y (y + height) (fun j c =>
    forRange x (x + width) (fun i c =>
      let jj := sy + (j - y) * size
      let ii := sx + (i - x) * size
      let mi := whileNegAdd TIC_MAP_WIDTH (by decide) i
      let mj := whileNegAdd TIC_MAP_HEIGHT (by decide) j
      let mi := whileGeSub TIC_MAP_WIDTH (by decide) mi
      let mj := whileGeSub TIC_MAP_HEIGHT (by decide) mj
      let index := mi + mj * TIC_MAP_WIDTH
      let retile : RemapResult := ⟨src index, tic_no_flip, tic_no_rotate⟩
      let retile := match remap with
        | some f => f mi mj retile
        | none => retile
      let tile := sheet.gettile retile.index true
      drawTile c tile ii jj colors scale retile.flip retile.rotate) c) core

/-! ## Text layout -/

/-- The inner scan of `drawChar`: column `i` of the glyph holds a pixel that is not
transparent (the scan over `j` stops with `j < Size`). -/
def glyphColumnUsed (font_char : Tile) (mapping : Nat → Nat) (i : Int) : Bool :=
  (List.range 8).any (fun j => mapping (font_char i (j : Int)) != TRANSPARENT_COLOR)

/-- The first trimming loop of `drawChar` (`i` and `start` advance together); the first
argument counts the columns left to scan. -/
def trimStart (font_char : Tile) (mapping : Nat → Nat) : Nat → Int → Int
  | 0, start => start
  | n + 1, start =>
    if glyphColumnUsed font_char mapping start then start
    else trimStart font_char mapping n (start + 1)

/-- The second trimming loop of `drawChar` (`i = end - 1` throughout); the first argument
counts the columns left to scan. -/
def trimEnd (font_char : Tile) (mapping : Nat → Nat) (start : Int) : Nat → Int → Int
  | 0, e => e
  | n + 1, e =>
    if e - 1 ≥ start then
      if glyphColumnUsed font_char mapping (e - 1) then e
      else trimEnd font_char mapping start n (e - 1)
    else e

/-- Glyph blit `drawChar`: the advance width and the new state. -/
def drawChar (core : Core) (font_char : Tile) (x y scale : Int) (fixed : Bool)
    (mapping : Nat → Nat) : Int × Core :=
  let start := if fixed then 0 else trimStart font_char mapping 8 0
  let e := if fixed then TIC_SPRITESIZE else trimEnd font_char mapping start 8 TIC_SPRITESIZE
  let width := e - start
  if EARLY_CLIP core x y (TIC_SPRITESIZE * scale) (TIC_SPRITESIZE * scale) then (width, core)
  else
    (width,
      forRange 0 width (fun i c =>
        forRange 0 TIC_SPRITESIZE (fun j c =>
          let color := font_char (start + i) j
          if mapping color ≠ TRANSPARENT_COLOR then
            drawRect c (x + i * scale) (y + j * scale) scale scale (mapping color)
          else c) c) core)

/-- The `while ((sym = *text++))` loop of `drawText`: final `pos`, `MAX` and state. -/
def drawTextLoop (font_face : Tilesheet) (x width height : Int) (fixed : Bool)
    (mapping : Nat → Nat) (scale : Int) (alt : Bool) :
    List Int → Int → Int → Int → Core → Int × Int × Core
  | [], pos, MAX, _, core => (pos, MAX, core)
  | sym :: text, pos, MAX, y, core =>
    if sym = 10 then
      drawTextLoop font_face x width height fixed mapping scale alt text x
        (if pos > MAX then pos else MAX) (y + height * scale) core
    else
      let font_char := font_face.gettile ((if alt then 1 else 0) * TIC_FONT_CHARS + sym) true
      let r := drawChar core font_char pos y scale fixed mapping
      let size := r.1
      drawTextLoop font_face x width height fixed mapping scale alt text
        (pos + (if !fixed ∧ size ≠ 0 then size + 1 else width) * scale) MAX y r.2

/-- Text blit `drawText`: the returned width and the new state; `text` holds the
characters before the terminating zero. -/
def drawText (core : Core) (font_face : Tilesheet) (text : List Int) (x y width height : Int)
    (fixed : Bool) (mapping : Nat → Nat) (scale : Int) (alt : Bool) : Int × Core :=
  let r := drawTextLoop font_face x width height fixed mapping scale alt text x x y core
  (if r.1 > r.2.1 then r.1 - x else r.2.1 - x, r.2.2)

/-! ## Entry points -/

/-- Entry point `tic_api_clip`.  The sums `x + width` and `y + height` are the `s32` sums of
the compiled code, which wrap around. -/
def tic_api_clip (core : Core) (x y width height : Int) : Core :=
  let l := x
  let t := y
  let r := wrapS32 (x + width)
  let b := wrapS32 (y + height)
  let l := if l < 0 then 0 else l
  let t := if t < 0 then 0 else t
  let r := if r > TIC80_WIDTH then TIC80_WIDTH else r
  let b := if b > TIC80_HEIGHT then TIC80_HEIGHT else b
  { core with clip := ⟨l, t, r, b⟩ }

/-- Entry point `tic_api_rect`. -/
def tic_api_rect (core : Core) (x y width height : Int) (color : Nat) : Core :=
  drawRect core x y width height (mapColor core color)

/-- Entry point `tic_api_print`: returned width and new state. -/
def tic_api_print (core : Core) (text : List Int) (x y : Int) (color : Nat) (fixed : Bool)
    (scale : Int) (alt : Bool) : Int × Core :=
  let mapping : Nat → Nat := fun i => if i = 0 then 255 else color
  let font_face := getTileSheetFromSegment core 1
  let font := if alt then core.font_alt else core.font_regular
  let width := font.width
  let width := if !fixed then width - 2 else width
  drawText core font_face text x y width font.height fixed mapping scale alt

/-- Entry point `tic_api_spr`. -/
def tic_api_spr (core : Core) (index x y w h : Int) (trans_colors : List Nat) (scale : Int)
    (flip rotate : Int) : Core :=
  drawSprite core index x y w h trans_colors scale flip rotate

/-- Entry point `tic_api_pix`: returned value and new state. -/
def tic_api_pix (core : Core) (x y : Int) (color : Nat) (get : Bool) : Nat × Core :=
  if get then (getPixel core x y, core)
  else (0, setPixel core x y (mapColor core color))

/-- Entry point `tic_api_rectb`. -/
def tic_api_rectb (core : Core) (x y width height : Int) (color : Nat) : Core :=
  drawRectBorder core x y width height (mapColor core color)

/-! ## Ellipse and circle rasteriser -/

/-- The reset `initSidesBuffer`. -/
def initSidesBuffer (core : Core) : Core :=
  { core with sides := forRange 0 TIC80_HEIGHT (fun i sb =>
      { Left := fun k => if k = i then TIC80_WIDTH else sb.Left k,
        Right := fun k => if k = i then -1 else sb.Right k }) core.sides }

/-- Span update `setSidePixel`; the stores narrow `x` to `s16`. -/
def setSidePixel (core : Core) (x y : Int) : Core :=
  if y ≥ 0 ∧ y < TIC80_HEIGHT then
    let sb := core.sides
    let sb : SidesBuffer := if x < sb.Left y then
      { sb with Left := fun k => if k = y then wrapS16 x else sb.Left k } else sb
    let sb : SidesBuffer := if x > sb.Right y then
      { sb with Right := fun k => if k = y then wrapS16 x else sb.Right k } else sb
    { core with sides := sb }
  else core

/-- The first midpoint pass of `drawEllipse` (`while (sx >= sy)`). -/
def ellipsePassY (pix : Core → Int → Int → Nat → Core) (x0 y0 aa2 bb2 : Int) (color : Nat)
    (haa : 0 < aa2) (hbb : 0 ≤ bb2) (x y dx dy sx sy e : Int) (core : Core) : Core :=
  if sx ≥ sy then
    let core := pix core (wrapS32 (x0 + x)) (wrapS32 (y0 + y)) color
    let core := pix core (wrapS32 (x0 + x)) (wrapS32 (y0 - y)) color
    let core := pix core (wrapS32 (x0 - x)) (wrapS32 (y0 + y)) color
    let core := pix core (wrapS32 (x0 - x)) (wrapS32 (y0 - y)) color
    if 2 * (e + dy) + dx > 0 then
      ellipsePassY pix x0 y0 aa2 bb2 color haa hbb (x - 1) (y + 1) (dx + bb2) (dy + aa2)
        (sx - bb2) (sy + aa2) (e + dy + dx) core
    else
      ellipsePassY pix x0 y0 aa2 bb2 color haa hbb x (y + 1) dx (dy + aa2) sx (sy + aa2)
        (e + dy) core
  else core
termination_by (sx - sy + 1).toNat
decreasing_by all_goals omega

/-- The second midpoint pass of `drawEllipse` (`while (sy >= sx)`). -/
def ellipsePassX (pix : Core → Int → Int → Nat → Core) (x0 y0 aa2 bb2 : Int) (color : Nat)
    (haa : 0 ≤ aa2) (hbb : 0 < bb2) (x y dx dy sx sy e : Int) (core : Core) : Core :=
  if sy ≥ sx then
    let core := pix core (wrapS32 (x0 + x)) (wrapS32 (y0 + y)) color
    let core := pix core (wrapS32 (x0 + x)) (wrapS32 (y0 - y)) color
    let core := pix core (wrapS32 (x0 - x)) (wrapS32 (y0 + y)) color
    let core := pix core (wrapS32 (x0 - x)) (wrapS32 (y0 - y)) color
    if 2 * (e + dx) + dy > 0 then
      ellipsePassX pix x0 y0 aa2 bb2 color haa hbb (x + 1) (y - 1) (dx + bb2) (dy + aa2)
        (sx + bb2) (sy - aa2) (e + dx + dy) core
    else
      ellipsePassX pix x0 y0 aa2 bb2 color haa hbb (x + 1) y (dx + bb2) dy (sx + bb2) sy
        (e + dx) core
  else core
termination_by (sy - sx + 1).toNat
decreasing_by all_goals omega

/-- Midpoint ellipse `drawEllipse`; `pix` is the pixel callback. -/
def drawEllipse (core : Core) (x0 y0 a b : Int) (color : Nat)
    (pix : Core → Int → Int → Nat → Core) : Core :=
  if ha : a ≤ 0 then core
  else if hb : b ≤ 0 then core
  else
    have ha2 : 0 < a * a * 2 := by
      have : 0 < a * a := Int.mul_pos (by omega) (by omega)
      omega
    have hb2 : 0 < b * b * 2 := by
      have : 0 < b * b := Int.mul_pos (by omega) (by omega)
      omega
    let aa2 := a * a * 2
    let bb2 := b * b * 2
    let core := ellipsePassY pix x0 y0 aa2 bb2 color ha2 (Int.le_of_lt hb2)
      a 0 ((1 - 2 * a) * b * b) (a * a) (bb2 * a) 0 0 core
    ellipsePassX pix x0 y0 aa2 bb2 color (Int.le_of_lt ha2) hb2
      0 b (b * b) ((1 - 2 * b) * a * a) 0 (aa2 * b) 0 core

/-- Pixel callback `setElliPixel`. -/
def setElliPixel (core : Core) (x y : Int) (color : Nat) : Core := setPixel core x y color

/-- Pixel callback `setElliSide`. -/
def setElliSide (core : Core) (x y : Int) (_color : Nat) : Core := setSidePixel core x y

/-- Span fill `drawSidesBuffer`. -/
def drawSidesBuffer (core : Core) (y0 y1 : Int) (color : Nat) : Core :=
  let yt := max core.clip.t y0
  let yb := min core.clip.b (y1 + 1)
  forRange yt yb (fun y c =>
    let xl := max (c.sides.Left y) c.clip.l
    let xr := min (c.sides.Right y + 1) c.clip.r
    let start := y * TIC80_WIDTH
    forRange (start + xl) (start + xr) (fun i c => tic_api_poke4 c i color) c) core

/-- Entry point `tic_api_circ`. -/
def tic_api_circ (core : Core) (x y r : Int) (color : Nat) : Core :=
  let core := initSidesBuffer core
  let core := drawEllipse core x y r r 0 setElliSide
  drawSidesBuffer core (y - r) (y + r + 1) color

/-- Entry point `tic_api_circb`. -/
def tic_api_circb (core : Core) (x y r : Int) (color : Nat) : Core :=
  drawEllipse core x y r r (mapColor core color) setElliPixel

/-- Entry point `tic_api_elli`. -/
def tic_api_elli (core : Core) (x y a b : Int) (color : Nat) : Core :=
  let core := initSidesBuffer core
  let core := drawEllipse core x y a b 0 setElliSide
  drawSidesBuffer core (y - b) (y + b + 1) color

/-- Entry point `tic_api_ellib`. -/
def tic_api_ellib (core : Core) (x y a b : Int) (color : Nat) : Core :=
  drawEllipse core x y a b (mapColor core color) setElliPixel

/-- Entry point `tic_api_map`. -/
def tic_api_map (core : Core) (x y width height sx sy : Int) (colors : List Nat) (scale : Int)
    (remap : Option (Int → Int → RemapResult → RemapResult)) : Core :=
  drawMap core core.map x y width height sx sy colors scale remap

/-! ## Specification vocabulary -/

/-- The pixel `(x, y)` lies in the clip rectangle. -/
def inClip (clip : ClipRect) (x y : Int) : Prop :=
  clip.l ≤ x ∧ x < clip.r ∧ clip.t ≤ y ∧ y < clip.b

instance (clip : ClipRect) (x y : Int) : Decidable (inClip clip x y) :=
  inferInstanceAs (Decidable (clip.l ≤ x ∧ x < clip.r ∧ clip.t ≤ y ∧ y < clip.b))

/-- The pixel `(x, y)` is a pixel of the framebuffer. -/
def onScreen (x y : Int) : Prop :=
  0 ≤ x ∧ x < TIC80_WIDTH ∧ 0 ≤ y ∧ y < TIC80_HEIGHT

instance (x y : Int) : Decidable (onScreen x y) :=
  inferInstanceAs (Decidable (0 ≤ x ∧ x < TIC80_WIDTH ∧ 0 ≤ y ∧ y < TIC80_HEIGHT))

/-- State `b` differs from `a` in the video memory at most. -/
def SameEnv (a b : Core) : Prop := b = { a with screen := b.screen }

/-- The step from `a` to `b` writes exactly the cells in the domain of `R`, each with a value
that `R` relates to it, and leaves everything else as it was. -/
def Paints (R : Int → Nat → Prop) (a b : Core) : Prop :=
  SameEnv a b ∧ ∀ addr, ((∃ v, R addr v) → R addr (b.screen addr)) ∧
    ((¬ ∃ v, R addr v) → b.screen addr = a.screen addr)

/-- Pixel form of `Paints`: the cells written are those of the pixels in the domain of
`S`. -/
def PaintsPx (S : Int → Int → Nat → Prop) (a b : Core) : Prop :=
  Paints (fun addr v => ∃ px py, addr = py * TIC80_WIDTH + px ∧ S px py v) a b

/-- The pixels `drawTile` writes and their values: destination pixel `(qx, qy)` lies in the
clip rectangle and in the `scale x scale` block of a tile offset `(px, py)` whose sample is
not transparent; `v` is the value stored. -/
def tileWrites (core : Core) (tile : Tile) (x y : Int) (colors : List Nat)
    (scale flip rotate : Int) (qx qy : Int) (v : Nat) : Prop :=
  ∃ px py, 0 ≤ px ∧ px < 8 ∧ 0 ≤ py ∧ py < 8 ∧
    x + px * scale ≤ qx ∧ qx < x + px * scale + scale ∧
    y + py * scale ≤ qy ∧ qy < y + py * scale + scale ∧
    inClip core.clip qx qy ∧
    getPalette core colors (tile (scaledSource (orientation flip rotate) px py).1
      (scaledSource (orientation flip rotate) px py).2) ≠ TRANSPARENT_COLOR ∧
    v = getPalette core colors (tile (scaledSource (orientation flip rotate) px py).1
      (scaledSource (orientation flip rotate) px py).2) % 16

/-- The bounds every clip rectangle set by `tic_api_clip` satisfies. -/
def ClipRect.inScreen (clip : ClipRect) : Prop :=
  0 ≤ clip.l ∧ clip.r ≤ TIC80_WIDTH ∧ 0 ≤ clip.t ∧ clip.b ≤ TIC80_HEIGHT

/-- A state for concrete runs: black screen, identity colour mapping, full-screen clip, and
a sheet whose tile `n` holds colour `(n + x + 2 * y) % 16` at `(x, y)`. -/
def demoCore : Core where
  screen := fun _ => 0
  mapping := fun i => i
  clip := ⟨0, 0, 240, 136⟩
  sides := ⟨fun _ => 240, fun _ => -1⟩
  tilesheet := fun _ => ⟨fun n _ x y => ((n + x + 2 * y) % 16).toNat, 16⟩
  blit_segment := 2
  map := fun _ => 0
  font_regular := ⟨6, 6⟩
  font_alt := ⟨4, 6⟩
  tilesheet_getpix := fun _ x y => ((x + 2 * y) % 16).toNat
  vbank := fun _ => 0
  flags := fun _ => 0
  flag_stub := 0

/-- The flip `F_f` of the specification on tile coordinates: `F_1 (x, y) = (7 - x, y)`,
`F_2 (x, y) = (x, 7 - y)`, `F_3 (x, y) = (7 - x, 7 - y)`, `F_0` the identity. -/
def specFlip (f : Int) (p : Int × Int) : Int × Int :=
  if f = 1 then (7 - p.1, p.2)
  else if f = 2 then (p.1, 7 - p.2)
  else if f = 3 then (7 - p.1, 7 - p.2)
  else p

/-- The quarter turn `R (x, y) = (y, 7 - x)` of the specification. -/
def specRotate (p : Int × Int) : Int × Int := (p.2, 7 - p.1)

/-- The composition `R^r (F_f (px, py))` of the specification, with `f` and `r` taken
modulo four. -/
def specSource (flip rotate : Int) (px py : Int) : Int × Int :=
  Nat.iterate specRotate (rotate % 4).toNat (specFlip (flip % 4) (px, py))

/-- The destination-to-source coordinate map of `drawTile` (`scale == 1` path) for a flip
and a rotation. -/
def tileSource (flip rotate : Int) (p : Int × Int) : Int × Int :=
  fastSource (orientation flip rotate) p.1 p.2

/-- The destination-to-source coordinate map of the scaled path of `drawTile`. -/
def tileSourceScaled (flip rotate : Int) (p : Int × Int) : Int × Int :=
  scaledSource (orientation flip rotate) p.1 p.2

/-- The source block of the specification for a multi-cell sprite: `S (u, v)` is the pixel
`(u mod 8, v mod 8)` of tile `index + floor (u / 8) + floor (v / 8) * cols`. -/
def specBlockPixel (sheet : Tilesheet) (index : Int) (u v : Int) : Nat :=
  sheet.gettile (index + u / 8 + v / 8 * sheet.sheet_width) false (u % 8) (v % 8)

/-- The flip of the specification on a block `dw` wide and `dh` tall. -/
def specBlockFlip (f dw dh : Int) (p : Int × Int) : Int × Int :=
  if f = 1 then (dw - 1 - p.1, p.2)
  else if f = 2 then (p.1, dh - 1 - p.2)
  else if f = 3 then (dw - 1 - p.1, dh - 1 - p.2)
  else p

/-- The quarter turn of the specification, `n` times, starting on a block `dw` wide and `dh`
tall: one turn sends `(x, y)` to `(y, dw - 1 - x)` on the block `dh` wide and `dw` tall. -/
def specBlockRotate : Nat → Int → Int → Int × Int → Int × Int
  | 0, _, _, p => p
  | n + 1, dw, dh, p => specBlockRotate n dh dw (p.2, dw - 1 - p.1)

/-- Width of the destination block of a `w x h` sprite at scale 1: `8 h` for a rotation by 90
or 270 degrees, `8 w` otherwise. -/
def spriteDestWidth (w h rotate : Int) : Int :=
  if rotate % 4 = 1 ∨ rotate % 4 = 3 then 8 * h else 8 * w

/-- Height of the destination block of a `w x h` sprite at scale 1. -/
def spriteDestHeight (w h rotate : Int) : Int :=
  if rotate % 4 = 1 ∨ rotate % 4 = 3 then 8 * w else 8 * h

/-- The source coordinate of the specification for the destination offset `(X, Y)` of a
`w x h` sprite: the flip and the rotation of a single tile applied to the whole block. -/
def specBlockSource (w h flip rotate X Y : Int) : Int × Int :=
  specBlockRotate (rotate % 4).toNat (spriteDestWidth w h rotate) (spriteDestHeight w h rotate)
    (specBlockFlip (flip % 4) (spriteDestWidth w h rotate) (spriteDestHeight w h rotate) (X, Y))

/-- The tile `drawSprite` blits in iteration `(i, j)` of its multi-cell branch (`flip` and
`rotate` already masked). -/
def spriteTile (core : Core) (index w h flip rotate i j : Int) : Tile :=
  (getTileSheetFromSegment core core.blit_segment).gettile
    (index + (spriteCell w h flip rotate i j).1 +
      (spriteCell w h flip rotate i j).2 *
        (getTileSheetFromSegment core core.blit_segment).sheet_width) false

/-- The destination of the tile `drawSprite` blits in iteration `(i, j)`. -/
def spritePos (x y scale rotate i j : Int) : Int × Int :=
  if rotate = 0 ∨ rotate = 2 then
    (x + i * (TIC_SPRITESIZE * scale), y + j * (TIC_SPRITESIZE * scale))
  else (x + j * (TIC_SPRITESIZE * scale), y + i * (TIC_SPRITESIZE * scale))

/-- The pixels the multi-cell branch of `drawSprite` writes, and their values. -/
def spriteWrites (core : Core) (index x y w h : Int) (colors : List Nat)
    (scale flip rotate : Int) (qx qy : Int) (v : Nat) : Prop :=
  ∃ i j, 0 ≤ i ∧ i < w ∧ 0 ≤ j ∧ j < h ∧
    tileWrites core (spriteTile core index w h (flip % 4) (rotate % 4) i j)
      (spritePos x y scale (rotate % 4) i j).1 (spritePos x y scale (rotate % 4) i j).2
      colors scale (flip % 4) (rotate % 4) qx qy v

/-- The map blit of the specification: the loop nest of `drawMap` with the cell of region
cell `(i, j)` taken as `(i mod 240, j mod 136)` (non-negative remainders). -/
def drawMapWrapped (core : Core) (src : Int → Int) (x y width height sx sy : Int)
    (colors : List Nat) (scale : Int)
    (remap : Option (Int → Int → RemapResult → RemapResult)) : Core :=
  forRange y (y + height) (fun j c =>
    forRange x (x + width) (fun i c =>
      let mi := i % 240
      let mj := j % 136
      let retile : RemapResult := ⟨src (mi + mj * 240), tic_no_flip, tic_no_rotate⟩
      let retile := match remap with
        | some f => f mi mj retile
        | none => retile
      drawTile c ((getTileSheetFromSegment core core.blit_segment).gettile retile.index true)
        (sx + (i - x) * (TIC_SPRITESIZE * scale)) (sy + (j - y) * (TIC_SPRITESIZE * scale))
        colors scale retile.flip retile.rotate) c) core

/-- The loop variables `(x, y)` at the iterations of the first midpoint pass of
`drawEllipse`, in order; the first argument bounds the number of iterations. -/
def tracePassY (aa2 bb2 : Int) : Nat → Int → Int → Int → Int → Int → Int → Int →
    List (Int × Int)
  | 0, _, _, _, _, _, _, _ => []
  | n + 1, x, y, dx, dy, sx, sy, e =>
    if sx ≥ sy then
      (x, y) ::
        (if 2 * (e + dy) + dx > 0 then
          tracePassY aa2 bb2 n (x - 1) (y + 1) (dx + bb2) (dy + aa2) (sx - bb2) (sy + aa2)
            (e + dy + dx)
        else tracePassY aa2 bb2 n x (y + 1) dx (dy + aa2) sx (sy + aa2) (e + dy))
    else []

/-- The loop variables `(x, y)` at the iterations of the second midpoint pass of
`drawEllipse`, in order. -/
def tracePassX (aa2 bb2 : Int) : Nat → Int → Int → Int → Int → Int → Int → Int →
    List (Int × Int)
  | 0, _, _, _, _, _, _, _ => []
  | n + 1, x, y, dx, dy, sx, sy, e =>
    if sy ≥ sx then
      (x, y) ::
        (if 2 * (e + dx) + dy > 0 then
          tracePassX aa2 bb2 n (x + 1) (y - 1) (dx + bb2) (dy + aa2) (sx + bb2) (sy - aa2)
            (e + dx + dy)
        else tracePassX aa2 bb2 n (x + 1) y (dx + bb2) dy (sx + bb2) sy (e + dx))
    else []

/-- The first-quadrant offsets `(x, y)` at which `drawEllipse` plots, pass by pass. -/
def ellipseSteps (a b : Int) : List (Int × Int) :=
  if a ≤ 0 then []
  else if b ≤ 0 then []
  else
    tracePassY (a * a * 2) (b * b * 2) (b * b * 2 * a + 1).toNat a 0 ((1 - 2 * a) * b * b)
        (a * a) (b * b * 2 * a) 0 0 ++
      tracePassX (a * a * 2) (b * b * 2) (a * a * 2 * b + 1).toNat 0 b (b * b)
        ((1 - 2 * b) * a * a) 0 (a * a * 2 * b) 0

/-- The four points `drawEllipse` passes to the pixel callback for the offset `p`, in the
order of the calls. -/
def quadPoints (x0 y0 : Int) (p : Int × Int) : List (Int × Int) :=
  [(wrapS32 (x0 + p.1), wrapS32 (y0 + p.2)), (wrapS32 (x0 + p.1), wrapS32 (y0 - p.2)),
   (wrapS32 (x0 - p.1), wrapS32 (y0 + p.2)), (wrapS32 (x0 - p.1), wrapS32 (y0 - p.2))]

/-- The points `drawEllipse` traces: the arguments of its calls of the pixel callback, in
order. -/
def ellipseTrace (x0 y0 a b : Int) : List (Int × Int) :=
  (ellipseSteps a b).flatMap (quadPoints x0 y0)

/-- The pixel `(px, py)` lies in a span `drawSidesBuffer core y0 y1` fills: its row is in the
clipped row range and its column between the clipped extents recorded for the row. -/
def spanFilled (core : Core) (y0 y1 px py : Int) : Prop :=
  max core.clip.t y0 ≤ py ∧ py < min core.clip.b (y1 + 1) ∧
    max (core.sides.Left py) core.clip.l ≤ px ∧ px < min (core.sides.Right py + 1) core.clip.r

instance (core : Core) (y0 y1 px py : Int) : Decidable (spanFilled core y0 y1 px py) :=
  inferInstanceAs (Decidable (max core.clip.t y0 ≤ py ∧ py < min core.clip.b (y1 + 1) ∧
    max (core.sides.Left py) core.clip.l ≤ px ∧ px < min (core.sides.Right py + 1) core.clip.r))

/-- Two span buffers hold the same extents on the rows of the screen. -/
def sidesAgree (s1 s2 : SidesBuffer) : Prop :=
  ∀ i, 0 ≤ i → i < TIC80_HEIGHT → s1.Left i = s2.Left i ∧ s1.Right i = s2.Right i

/-- State `b` differs from `a` in the span buffer at most. -/
def SameButSides (a b : Core) : Prop := b = { a with sides := b.sides }

/-- A state for concrete runs whose colour mapping is not the identity: colour `i` is mapped
to `(i + 1) % 16`. -/
def demoCoreShifted : Core := { demoCore with mapping := fun i => (i + 1) % 16 }

/-! ## Flags -/

/-- Modelled from the spec: number of entries of the per-tile flag table (`TIC_FLAGS`). -/
def TIC_FLAGS : Int := 512

/-- Modelled from the spec: number of bits of a flag byte (`BITS_IN_BYTE`). -/
def BITS_IN_BYTE : Nat := 8

/-- The byte a pointer returned by `getFlag` points to: the static `stub` or the byte
`flags.data + index`. -/
inductive FlagCell where
  | stub
  | data (index : Int)

/-- The bounds check `getFlag`. -/
def getFlag (index : Int) (flag : Nat) : FlagCell :=
  if index ≥ TIC_FLAGS ∨ flag ≥ BITS_IN_BYTE then FlagCell.stub else FlagCell.data index

/-- Reading the byte a flag pointer points to. -/
def FlagCell.read (core : Core) : FlagCell → Nat
  | FlagCell.stub => core.flag_stub
  | FlagCell.data index => core.flags index

/-- Storing a value into the byte a flag pointer points to (the byte keeps the low eight
bits). -/
def FlagCell.write (core : Core) (value : Nat) : FlagCell → Core
  | FlagCell.stub => { core with flag_stub := value % 256 }
  | FlagCell.data index =>
    { core with flags := fun k => if k = index then value % 256 else core.flags k }

/-- Entry point `tic_api_fget`. -/
def tic_api_fget (core : Core) (index : Int) (flag : Nat) : Bool :=
  decide ((getFlag index flag).read core &&& (1 <<< flag) ≠ 0)

/-- Entry point `tic_api_fset`; `b & ~m` is written `b ^ (b & m)`. -/
def tic_api_fset (core : Core) (index : Int) (flag : Nat) (value : Bool) : Core :=
  if value then
    (getFlag index flag).write core ((getFlag index flag).read core ||| (1 <<< flag))
  else
    (getFlag index flag).write core
      ((getFlag index flag).read core ^^^ ((getFlag index flag).read core &&& (1 <<< flag)))

/-! ## Text width vocabulary -/

/-- Trimmed glyph width in the words of the specification: the columns from the first used
one to the last used one, both included; `0` when no column is used. -/
def specTrimmedWidth (used : Int → Bool) : Int :=
  let cols : List Nat := (List.range 8).filter (fun i => used (i : Int))
  if cols.isEmpty then 0 else (cols.getLast?.getD 0 : Int) - (cols.head?.getD 0 : Int) + 1

/-- Advance of one character in the words of the specification. -/
def specGlyphAdvance (font_face : Tilesheet) (width scale : Int) (fixed : Bool)
    (mapping : Nat → Nat) (alt : Bool) (sym : Int) : Int :=
  let font_char := font_face.gettile ((if alt then 1 else 0) * TIC_FONT_CHARS + sym) true
  let tw := specTrimmedWidth (glyphColumnUsed font_char mapping)
  if fixed ∨ tw = 0 then width * scale else (tw + 1) * scale

/-- Widths of the newline-separated lines of a text: the sum of the advances on each line. -/
def specLineWidths (adv : Int → Int) (text : List Int) : List Int :=
  (text.splitOn 10).map (fun line => (line.map adv).sum)

/-- Maximum of a nonempty list of integers (`0` for the empty list). -/
def specWidest : List Int → Int
  | [] => 0
  | a :: l => l.foldr max a

/-! ## Triangle rasteriser

The `double` arithmetic of draw.c is IEEE 754 binary64 arithmetic.  A finite `double` is read
as the rational number it denotes, and each operation of the C code is the exact operation
followed by rounding to the nearest `double`, ties to even (`roundDouble`): every operation is
rounded on its own, as the compiled code does without fused multiply-add and without extended
precision.  Infinities and NaN are outside the embedding (the rounding has no largest
exponent), and `-0.0` is read as `0`; the arguments of the entry points are the values of
their `float` parameters.  The conversions of a `double` to `s32` are explicit
(`truncS32`). -/

/-- The number `floor (log2 n)` for `n >= 1`, by halving; the first argument bounds the number
of halvings. -/
def log2Fuel : Nat → Nat → Nat
  | 0, _ => 0
  | fuel + 1, n => if n < 2 then 0 else log2Fuel fuel (n / 2) + 1

/-- The number `floor (log2 n)` for `n >= 1`. -/
def ilog2 (n : Nat) : Nat := log2Fuel n n

/-- The power `2 ^ k` for an integer exponent. -/
def pow2 (k : Int) : ℚ := (2 : ℚ) ^ k

/-- Rounding to the nearest integer, ties to the even one. -/
def roundHalfEven (m : ℚ) : Int :=
  let f := Int.floor m
  let r := m - f
  if r < 1 / 2 then f
  else if r > 1 / 2 then f + 1
  else if f % 2 = 0 then f else f + 1

/-- The exponent `e` with `2 ^ e <= a < 2 ^ (e + 1)`, for `a > 0`. -/
def binade (a : ℚ) : Int :=
  let e0 : Int := (ilog2 a.num.natAbs : Int) - (ilog2 a.den : Int)
  if a < pow2 e0 then e0 - 1 else e0

/-- Rounding to the nearest binary floating-point number with a significand of `p` bits and
least quantum `2 ^ emin` (gradual underflow), ties to even; the exponent is not bounded
above. -/
def roundBinary (p : Nat) (emin : Int) (q : ℚ) : ℚ :=
  if q = 0 then 0
  else
    let k := max (binade |q| - ((p : Int) - 1)) emin
    (if q < 0 then -1 else 1) * (roundHalfEven (|q| / pow2 k) : ℚ) * pow2 k

/-- Rounding to the nearest `double` (binary64). -/
def roundDouble (q : ℚ) : ℚ := roundBinary 53 (-1074) q

/-- The value is a finite `float` (binary32), the type of the coordinate parameters of
`tic_api_tri` and `tic_api_textri`. -/
def isFloat (q : ℚ) : Prop := roundBinary 24 (-149) q = q ∧ |q| < 2 ^ 128

instance (q : ℚ) : Decidable (isFloat q) :=
  inferInstanceAs (Decidable (roundBinary 24 (-149) q = q ∧ |q| < 2 ^ 128))

/-- The sum `a + b` of two doubles. -/
def dadd (a b : ℚ) : ℚ := roundDouble (a + b)

/-- The difference `a - b` of two doubles. -/
def dsub (a b : ℚ) : ℚ := roundDouble (a - b)

/-- The product `a * b` of two doubles. -/
def dmul (a b : ℚ) : ℚ := roundDouble (a * b)

/-- The quotient `a / b` of two doubles, `b` not zero. -/
def ddiv (a b : ℚ) : ℚ := roundDouble (a / b)

/-- Conversion of a `double` to `s32`: the fractional part is discarded.  A value out of the
range of `s32` is undefined behaviour in C; the embedding takes the result of the x86-64
conversion instruction, `INT_MIN`. -/
def truncS32 (q : ℚ) : Int :=
  let t := if 0 ≤ q then Int.floor q else Int.ceil q
  if -2147483648 ≤ t ∧ t ≤ 2147483647 then t else -2147483648

/-- The struct `Vec2`. -/
structure Vec2 where
  x : ℚ
  y : ℚ

/-- The struct `ShaderAttr` for vertices of type `V`: the vertex pointers `v[0..2]` and the
weights `w[0..2]`; the `data` pointer is held by the shader itself. -/
structure ShaderAttr (V : Type) where
  v0 : V
  v1 : V
  v2 : V
  w0 : ℚ
  w1 : ℚ
  w2 : ℚ

/-- Modelled from the spec: the macro `MIN3`, the least of three values. -/
def MIN3 (a b c : ℚ) : ℚ := min (min a b) c

/-- Modelled from the spec: the macro `MAX3`, the greatest of three values. -/
def MAX3 (a b c : ℚ) : ℚ := max (max a b) c

/-- The edge function `edgeFn`, in `double` arithmetic. -/
def edgeFn (a b c : Vec2) : ℚ :=
  dsub (dmul (dsub b.x a.x) (dsub c.y a.y)) (dmul (dsub b.y a.y) (dsub c.x a.x))

/-- The constant `Center` of `drawTri`, `0.5 - 1e-07`: the literal `1e-07` is the nearest
double, and so is the difference. -/
def Center : ℚ := dsub (1 / 2) (roundDouble (1 / 10000000))

/-- Triangle scan conversion `drawTri`.  The vertices are of a type `V` whose first member
is a `Vec2`, read through `pos` (the C code passes `const Vec2*` pointers, which the texture
shaders cast back to `TexVert*`).  The state of the scan loops is the core with the three
weights `a.w`, respectively the three row starts `s`. -/
def drawTri {V : Type} (pos : V → Vec2) (core : Core) (v0 v1 v2 : V)
    (shader : ShaderAttr V → Nat) : Core :=
  let clip := core.clip
  let min_x : Int := truncS32 (Int.floor (MIN3 (pos v0).x (pos v1).x (pos v2).x))
  let min_y : Int := truncS32 (Int.floor (MIN3 (pos v0).y (pos v1).y (pos v2).y))
  let max_x : Int := truncS32 (Int.ceil (MAX3 (pos v0).x (pos v1).x (pos v2).x))
  let max_y : Int := truncS32 (Int.ceil (MAX3 (pos v0).y (pos v1).y (pos v2).y))
  let min_x := max min_x clip.l
  let min_y := max min_y clip.t
  let max_x := min max_x clip.r
  let max_y := min max_y clip.b
  if min_x ≥ max_x ∨ min_y ≥ max_y then core
  else
    let area := edgeFn (pos v0) (pos v1) (pos v2)
    if truncS32 (Int.floor area) = 0 then core
    else
      let a1 := if area < 0 then v2 else v1
      let a2 := if area < 0 then v1 else v2
      let area := if area < 0 then -area else area
      let p : Vec2 := ⟨dadd min_x Center, dadd min_y Center⟩
      let d0 : Vec2 :=
        ⟨ddiv (dsub (pos a1).y (pos a2).y) area, ddiv (dsub (pos a2).x (pos a1).x) area⟩
      let s0 := ddiv (edgeFn (pos a1) (pos a2) p) area
      let d1 : Vec2 :=
        ⟨ddiv (dsub (pos a2).y (pos v0).y) area, ddiv (dsub (pos v0).x (pos a2).x) area⟩
      let s1 := ddiv (edgeFn (pos a2) (pos v0) p) area
      let d2 : Vec2 :=
        ⟨ddiv (dsub (pos v0).y (pos a1).y) area, ddiv (dsub (pos a1).x (pos v0).x) area⟩
      let s2 := ddiv (edgeFn (pos v0) (pos a1) p) area
      (forRange min_y max_y (fun y (st : Core × ℚ × ℚ × ℚ) =>
        let row := forRange min_x max_x (fun x (rs : Core × ℚ × ℚ × ℚ) =>
          let w0 := rs.2.1
          let w1 := rs.2.2.1
          let w2 := rs.2.2.2
          let c :=
            if w0 ≥ 0 ∧ w1 ≥ 0 ∧ w2 ≥ 0 then
              let color := shader ⟨v0, a1, a2, w0, w1, w2⟩
              if color ≠ TRANSPARENT_COLOR then setPixelFast rs.1 x y color else rs.1
            else rs.1
          (c, dadd w0 d0.x, dadd w1 d1.x, dadd w2 d2.x)) (st.1, st.2.1, st.2.2.1, st.2.2.2)
        (row.1, dadd st.2.1 d0.y, dadd st.2.2.1 d1.y, dadd st.2.2.2 d2.y))
        (core, s0, s1, s2)).1

/-- The shader `triColorShader`: the colour behind the `data` pointer. -/
def triColorShader (color : Nat) (_a : ShaderAttr Vec2) : Nat := color

/-- Entry point `tic_api_tri`; the coordinates are the values of the `float` arguments. -/
def tic_api_tri (core : Core) (x1 y1 x2 y2 x3 y3 : ℚ) (color : Nat) : Core :=
  let color := mapColor core color
  drawTri id core ⟨x1, y1⟩ ⟨x2, y2⟩ ⟨x3, y3⟩ (triColorShader color)

/-- The struct `TexVert`; the member `pos` is the `Vec2` the C code names `_`. -/
structure TexVert where
  pos : Vec2
  u : ℚ
  v : ℚ

/-- Texture coordinates `calcUV`: the sums are accumulated in `double`, then converted to
`s32`. -/
def calcUV (a : ShaderAttr TexVert) : Int × Int :=
  let px : ℚ := dadd (dadd (dadd 0 (dmul a.w0 a.v0.u)) (dmul a.w1 a.v1.u)) (dmul a.w2 a.v2.u)
  let py : ℚ := dadd (dadd (dadd 0 (dmul a.w0 a.v0.v)) (dmul a.w1 a.v1.v)) (dmul a.w2 a.v2.v)
  (truncS32 px, truncS32 py)

/-- Modelled from the spec: side length in pixels of the sprite sheet
(`TIC_SPRITESHEET_SIZE`). -/
def TIC_SPRITESHEET_SIZE : Int := 128

/-- Modelled from the spec: number of sprite banks (`TIC_SPRITE_BANKS`). -/
def TIC_SPRITE_BANKS : Int := 2

/-- The shader `triTexMapShader`; `data` is the sheet, the palette table and the map. -/
def triTexMapShader (sheet : Tilesheet) (mapping : Nat → Nat) (map : Int → Int)
    (a : ShaderAttr TexVert) : Nat :=
  let MapWidth := TIC_MAP_WIDTH * TIC_SPRITESIZE
  let MapHeight := TIC_MAP_HEIGHT * TIC_SPRITESIZE
  let uv := calcUV a
  let u := whileNegAdd MapWidth (by decide) uv.1
  let v := whileNegAdd MapHeight (by decide) uv.2
  let u := if u ≥ MapWidth then u % MapWidth else u
  let v := if v ≥ MapHeight then v % MapHeight else v
  let idx := map ((v / 8) * TIC_MAP_WIDTH + u / 8)
  let tile := sheet.gettile idx true
  mapping (tile (u % TIC_SPRITESIZE) (v % TIC_SPRITESIZE))

/-- The shader `triTexTileShader`; `getpix` is the sheet seen through
`tic_tilesheet_getpix`. -/
def triTexTileShader (getpix : Int → Int → Nat) (mapping : Nat → Nat)
    (a : ShaderAttr TexVert) : Nat :=
  let uv := calcUV a
  mapping (getpix (uv.1 % TIC_SPRITESHEET_SIZE)
    (uv.2 % (TIC_SPRITESHEET_SIZE * TIC_SPRITE_BANKS)))

/-- The shader `triTexVbankShader`; `vbank` is the memory of the other video bank. -/
def triTexVbankShader (vbank : Int → Nat) (mapping : Nat → Nat)
    (a : ShaderAttr TexVert) : Nat :=
  let uv := calcUV a
  let u := whileNegAdd TIC80_WIDTH (by decide) uv.1
  let v := whileNegAdd TIC80_HEIGHT (by decide) uv.2
  let u := if u ≥ TIC80_WIDTH then u % TIC80_WIDTH else u
  let v := if v ≥ TIC80_HEIGHT then v % TIC80_HEIGHT else v
  mapping (tic_tool_peek4 (fun i => vbank (i : Int)) (v * TIC80_WIDTH + u).toNat)

/-- Modelled from the spec: the texture sources `tic_texture_src`. -/
inductive tic_texture_src where
  | tic_tiles_texture
  | tic_map_texture
  | tic_vbank_texture
  deriving DecidableEq

/-- Entry point `tic_api_textri`. -/
def tic_api_textri (core : Core) (x1 y1 x2 y2 x3 y3 u1 v1 u2 v2 u3 v3 : ℚ)
    (texsrc : tic_texture_src) (colors : List Nat) : Core :=
  let sheet := getTileSheetFromSegment core core.blit_segment
  let mapping := getPalette core colors
  drawTri TexVert.pos core ⟨⟨x1, y1⟩, u1, v1⟩ ⟨⟨x2, y2⟩, u2, v2⟩ ⟨⟨x3, y3⟩, u3, v3⟩
    (if texsrc = tic_texture_src.tic_vbank_texture then
      triTexVbankShader core.vbank mapping
    else if texsrc = tic_texture_src.tic_map_texture then
      triTexMapShader sheet mapping core.map
    else triTexTileShader (core.tilesheet_getpix core.blit_segment) mapping)

/-! ## The generic path of the tile blitter -/

/-- The generic scaled path of `drawTile`: the code after the `if (scale == 1)` block, which
the function runs for every other scale. -/
def drawTileScaled (core : Core) (tile : Tile) (x y : Int) (colors : List Nat) (scale : Int)
    (flip rotate : Int) : Core :=
  let mapping := getPalette core colors
  let o := orientation flip rotate
  if EARLY_CLIP core x y (TIC_SPRITESIZE * scale) (TIC_SPRITESIZE * scale) then core
  else
    forRange 0 TIC_SPRITESIZE (fun py c =>
      forRange 0 TIC_SPRITESIZE (fun px c =>
        let src := scaledSource o px py
        let color := mapping (tile src.1 src.2)
        if color ≠ TRANSPARENT_COLOR then
          drawRect c (x + px * scale) (y + py * scale) scale scale color
        else c) c) core

/-- The state `demoCore` after `tic_api_clip (10, 0, 230, 136)`: the clip rectangle leaves out
the ten leftmost columns. -/
def demoCoreClipped : Core := tic_api_clip demoCore 10 0 230 136

theorem forRange_of_le {σ : Type} (lo hi : Int) (body : Int → σ → σ) (s : σ) (h : hi ≤ lo) :
    forRange lo hi body s = s := by
  unfold forRange
  have h0 : (hi - lo).toNat = 0 := by omega
  rw [h0]
  rfl

theorem forRange_succ {σ : Type} (lo hi : Int) (body : Int → σ → σ) (s : σ) (h : lo ≤ hi) :
    forRange lo (hi + 1) body s = body hi (forRange lo hi body s) := by
  unfold forRange
  have h1 : (hi + 1 - lo).toNat = (hi - lo).toNat + 1 := by omega
  have h2 : lo + (((hi - lo).toNat : Nat) : Int) = hi := by omega
  rw [h1, List.range_succ, List.foldl_append]
  simp only [List.foldl_cons, List.foldl_nil]
  rw [h2]

/-- Induction over the iterations of a `forRange` loop. -/
theorem forRange_induct {σ : Type} (lo hi : Int) (body : Int → σ → σ) (s : σ)
    (P : Int → σ → Prop) (h0 : P lo s)
    (hstep : ∀ i c, lo ≤ i → i < hi → P i c → P (i + 1) (body i c)) :
    ∀ k, lo ≤ k → k ≤ hi → P k (forRange lo k body s) := by
  intro k hk
  refine Int.le_induction (P := fun k => k ≤ hi → P k (forRange lo k body s)) ?_ ?_ k hk
  · intro _
    rw [forRange_of_le lo lo body s (le_refl lo)]
    exact h0
  · intro k hk ih hle
    rw [forRange_succ lo k body s hk]
    exact hstep k _ hk (by omega) (ih (by omega))

theorem sameEnv_refl (a : Core) : SameEnv a a := rfl

theorem sameEnv_trans {a b c : Core} (h1 : SameEnv a b) (h2 : SameEnv b c) : SameEnv a c := by
  unfold SameEnv at *
  rw [h2, h1]

theorem sameEnv_clip {a b : Core} (h : SameEnv a b) : b.clip = a.clip := by
  unfold SameEnv at h
  rw [h]

theorem sameEnv_mapping {a b : Core} (h : SameEnv a b) : b.mapping = a.mapping := by
  unfold SameEnv at h
  rw [h]

theorem sameEnv_sides {a b : Core} (h : SameEnv a b) : b.sides = a.sides := by
  unfold SameEnv at h
  rw [h]

theorem sameEnv_tilesheet {a b : Core} (h : SameEnv a b) : b.tilesheet = a.tilesheet := by
  unfold SameEnv at h
  rw [h]

theorem sameEnv_blit_segment {a b : Core} (h : SameEnv a b) :
    b.blit_segment = a.blit_segment := by
  unfold SameEnv at h
  rw [h]

theorem sameEnv_getPalette {a b : Core} (h : SameEnv a b) (colors : List Nat) :
    getPalette b colors = getPalette a colors := by
  unfold TIC80.getPalette
  rw [sameEnv_mapping h]

theorem paints_skip (a : Core) : Paints (fun _ _ => False) a a :=
  ⟨sameEnv_refl a, fun _ => ⟨fun h => h.elim (fun _ hf => hf), fun _ => rfl⟩⟩

theorem paints_congr {R R2 : Int → Nat → Prop} {a b : Core}
    (hR : ∀ addr v, R addr v ↔ R2 addr v) (h : Paints R a b) : Paints R2 a b := by
  have e : R = R2 := by
    funext addr v
    exact propext (hR addr v)
  rw [← e]
  exact h

theorem paints_seq {R1 R2 : Int → Nat → Prop} {a b c : Core}
    (h1 : Paints R1 a b) (h2 : Paints R2 b c) :
    Paints (fun addr v => R1 addr v ∨ R2 addr v) a c := by
  refine ⟨sameEnv_trans h1.1 h2.1, fun addr => ⟨?_, ?_⟩⟩
  · intro hex
    by_cases hw : ∃ v, R2 addr v
    · exact Or.inr ((h2.2 addr).1 hw)
    · rw [(h2.2 addr).2 hw]
      obtain ⟨v, hv⟩ := hex
      rcases hv with hv | hv
      · exact Or.inl ((h1.2 addr).1 ⟨v, hv⟩)
      · exact absurd ⟨v, hv⟩ hw
  · intro hno
    have n1 : ¬ ∃ v, R1 addr v := fun ⟨v, hv⟩ => hno ⟨v, Or.inl hv⟩
    have n2 : ¬ ∃ v, R2 addr v := fun ⟨v, hv⟩ => hno ⟨v, Or.inr hv⟩
    rw [(h2.2 addr).2 n2, (h1.2 addr).2 n1]

theorem paints_poke (core : Core) (address : Int) (value : Nat) :
    Paints (fun addr v => addr = address ∧ v = value % 16) core
      (tic_api_poke4 core address value) := by
  refine ⟨rfl, fun addr => ⟨?_, ?_⟩⟩
  · rintro ⟨v, h, -⟩
    simp [tic_api_poke4, h]
  · intro hno
    have hne : addr ≠ address := fun h => hno ⟨value % 16, h, rfl⟩
    simp [tic_api_poke4, hne]

/-- Effect of a `forRange` loop whose iterations paint `R i`. -/
theorem paints_forRange {R : Int → Int → Nat → Prop} {a : Core} (lo hi : Int)
    (body : Int → Core → Core)
    (hbody : ∀ i c, lo ≤ i → i < hi → SameEnv a c → Paints (R i) c (body i c)) :
    Paints (fun addr v => ∃ i, lo ≤ i ∧ i < hi ∧ R i addr v) a (forRange lo hi body a) := by
  by_cases hle : lo ≤ hi
  · have key := forRange_induct lo hi body a
      (fun k c => Paints (fun addr v => ∃ i, lo ≤ i ∧ i < k ∧ R i addr v) a c)
      (by
        refine paints_congr ?_ (paints_skip a)
        intro addr v
        constructor
        · intro h
          exact h.elim
        · rintro ⟨i, h1, h2, -⟩
          omega)
      (by
        intro i c h1 h2 ih
        refine paints_congr ?_ (paints_seq ih (hbody i c h1 h2 ih.1))
        intro addr v
        constructor
        · rintro (⟨j, hj1, hj2, hj⟩ | h)
          · exact ⟨j, hj1, by omega, hj⟩
          · exact ⟨i, h1, by omega, h⟩
        · rintro ⟨j, hj1, hj2, hj⟩
          by_cases hji : j = i
          · subst hji
            exact Or.inr hj
          · exact Or.inl ⟨j, hj1, by omega, hj⟩)
      hi hle (le_refl hi)
    exact key
  · rw [forRange_of_le lo hi body a (by omega)]
    refine paints_congr ?_ (paints_skip a)
    intro addr v
    constructor
    · intro h
      exact h.elim
    · rintro ⟨i, h1, h2, -⟩
      omega

/-- Reading `PaintsPx` at a pixel whose column is on screen. -/
theorem paintsPx_pixel {S : Int → Int → Nat → Prop} {a b : Core} (h : PaintsPx S a b)
    (hcol : ∀ px py v, S px py v → 0 ≤ px ∧ px < 240) (px py : Int)
    (hpx : 0 ≤ px ∧ px < 240) :
    ((∃ v, S px py v) → S px py (b.screen (py * TIC80_WIDTH + px))) ∧
    ((¬ ∃ v, S px py v) → b.screen (py * TIC80_WIDTH + px) = a.screen (py * TIC80_WIDTH + px)) := by
  have hinj : ∀ qx qy v, py * TIC80_WIDTH + px = qy * TIC80_WIDTH + qx → S qx qy v →
      qx = px ∧ qy = py := by
    intro qx qy v he hs
    have hq := hcol qx qy v hs
    unfold TIC80_WIDTH at he
    omega
  constructor
  · rintro ⟨v, hv⟩
    obtain ⟨qx, qy, he, hs⟩ := (h.2 (py * TIC80_WIDTH + px)).1 ⟨v, px, py, rfl, hv⟩
    obtain ⟨e1, e2⟩ := hinj qx qy _ he hs
    subst e1 e2
    exact hs
  · intro hno
    apply (h.2 (py * TIC80_WIDTH + px)).2
    rintro ⟨v, qx, qy, he, hs⟩
    obtain ⟨e1, e2⟩ := hinj qx qy _ he hs
    subst e1 e2
    exact hno ⟨v, hs⟩

theorem paintsPx_congr {S S2 : Int → Int → Nat → Prop} {a b : Core}
    (hS : ∀ px py v, S px py v ↔ S2 px py v) (h : PaintsPx S a b) : PaintsPx S2 a b := by
  have e : S = S2 := by
    funext px py v
    exact propext (hS px py v)
  rw [← e]
  exact h

theorem paintsPx_skip (a : Core) : PaintsPx (fun _ _ _ => False) a a := by
  refine paints_congr ?_ (paints_skip a)
  intro addr v
  constructor
  · intro h
    exact h.elim
  · rintro ⟨_, _, _, h⟩
    exact h

theorem paintsPx_seq {S1 S2 : Int → Int → Nat → Prop} {a b c : Core}
    (h1 : PaintsPx S1 a b) (h2 : PaintsPx S2 b c) :
    PaintsPx (fun px py v => S1 px py v ∨ S2 px py v) a c := by
  refine paints_congr ?_ (paints_seq h1 h2)
  intro addr v
  constructor
  · rintro (⟨px, py, he, h⟩ | ⟨px, py, he, h⟩)
    · exact ⟨px, py, he, Or.inl h⟩
    · exact ⟨px, py, he, Or.inr h⟩
  · rintro ⟨px, py, he, h | h⟩
    · exact Or.inl ⟨px, py, he, h⟩
    · exact Or.inr ⟨px, py, he, h⟩

theorem paintsPx_forRange {S : Int → Int → Int → Nat → Prop} {a : Core} (lo hi : Int)
    (body : Int → Core → Core)
    (hbody : ∀ i c, lo ≤ i → i < hi → SameEnv a c → PaintsPx (S i) c (body i c)) :
    PaintsPx (fun px py v => ∃ i, lo ≤ i ∧ i < hi ∧ S i px py v) a
      (forRange lo hi body a) := by
  refine paints_congr ?_ (paints_forRange lo hi body hbody)
  intro addr v
  constructor
  · rintro ⟨i, h1, h2, px, py, he, h⟩
    exact ⟨px, py, he, i, h1, h2, h⟩
  · rintro ⟨px, py, he, i, h1, h2, h⟩
    exact ⟨i, h1, h2, px, py, he, h⟩

/-! ## Effects of the pixel and span primitives -/

theorem setPixelFast_paints (core : Core) (x y : Int) (color : Nat) :
    PaintsPx (fun px py v => px = x ∧ py = y ∧ v = color % 16) core
      (setPixelFast core x y color) := by
  refine paints_congr ?_ (paints_poke core (y * TIC80_WIDTH + x) color)
  intro addr v
  constructor
  · rintro ⟨h1, h2⟩
    exact ⟨x, y, h1, rfl, rfl, h2⟩
  · rintro ⟨px, py, h1, h2, h3, h4⟩
    subst h2 h3
    exact ⟨h1, h4⟩

theorem drawHLine_paints (core : Core) (x y width : Int) (color : Nat) :
    PaintsPx (fun px py v => py = y ∧ x ≤ px ∧ px < x + width ∧ inClip core.clip px py ∧
      v = color % 16) core (drawHLine core x y width color) := by
  unfold drawHLine
  split
  · rename_i h
    refine paintsPx_congr ?_ (paintsPx_skip core)
    intro px py v
    constructor
    · intro hf
      exact hf.elim
    · rintro ⟨h1, -, -, hc, -⟩
      subst h1
      unfold inClip at hc
      omega
  · rename_i h
    refine paints_congr ?_ (paints_forRange (R := fun i addr v => addr = i ∧ v = color % 16)
      _ _ _ (fun i c _ _ _ => paints_poke c i color))
    intro addr v
    unfold inClip TIC80_WIDTH
    constructor
    · rintro ⟨i, h1, h2, h3, h4⟩
      subst h3
      refine ⟨addr - y * 240, y, by omega, rfl, ?_, ?_, ?_, h4⟩
      · have := le_max_left x core.clip.l
        omega
      · have := min_le_left (x + width) core.clip.r
        omega
      · have := le_max_right x core.clip.l
        have := min_le_right (x + width) core.clip.r
        omega
    · rintro ⟨px, py, h1, h2, h3, h4, h5, h6⟩
      subst h2
      refine ⟨addr, ?_, ?_, rfl, h6⟩
      · have : max x core.clip.l ≤ px := max_le h3 h5.1
        omega
      · have : px < min (x + width) core.clip.r := lt_min h4 h5.2.1
        omega

theorem drawRect_paints (core : Core) (x y width height : Int) (color : Nat) :
    PaintsPx (fun px py v => x ≤ px ∧ px < x + width ∧ y ≤ py ∧ py < y + height ∧
      inClip core.clip px py ∧ v = color % 16) core (drawRect core x y width height color) := by
  unfold drawRect
  refine paintsPx_congr ?_ (paintsPx_forRange
    (S := fun i px py v => py = i ∧ x ≤ px ∧ px < x + width ∧ inClip core.clip px py ∧
      v = color % 16) _ _ _ ?_)
  · intro px py v
    constructor
    · rintro ⟨i, h1, h2, h3, h4, h5, h6, h7⟩
      subst h3
      exact ⟨h4, h5, h1, h2, h6, h7⟩
    · rintro ⟨h1, h2, h3, h4, h5, h6⟩
      exact ⟨py, h3, h4, rfl, h1, h2, h5, h6⟩
  · intro i c _ _ hc
    have := drawHLine_paints c x i width color
    rw [sameEnv_clip hc] at this
    exact this

theorem orientation_lt (flip rotate : Int) : orientation flip rotate < 8 := by
  unfold orientation
  have hf : flip % 4 = 0 ∨ flip % 4 = 1 ∨ flip % 4 = 2 ∨ flip % 4 = 3 := by omega
  have hr : rotate % 4 = 0 ∨ rotate % 4 = 1 ∨ rotate % 4 = 2 ∨ rotate % 4 = 3 := by omega
  rcases hf with hf | hf | hf | hf <;> rcases hr with hr | hr | hr | hr <;>
    rw [hf, hr] <;> decide

theorem fastSource_eq_scaledSource (o : Nat) (ho : o < 8) (px py : Int) :
    fastSource o px py = scaledSource o px py := by
  have h : o = 0 ∨ o = 1 ∨ o = 2 ∨ o = 3 ∨ o = 4 ∨ o = 5 ∨ o = 6 ∨ o = 7 := by omega
  rcases h with h | h | h | h | h | h | h | h <;> subst h <;>
    simp +decide [fastSource, scaledSource, REVERT, TIC_SPRITESIZE] <;> omega

/-- The `scale == 1` path of `drawTile` is the loop nest `DRAW_TILE_BODY` run with the
sample selected by `fastSource`. -/
theorem drawTile_fast_eq (core : Core) (tile : Tile) (x y : Int) (colors : List Nat)
    (flip rotate : Int) :
    drawTile core tile x y colors 1 flip rotate =
      DRAW_TILE_BODY core tile (getPalette core colors)
        (x + (if core.clip.l - x < 0 then 0 else core.clip.l - x))
        (y + (if core.clip.t - y < 0 then 0 else core.clip.t - y))
        (if core.clip.l - x < 0 then 0 else core.clip.l - x)
        (if core.clip.t - y < 0 then 0 else core.clip.t - y)
        (if core.clip.r - x > TIC_SPRITESIZE then TIC_SPRITESIZE else core.clip.r - x)
        (if core.clip.b - y > TIC_SPRITESIZE then TIC_SPRITESIZE else core.clip.b - y)
        (fun px py => (fastSource (orientation flip rotate) px py).1)
        (fun px py => (fastSource (orientation flip rotate) px py).2) := by
  have ho := orientation_lt flip rotate
  unfold drawTile
  simp only [if_true]
  generalize orientation flip rotate = o at ho
  have h : o = 0 ∨ o = 1 ∨ o = 2 ∨ o = 3 ∨ o = 4 ∨ o = 5 ∨ o = 6 ∨ o = 7 := by omega
  rcases h with h | h | h | h | h | h | h | h <;> subst h <;> rfl

theorem DRAW_TILE_BODY_paints (core : Core) (tile : Tile) (mapping : Nat → Nat)
    (x y sx sy ex ey : Int) (X Y : Int → Int → Int) :
    PaintsPx (fun qx qy v => ∃ px py, sx ≤ px ∧ px < ex ∧ sy ≤ py ∧ py < ey ∧
      qx = x + (px - sx) ∧ qy = y + (py - sy) ∧
      mapping (tile (X px py) (Y px py)) ≠ TRANSPARENT_COLOR ∧
      v = mapping (tile (X px py) (Y px py)) % 16) core
      (DRAW_TILE_BODY core tile mapping x y sx sy ex ey X Y) := by
  unfold DRAW_TILE_BODY
  refine paintsPx_congr ?_ (paintsPx_forRange
    (S := fun py qx qy v => ∃ px, sx ≤ px ∧ px < ex ∧
      (qx = x + (px - sx) ∧ qy = y + (py - sy) ∧
      mapping (tile (X px py) (Y px py)) ≠ TRANSPARENT_COLOR ∧
      v = mapping (tile (X px py) (Y px py)) % 16)) _ _ _ ?_)
  · intro qx qy v
    constructor
    · rintro ⟨py, h1, h2, px, h3, h4, h5⟩
      exact ⟨px, py, h3, h4, h1, h2, h5⟩
    · rintro ⟨px, py, h3, h4, h1, h2, h5⟩
      exact ⟨py, h1, h2, px, h3, h4, h5⟩
  · intro py c _ _ _
    refine paintsPx_forRange (S := fun px qx qy v => qx = x + (px - sx) ∧ qy = y + (py - sy) ∧
      mapping (tile (X px py) (Y px py)) ≠ TRANSPARENT_COLOR ∧
      v = mapping (tile (X px py) (Y px py)) % 16) _ _ _ ?_
    intro px d _ _ _
    simp only
    split
    · rename_i hc
      refine paintsPx_congr ?_ (setPixelFast_paints d _ _ _)
      intro qx qy v
      constructor
      · rintro ⟨h1, h2, h3⟩
        exact ⟨h1, h2, hc, h3⟩
      · rintro ⟨h1, h2, -, h3⟩
        exact ⟨h1, h2, h3⟩
    · rename_i hc
      refine paintsPx_congr ?_ (paintsPx_skip d)
      intro qx qy v
      constructor
      · intro hf
        exact hf.elim
      · rintro ⟨-, -, h, -⟩
        exact hc h

theorem drawTile_paints (core : Core) (tile : Tile) (x y : Int) (colors : List Nat)
    (scale flip rotate : Int) :
    PaintsPx (tileWrites core tile x y colors scale flip rotate) core
      (drawTile core tile x y colors scale flip rotate) := by
  by_cases hs : scale = 1
  · subst hs
    rw [drawTile_fast_eq]
    refine paintsPx_congr ?_ (DRAW_TILE_BODY_paints _ _ _ _ _ _ _ _ _ _ _)
    intro qx qy v
    unfold tileWrites inClip TIC_SPRITESIZE
    simp only [fastSource_eq_scaledSource _ (orientation_lt flip rotate)]
    constructor
    · rintro ⟨px, py, h1, h2, h3, h4, h5, h6, h7, h8⟩
      refine ⟨px, py, ?_, ?_, ?_, ?_, ?_, ?_, ?_, ?_, ⟨?_, ?_, ?_, ?_⟩, h7, h8⟩ <;>
        (split at h1 <;> split at h2 <;> split at h3 <;> split at h4 <;> omega)
    · rintro ⟨px, py, h1, h2, h3, h4, h5, h6, h7, h8, ⟨c1, c2, c3, c4⟩, h9, h10⟩
      refine ⟨px, py, ?_, ?_, ?_, ?_, ?_, ?_, h9, h10⟩ <;>
        (split <;> omega)
  · unfold drawTile
    simp only [if_neg hs]
    split
    · rename_i hec
      refine paintsPx_congr ?_ (paintsPx_skip core)
      intro qx qy v
      constructor
      · intro hf
        exact hf.elim
      · rintro ⟨px, py, h1, h2, h3, h4, h5, h6, h7, h8, ⟨c1, c2, c3, c4⟩, -, -⟩
        unfold TIC_SPRITESIZE at hec
        have hpos : 0 < scale := by omega
        have e1 : px * scale + scale ≤ 8 * scale := by nlinarith
        have e2 : py * scale + scale ≤ 8 * scale := by nlinarith
        have e3 : 0 ≤ px * scale := by positivity
        have e4 : 0 ≤ py * scale := by positivity
        omega
    · rename_i hec
      refine paintsPx_congr ?_ (paintsPx_forRange
        (S := fun py qx qy v => ∃ px, 0 ≤ px ∧ px < 8 ∧
          (x + px * scale ≤ qx ∧ qx < x + px * scale + scale ∧
          y + py * scale ≤ qy ∧ qy < y + py * scale + scale ∧
          inClip core.clip qx qy ∧
          getPalette core colors (tile (scaledSource (orientation flip rotate) px py).1
            (scaledSource (orientation flip rotate) px py).2) ≠ TRANSPARENT_COLOR ∧
          v = getPalette core colors (tile (scaledSource (orientation flip rotate) px py).1
            (scaledSource (orientation flip rotate) px py).2) % 16)) _ _ _ ?_)
      · intro qx qy v
        unfold tileWrites TIC_SPRITESIZE
        constructor
        · rintro ⟨py, h1, h2, px, h3, h4, h5⟩
          exact ⟨px, py, h3, h4, h1, h2, h5⟩
        · rintro ⟨px, py, h3, h4, h1, h2, h5⟩
          exact ⟨py, h1, h2, px, h3, h4, h5⟩
      · intro py c _ _ hc
        refine paintsPx_forRange (S := fun px qx qy v =>
          x + px * scale ≤ qx ∧ qx < x + px * scale + scale ∧
          y + py * scale ≤ qy ∧ qy < y + py * scale + scale ∧
          inClip core.clip qx qy ∧
          getPalette core colors (tile (scaledSource (orientation flip rotate) px py).1
            (scaledSource (orientation flip rotate) px py).2) ≠ TRANSPARENT_COLOR ∧
          v = getPalette core colors (tile (scaledSource (orientation flip rotate) px py).1
            (scaledSource (orientation flip rotate) px py).2) % 16) _ _ _ ?_
        intro px d _ _ hd
        simp only
        split
        · rename_i hcol
          have hp := drawRect_paints d (x + px * scale) (y + py * scale) scale scale
            (getPalette core colors (tile (scaledSource (orientation flip rotate) px py).1
              (scaledSource (orientation flip rotate) px py).2))
          rw [sameEnv_clip (sameEnv_trans hc hd)] at hp
          refine paintsPx_congr ?_ hp
          intro qx qy v
          constructor
          · rintro ⟨h1, h2, h3, h4, h5, h6⟩
            exact ⟨h1, h2, h3, h4, h5, hcol, h6⟩
          · rintro ⟨h1, h2, h3, h4, h5, -, h6⟩
            exact ⟨h1, h2, h3, h4, h5, h6⟩
        · rename_i hcol
          refine paintsPx_congr ?_ (paintsPx_skip d)
          intro qx qy v
          constructor
          · intro hf
            exact hf.elim
          · rintro ⟨-, -, -, -, -, h, -⟩
            exact hcol h

/-! ## Clip rectangles set by `tic_api_clip` -/

theorem tic_api_clip_inScreen (s : Core) (x y width height : Int) :
    (tic_api_clip s x y width height).clip.inScreen := by
  unfold tic_api_clip ClipRect.inScreen TIC80_WIDTH TIC80_HEIGHT
  simp only
  refine ⟨?_, ?_, ?_, ?_⟩ <;> split <;> omega

theorem inClip_onScreen {clip : ClipRect} (hc : clip.inScreen) {x y : Int}
    (h : inClip clip x y) : onScreen x y := by
  unfold ClipRect.inScreen at hc
  unfold inClip at h
  unfold onScreen
  omega

/-- A step that paints only inside a clip rectangle within the screen: a pixel in the domain
of `S` holds a value related by `S`, every other pixel of the screen keeps its cell. -/
theorem paintsPx_read {S : Int → Int → Nat → Prop} {a b : Core} (h : PaintsPx S a b)
    {clip : ClipRect} (hc : clip.inScreen) (hS : ∀ px py v, S px py v → inClip clip px py)
    (px py : Int) :
    (∀ v, S px py v → S px py (b.screen (py * TIC80_WIDTH + px))) ∧
    (onScreen px py → (¬ ∃ v, S px py v) →
      b.screen (py * TIC80_WIDTH + px) = a.screen (py * TIC80_WIDTH + px)) := by
  have hcol : ∀ qx qy v, S qx qy v → 0 ≤ qx ∧ qx < 240 := by
    intro qx qy v hs
    have := inClip_onScreen hc (hS qx qy v hs)
    unfold onScreen TIC80_WIDTH at this
    omega
  constructor
  · intro v hv
    have hon := inClip_onScreen hc (hS px py v hv)
    unfold onScreen TIC80_WIDTH at hon
    exact (paintsPx_pixel h hcol px py ⟨hon.1, hon.2.1⟩).1 ⟨v, hv⟩
  · intro hon hno
    unfold onScreen TIC80_WIDTH at hon
    exact (paintsPx_pixel h hcol px py ⟨hon.1, hon.2.1⟩).2 hno

theorem getPalette_apply (core : Core) (colors : List Nat) (i : Nat) :
    getPalette core colors i =
      if i ∈ colors then TRANSPARENT_COLOR else tic_tool_peek4 core.mapping i := by
  unfold getPalette
  have key : ∀ (cs : List Nat) (m : Nat → Nat),
      cs.foldl (fun mapping c => fun i => if i = c then TRANSPARENT_COLOR else mapping i) m i =
        if i ∈ cs then TRANSPARENT_COLOR else m i := by
    intro cs
    induction cs with
    | nil =>
      intro m
      simp
    | cons c cs ih =>
      intro m
      rw [List.foldl_cons, ih]
      by_cases h1 : i ∈ cs
      · simp [h1]
      · by_cases h2 : i = c
        · simp [h2]
        · simp [h1, h2]
  exact key colors _

theorem tic_tool_peek4_lt (table : Nat → Nat) (i : Nat) : tic_tool_peek4 table i < 16 := by
  unfold tic_tool_peek4
  omega

theorem getPalette_transparent_iff (core : Core) (colors : List Nat) (i : Nat) :
    getPalette core colors i = TRANSPARENT_COLOR ↔ i ∈ colors := by
  rw [getPalette_apply]
  have := tic_tool_peek4_lt core.mapping i
  unfold TRANSPARENT_COLOR
  constructor
  · intro h
    by_contra hn
    rw [if_neg hn] at h
    omega
  · intro h
    rw [if_pos h]

/-! ## Claims -/

/-- C2: `tic_api_pix` in set mode stores the palette-mapped value of `color & 0xf` at `(x, y)`
when the pixel is inside the clip rectangle (a following get at `(x, y)` returns it) and
changes no other pixel; outside the clip rectangle the video memory is unchanged; a colour
behaves like its low four bits. -/
theorem C2_pix_set (s : Core) (cx cy cw ch x y : Int) (color c : Nat) :
    (inClip (tic_api_clip s cx cy cw ch).clip x y →
      (tic_api_pix (tic_api_pix (tic_api_clip s cx cy cw ch) x y color false).2 x y c true).1 =
        tic_tool_peek4 (tic_api_clip s cx cy cw ch).mapping (color % 16) ∧
      ∀ addr, addr ≠ y * TIC80_WIDTH + x →
        (tic_api_pix (tic_api_clip s cx cy cw ch) x y color false).2.screen addr =
          (tic_api_clip s cx cy cw ch).screen addr) ∧
    (¬ inClip (tic_api_clip s cx cy cw ch).clip x y →
      (tic_api_pix (tic_api_clip s cx cy cw ch) x y color false).2 =
        tic_api_clip s cx cy cw ch) ∧
    tic_api_pix (tic_api_clip s cx cy cw ch) x y color false =
      tic_api_pix (tic_api_clip s cx cy cw ch) x y (color % 16) false := by
  generalize tic_api_clip s cx cy cw ch = core
  refine ⟨?_, ?_, ?_⟩
  · intro h
    unfold inClip at h
    have hg : ¬ (x < core.clip.l ∨ y < core.clip.t ∨ x ≥ core.clip.r ∨ y ≥ core.clip.b) := by
      omega
    constructor
    · simp [tic_api_pix, setPixel, hg, getPixel, tic_api_peek4, tic_api_poke4, mapColor,
        tic_tool_peek4]
    · intro addr hne
      simp [tic_api_pix, setPixel, hg, tic_api_poke4, hne]
  · intro h
    unfold inClip at h
    have hg : x < core.clip.l ∨ y < core.clip.t ∨ x ≥ core.clip.r ∨ y ≥ core.clip.b := by
      omega
    simp [tic_api_pix, setPixel, hg]
  · simp [tic_api_pix, mapColor]

/-- C2 on a concrete call: `pix(12, 12, 18)` on the full-screen clip stores colour 2. -/
theorem C2_pix_set_witness :
    inClip (tic_api_clip demoCore 0 0 240 136).clip 12 12 ∧
    (tic_api_pix (tic_api_pix (tic_api_clip demoCore 0 0 240 136) 12 12 18 false).2
      12 12 0 true).1 = 2 :=
  ⟨by decide, ((C2_pix_set demoCore 0 0 240 136 12 12 18 0).1 (by decide)).1⟩

theorem paints_empty {R : Int → Nat → Prop} {a b : Core} (h : Paints R a b)
    (hR : ∀ addr v, ¬ R addr v) : b = a := by
  have hs : b.screen = a.screen := by
    funext addr
    exact (h.2 addr).2 (fun ⟨v, hv⟩ => hR addr v hv)
  have h1 := h.1
  unfold SameEnv at h1
  rw [h1, hs]

theorem paintsPx_empty {S : Int → Int → Nat → Prop} {a b : Core} (h : PaintsPx S a b)
    (hS : ∀ px py v, ¬ S px py v) : b = a :=
  paints_empty h (fun _ v ⟨px, py, _, hs⟩ => hS px py v hs)

theorem scaledSource_range (o : Nat) (px py : Int) (hx : 0 ≤ px ∧ px < 8)
    (hy : 0 ≤ py ∧ py < 8) :
    (0 ≤ (scaledSource o px py).1 ∧ (scaledSource o px py).1 < 8) ∧
    (0 ≤ (scaledSource o px py).2 ∧ (scaledSource o px py).2 < 8) := by
  unfold scaledSource TIC_SPRITESIZE
  simp only
  split <;> split <;> split <;> simp only <;> omega

theorem tileWrites_inClip {core : Core} {tile : Tile} {x y : Int} {colors : List Nat}
    {scale flip rotate qx qy : Int} {v : Nat}
    (h : tileWrites core tile x y colors scale flip rotate qx qy v) :
    inClip core.clip qx qy := by
  obtain ⟨px, py, -, -, -, -, -, -, -, -, hc, -, -⟩ := h
  exact hc

/-- At scale 1 the tile offset of a written pixel is its offset from `(x, y)`. -/
theorem tileWrites_one_iff (core : Core) (tile : Tile) (x y : Int) (colors : List Nat)
    (flip rotate qx qy : Int) (v : Nat) :
    tileWrites core tile x y colors 1 flip rotate qx qy v ↔
      (0 ≤ qx - x ∧ qx - x < 8 ∧ 0 ≤ qy - y ∧ qy - y < 8 ∧ inClip core.clip qx qy ∧
        getPalette core colors
          (tile (scaledSource (orientation flip rotate) (qx - x) (qy - y)).1
            (scaledSource (orientation flip rotate) (qx - x) (qy - y)).2) ≠ TRANSPARENT_COLOR ∧
        v = getPalette core colors
          (tile (scaledSource (orientation flip rotate) (qx - x) (qy - y)).1
            (scaledSource (orientation flip rotate) (qx - x) (qy - y)).2) % 16) := by
  unfold tileWrites
  constructor
  · rintro ⟨px, py, h1, h2, h3, h4, h5, h6, h7, h8, hc, h9, h10⟩
    have e1 : px = qx - x := by omega
    have e2 : py = qy - y := by omega
    subst e1 e2
    exact ⟨h1, h2, h3, h4, hc, h9, h10⟩
  · rintro ⟨h1, h2, h3, h4, hc, h9, h10⟩
    exact ⟨qx - x, qy - y, h1, h2, h3, h4, by omega, by omega, by omega, by omega, hc, h9, h10⟩

/-- C5: a tile all of whose source pixels are marked transparent by the transparency list of
the call (their palette-table entry is the sentinel 255) leaves the state unchanged, for
`drawTile` and for `tic_api_spr` with `w = h = 1`, at every position, scale, flip, rotation
and clip rectangle. -/
theorem C5_transparent_tile (core : Core) (tile : Tile) (index x y : Int) (colors : List Nat)
    (scale flip rotate : Int) :
    ((∀ px py, 0 ≤ px → px < 8 → 0 ≤ py → py < 8 →
        getPalette core colors (tile px py) = TRANSPARENT_COLOR) →
      drawTile core tile x y colors scale flip rotate = core) ∧
    ((∀ px py, 0 ≤ px → px < 8 → 0 ≤ py → py < 8 →
        getPalette core colors
          ((getTileSheetFromSegment core core.blit_segment).gettile index false px py) =
          TRANSPARENT_COLOR) →
      tic_api_spr core index x y 1 1 colors scale flip rotate = core) := by
  have key : ∀ (t : Tile) (f r : Int), (∀ px py, 0 ≤ px → px < 8 → 0 ≤ py → py < 8 →
      getPalette core colors (t px py) = TRANSPARENT_COLOR) →
      drawTile core t x y colors scale f r = core := by
    intro t f r h
    refine paintsPx_empty (drawTile_paints core t x y colors scale f r) ?_
    rintro qx qy v ⟨px, py, h1, h2, h3, h4, -, -, -, -, -, hnt, -⟩
    have hr := scaledSource_range (orientation f r) px py ⟨h1, h2⟩ ⟨h3, h4⟩
    exact hnt (h _ _ hr.1.1 hr.1.2 hr.2.1 hr.2.2)
  constructor
  · exact key tile flip rotate
  · intro h
    unfold tic_api_spr drawSprite
    split
    · rfl
    · simp only [and_self, if_true]
      exact key _ _ _ h

/-- C5 on a concrete call: tile 0 of `demoCore` with all sixteen colours keyed. -/
theorem C5_transparent_tile_witness :
    drawTile demoCore ((demoCore.tilesheet 2).gettile 0 false) 3 5
      [0, 1, 2, 3, 4, 5, 6, 7, 8, 9, 10, 11, 12, 13, 14, 15] 2 1 3 = demoCore :=
  (C5_transparent_tile demoCore ((demoCore.tilesheet 2).gettile 0 false) 0 3 5
    [0, 1, 2, 3, 4, 5, 6, 7, 8, 9, 10, 11, 12, 13, 14, 15] 2 1 3).1 (by
      intro px py h1 h2 h3 h4
      rw [getPalette_transparent_iff]
      have h5 : ((0 + px + 2 * py) % 16).toNat < 16 := by omega
      show ((0 + px + 2 * py) % 16).toNat ∈ _
      generalize ((0 + px + 2 * py) % 16).toNat = n at h5
      have : n = 0 ∨ n = 1 ∨ n = 2 ∨ n = 3 ∨ n = 4 ∨ n = 5 ∨ n = 6 ∨ n = 7 ∨ n = 8 ∨ n = 9 ∨
          n = 10 ∨ n = 11 ∨ n = 12 ∨ n = 13 ∨ n = 14 ∨ n = 15 := by omega
      simp only [List.mem_cons, List.mem_singleton]
      tauto)

theorem orientation_mod (flip rotate : Int) :
    orientation flip rotate = orientation (flip % 4) (rotate % 4) := by
  unfold orientation
  simp only [Int.emod_emod_of_dvd _ (dvd_refl (4 : Int))]

theorem fastSource_eq_specSource (flip rotate px py : Int) :
    fastSource (orientation flip rotate) px py = specSource flip rotate px py := by
  unfold orientation specSource
  have hf : flip % 4 = 0 ∨ flip % 4 = 1 ∨ flip % 4 = 2 ∨ flip % 4 = 3 := by omega
  have hr : rotate % 4 = 0 ∨ rotate % 4 = 1 ∨ rotate % 4 = 2 ∨ rotate % 4 = 3 := by omega
  rcases hf with hf | hf | hf | hf <;> rcases hr with hr | hr | hr | hr <;>
    rw [hf, hr] <;>
    simp +decide [fastSource, specFlip, specRotate, REVERT, TIC_SPRITESIZE,
      Function.iterate_succ, Function.iterate_zero]

theorem drawTile_congr (core : Core) (tile tile2 : Tile) (x y : Int) (colors : List Nat)
    (scale flip rotate flip2 rotate2 : Int)
    (h : ∀ px py,
      tile (fastSource (orientation flip rotate) px py).1
        (fastSource (orientation flip rotate) px py).2 =
      tile2 (fastSource (orientation flip2 rotate2) px py).1
        (fastSource (orientation flip2 rotate2) px py).2) :
    drawTile core tile x y colors scale flip rotate =
      drawTile core tile2 x y colors scale flip2 rotate2 := by
  by_cases hs : scale = 1
  · subst hs
    rw [drawTile_fast_eq, drawTile_fast_eq]
    unfold DRAW_TILE_BODY
    simp only [h]
  · have h2 : ∀ px py,
        tile (scaledSource (orientation flip rotate) px py).1
          (scaledSource (orientation flip rotate) px py).2 =
        tile2 (scaledSource (orientation flip2 rotate2) px py).1
          (scaledSource (orientation flip2 rotate2) px py).2 := by
      intro px py
      rw [← fastSource_eq_scaledSource _ (orientation_lt flip rotate),
        ← fastSource_eq_scaledSource _ (orientation_lt flip2 rotate2)]
      exact h px py
    unfold drawTile
    simp only [if_neg hs, h2]

/-- C6: for every flip and rotation (taken modulo four) the sample `drawTile` reads for the
destination offset `(px, py)` is `R^r (F_f (px, py))`, in the `scale == 1` path and in the
scaled path; hence a blit with flip and rotation equals the blit, without flip or rotation,
of the tile transformed by that composition, and values outside `0..3` behave as their low
two bits. -/
theorem C6_orientation_is_composition (core : Core) (tile : Tile) (x y : Int)
    (colors : List Nat) (scale flip rotate px py : Int) :
    fastSource (orientation flip rotate) px py = specSource flip rotate px py ∧
    scaledSource (orientation flip rotate) px py = specSource flip rotate px py ∧
    drawTile core tile x y colors scale flip rotate =
      drawTile core (fun u v => tile (specSource flip rotate u v).1 (specSource flip rotate u v).2)
        x y colors scale tic_no_flip tic_no_rotate ∧
    drawTile core tile x y colors scale flip rotate =
      drawTile core tile x y colors scale (flip % 4) (rotate % 4) := by
  refine ⟨fastSource_eq_specSource flip rotate px py, ?_, ?_, ?_⟩
  · rw [← fastSource_eq_scaledSource _ (orientation_lt flip rotate)]
    exact fastSource_eq_specSource flip rotate px py
  · apply drawTile_congr
    intro u v
    rw [fastSource_eq_specSource flip rotate u v]
    rfl
  · apply drawTile_congr
    intro u v
    rw [← orientation_mod]

/-- C7: the destination-to-source coordinate map of `drawTile` for a horizontal flip is an
involution, likewise for a vertical flip, and the map for a rotation by 90 degrees composed
four times is the identity (in both paths); hence a tile flipped twice, or rotated four
times, is the original tile, and blitting a flipped tile with the same flip (a tile rotated
three times with one more rotation) draws what the original tile draws. -/
theorem C7_flip_rotate_laws (core : Core) (tile : Tile) (x y : Int) (colors : List Nat)
    (scale : Int) (p : Int × Int) :
    tileSource tic_horz_flip tic_no_rotate (tileSource tic_horz_flip tic_no_rotate p) = p ∧
    tileSource tic_vert_flip tic_no_rotate (tileSource tic_vert_flip tic_no_rotate p) = p ∧
    tileSource tic_no_flip tic_90_rotate (tileSource tic_no_flip tic_90_rotate
      (tileSource tic_no_flip tic_90_rotate (tileSource tic_no_flip tic_90_rotate p))) = p ∧
    tileSourceScaled tic_horz_flip tic_no_rotate
      (tileSourceScaled tic_horz_flip tic_no_rotate p) = p ∧
    tileSourceScaled tic_vert_flip tic_no_rotate
      (tileSourceScaled tic_vert_flip tic_no_rotate p) = p ∧
    tileSourceScaled tic_no_flip tic_90_rotate (tileSourceScaled tic_no_flip tic_90_rotate
      (tileSourceScaled tic_no_flip tic_90_rotate
        (tileSourceScaled tic_no_flip tic_90_rotate p))) = p ∧
    (fun u v => tile
      (tileSource tic_horz_flip tic_no_rotate (tileSource tic_horz_flip tic_no_rotate (u, v))).1
      (tileSource tic_horz_flip tic_no_rotate (tileSource tic_horz_flip tic_no_rotate (u, v))).2)
      = tile ∧
    (fun u v => tile
      (tileSource tic_no_flip tic_90_rotate (tileSource tic_no_flip tic_90_rotate
        (tileSource tic_no_flip tic_90_rotate (tileSource tic_no_flip tic_90_rotate (u, v))))).1
      (tileSource tic_no_flip tic_90_rotate (tileSource tic_no_flip tic_90_rotate
        (tileSource tic_no_flip tic_90_rotate (tileSource tic_no_flip tic_90_rotate (u, v))))).2)
      = tile ∧
    drawTile core
        (fun u v => tile (tileSource tic_horz_flip tic_no_rotate (u, v)).1
          (tileSource tic_horz_flip tic_no_rotate (u, v)).2)
        x y colors scale tic_horz_flip tic_no_rotate =
      drawTile core tile x y colors scale tic_no_flip tic_no_rotate ∧
    drawTile core
        (fun u v => tile
          (tileSource tic_no_flip tic_90_rotate (tileSource tic_no_flip tic_90_rotate
            (tileSource tic_no_flip tic_90_rotate (u, v)))).1
          (tileSource tic_no_flip tic_90_rotate (tileSource tic_no_flip tic_90_rotate
            (tileSource tic_no_flip tic_90_rotate (u, v)))).2)
        x y colors scale tic_no_flip tic_90_rotate =
      drawTile core tile x y colors scale tic_no_flip tic_no_rotate := by
  have hH : ∀ q : Int × Int,
      tileSource tic_horz_flip tic_no_rotate (tileSource tic_horz_flip tic_no_rotate q) = q := by
    intro q
    apply Prod.ext <;>
      simp +decide [tileSource, orientation, fastSource, REVERT, TIC_SPRITESIZE,
        tic_horz_flip, tic_no_rotate]
  have hR : ∀ q : Int × Int,
      tileSource tic_no_flip tic_90_rotate (tileSource tic_no_flip tic_90_rotate
        (tileSource tic_no_flip tic_90_rotate (tileSource tic_no_flip tic_90_rotate q))) = q := by
    intro q
    apply Prod.ext <;>
      simp +decide [tileSource, orientation, fastSource, REVERT, TIC_SPRITESIZE,
        tic_no_flip, tic_90_rotate]
  refine ⟨hH p, ?_, hR p, ?_, ?_, ?_, ?_, ?_, ?_, ?_⟩
  · apply Prod.ext <;>
      simp +decide [tileSource, orientation, fastSource, REVERT, TIC_SPRITESIZE,
        tic_vert_flip, tic_no_rotate]
  · apply Prod.ext <;>
      simp +decide [tileSourceScaled, orientation, scaledSource, TIC_SPRITESIZE,
        tic_horz_flip, tic_no_rotate]
    omega
  · apply Prod.ext <;>
      simp +decide [tileSourceScaled, orientation, scaledSource, TIC_SPRITESIZE,
        tic_vert_flip, tic_no_rotate]
    omega
  · apply Prod.ext <;>
      simp +decide [tileSourceScaled, orientation, scaledSource, TIC_SPRITESIZE,
        tic_no_flip, tic_90_rotate] <;> omega
  · funext u v
    rw [hH]
  · funext u v
    rw [hR]
  · apply drawTile_congr
    intro px py
    have h := hH (px, py)
    have e : fastSource (orientation tic_no_flip tic_no_rotate) px py = (px, py) := by
      simp +decide [orientation, fastSource, tic_no_flip, tic_no_rotate]
    unfold tileSource at h
    simp only at h
    simp only [tileSource]
    rw [h, e]
  · apply drawTile_congr
    intro px py
    have h := hR (px, py)
    have e : fastSource (orientation tic_no_flip tic_no_rotate) px py = (px, py) := by
      simp +decide [orientation, fastSource, tic_no_flip, tic_no_rotate]
    unfold tileSource at h
    simp only at h
    simp only [tileSource]
    rw [h, e]

/-- Reading the video memory after a `scale == 1` blit. -/
theorem drawTile_one_read (core : Core) (hc : core.clip.inScreen) (tile : Tile) (x y : Int)
    (colors : List Nat) (flip rotate qx qy : Int) (hon : onScreen qx qy) :
    (drawTile core tile x y colors 1 flip rotate).screen (qy * TIC80_WIDTH + qx) =
      if 0 ≤ qx - x ∧ qx - x < 8 ∧ 0 ≤ qy - y ∧ qy - y < 8 ∧ inClip core.clip qx qy ∧
          getPalette core colors
            (tile (scaledSource (orientation flip rotate) (qx - x) (qy - y)).1
              (scaledSource (orientation flip rotate) (qx - x) (qy - y)).2) ≠ TRANSPARENT_COLOR
      then getPalette core colors
            (tile (scaledSource (orientation flip rotate) (qx - x) (qy - y)).1
              (scaledSource (orientation flip rotate) (qx - x) (qy - y)).2) % 16
      else core.screen (qy * TIC80_WIDTH + qx) := by
  have hp := drawTile_paints core tile x y colors 1 flip rotate
  have hr := paintsPx_read hp hc (fun _ _ _ h => tileWrites_inClip h) qx qy
  split
  · rename_i h
    obtain ⟨h1, h2, h3, h4, h5, h6⟩ := h
    have := hr.1 _ ((tileWrites_one_iff core tile x y colors flip rotate qx qy _).2
      ⟨h1, h2, h3, h4, h5, h6, rfl⟩)
    exact ((tileWrites_one_iff core tile x y colors flip rotate qx qy _).1 this).2.2.2.2.2.2
  · rename_i h
    refine hr.2 hon ?_
    rintro ⟨v, hv⟩
    obtain ⟨h1, h2, h3, h4, h5, h6, -⟩ :=
      (tileWrites_one_iff core tile x y colors flip rotate qx qy v).1 hv
    exact h ⟨h1, h2, h3, h4, h5, h6⟩

theorem tic_api_spr_single (core : Core) (index x y : Int) (colors : List Nat)
    (scale flip rotate : Int) (hi : 0 ≤ index) :
    tic_api_spr core index x y 1 1 colors scale flip rotate =
      drawTile core ((getTileSheetFromSegment core core.blit_segment).gettile index false)
        x y colors scale flip rotate := by
  unfold tic_api_spr drawSprite
  rw [if_neg (by omega)]
  simp only [and_self, if_true]
  apply drawTile_congr
  intro px py
  rw [← orientation_mod]

/-- C8: on a starting screen whose 8x8 block at `(x, y)` lies inside the clip rectangle and
holds one background colour, the block drawn by `tic_api_spr` (`w = h = 1`, transparent
colour 0, scale 1, no rotation) with a horizontal flip is the horizontal mirror of the
block drawn with no flip. -/
theorem C8_spr_horizontal_mirror (s : Core) (cx cy cw ch index x y : Int) (bg : Nat)
    (px py : Int)
    (hblock : (tic_api_clip s cx cy cw ch).clip.l ≤ x ∧
      x + 8 ≤ (tic_api_clip s cx cy cw ch).clip.r ∧
      (tic_api_clip s cx cy cw ch).clip.t ≤ y ∧ y + 8 ≤ (tic_api_clip s cx cy cw ch).clip.b)
    (hbg : ∀ u v, 0 ≤ u → u < 8 → 0 ≤ v → v < 8 →
      getPixel (tic_api_clip s cx cy cw ch) (x + u) (y + v) = bg)
    (hp : 0 ≤ px ∧ px < 8 ∧ 0 ≤ py ∧ py < 8) :
    getPixel (tic_api_spr (tic_api_clip s cx cy cw ch) index x y 1 1 [0] 1 tic_horz_flip
        tic_no_rotate) (x + px) (y + py) =
      getPixel (tic_api_spr (tic_api_clip s cx cy cw ch) index x y 1 1 [0] 1 tic_no_flip
        tic_no_rotate) (x + 7 - px) (y + py) := by
  have hc := tic_api_clip_inScreen s cx cy cw ch
  generalize tic_api_clip s cx cy cw ch = core at hc hblock hbg
  by_cases hi : 0 ≤ index
  · rw [tic_api_spr_single _ _ _ _ _ _ _ _ hi, tic_api_spr_single _ _ _ _ _ _ _ _ hi]
    have hin1 : inClip core.clip (x + px) (y + py) := by
      unfold inClip
      omega
    have hin2 : inClip core.clip (x + 7 - px) (y + py) := by
      unfold inClip
      omega
    have b1 := hbg px py hp.1 hp.2.1 hp.2.2.1 hp.2.2.2
    have b2 := hbg (7 - px) py (by omega) (by omega) hp.2.2.1 hp.2.2.2
    have e2 : x + (7 - px) = x + 7 - px := by omega
    rw [e2] at b2
    unfold getPixel tic_api_peek4 at *
    rw [drawTile_one_read core hc _ _ _ _ _ _ _ _ (inClip_onScreen hc hin1),
      drawTile_one_read core hc _ _ _ _ _ _ _ _ (inClip_onScreen hc hin2)]
    have s1 : scaledSource (orientation tic_horz_flip tic_no_rotate) (x + px - x)
        (y + py - y) = (7 - px, py) := by
      apply Prod.ext <;>
        simp +decide [scaledSource, orientation, tic_horz_flip, tic_no_rotate, TIC_SPRITESIZE]
      omega
    have s2 : scaledSource (orientation tic_no_flip tic_no_rotate) (x + 7 - px - x)
        (y + py - y) = (7 - px, py) := by
      apply Prod.ext <;>
        simp +decide [scaledSource, orientation, tic_no_flip, tic_no_rotate]
      omega
    rw [s1, s2]
    simp only
    by_cases ht : getPalette core [0]
        ((getTileSheetFromSegment core core.blit_segment).gettile index false (7 - px) py) =
        TRANSPARENT_COLOR
    · rw [if_neg (fun h => h.2.2.2.2.2 ht), if_neg (fun h => h.2.2.2.2.2 ht), b1, b2]
    · rw [if_pos ⟨by omega, by omega, by omega, by omega, hin1, ht⟩,
        if_pos ⟨by omega, by omega, by omega, by omega, hin2, ht⟩]
  · have e : ∀ f, tic_api_spr core index x y 1 1 [0] 1 f tic_no_rotate = core := by
      intro f
      unfold tic_api_spr drawSprite
      rw [if_pos (by omega)]
    rw [e, e]
    have b1 := hbg px py hp.1 hp.2.1 hp.2.2.1 hp.2.2.2
    have b2 := hbg (7 - px) py (by omega) (by omega) hp.2.2.1 hp.2.2.2
    have e2 : x + (7 - px) = x + 7 - px := by omega
    rw [e2] at b2
    rw [b1, b2]

/-- C8 on the scenario of the specification: tile 0 at `(0, 0)` on the black screen of
`demoCore`; pixel `(1, 0)` of the flipped blit equals pixel `(6, 0)` of the plain blit. -/
theorem C8_spr_horizontal_mirror_witness :
    getPixel (tic_api_spr (tic_api_clip demoCore 0 0 240 136) 0 0 0 1 1 [0] 1 tic_horz_flip
        tic_no_rotate) (0 + 1) (0 + 0) =
      getPixel (tic_api_spr (tic_api_clip demoCore 0 0 240 136) 0 0 0 1 1 [0] 1 tic_no_flip
        tic_no_rotate) (0 + 7 - 1) (0 + 0) :=
  C8_spr_horizontal_mirror demoCore 0 0 240 136 0 0 0 0 1 0 (by decide)
    (fun _ _ _ _ _ _ => rfl) (by decide)

/-- An invariant of the pixel callback is kept by the first midpoint pass. -/
theorem ellipsePassY_invariant (pix : Core → Int → Int → Nat → Core) (Inv : Core → Prop)
    (hpix : ∀ c x y col, Inv c → Inv (pix c x y col)) (x0 y0 aa2 bb2 : Int) (color : Nat)
    (haa : 0 < aa2) (hbb : 0 ≤ bb2) :
    ∀ (n : Nat) (x y dx dy sx sy e : Int) (core : Core), (sx - sy + 1).toNat ≤ n → Inv core →
      Inv (ellipsePassY pix x0 y0 aa2 bb2 color haa hbb x y dx dy sx sy e core) := by
  intro n
  induction n with
  | zero =>
    intro x y dx dy sx sy e core hn hinv
    unfold ellipsePassY
    rw [if_neg (by omega)]
    exact hinv
  | succ n ih =>
    intro x y dx dy sx sy e core hn hinv
    unfold ellipsePassY
    split
    · simp only
      split
      · exact ih _ _ _ _ _ _ _ _ (by omega) (hpix _ _ _ _ (hpix _ _ _ _ (hpix _ _ _ _
          (hpix _ _ _ _ hinv))))
      · exact ih _ _ _ _ _ _ _ _ (by omega) (hpix _ _ _ _ (hpix _ _ _ _ (hpix _ _ _ _
          (hpix _ _ _ _ hinv))))
    · exact hinv

/-- An invariant of the pixel callback is kept by the second midpoint pass. -/
theorem ellipsePassX_invariant (pix : Core → Int → Int → Nat → Core) (Inv : Core → Prop)
    (hpix : ∀ c x y col, Inv c → Inv (pix c x y col)) (x0 y0 aa2 bb2 : Int) (color : Nat)
    (haa : 0 ≤ aa2) (hbb : 0 < bb2) :
    ∀ (n : Nat) (x y dx dy sx sy e : Int) (core : Core), (sy - sx + 1).toNat ≤ n → Inv core →
      Inv (ellipsePassX pix x0 y0 aa2 bb2 color haa hbb x y dx dy sx sy e core) := by
  intro n
  induction n with
  | zero =>
    intro x y dx dy sx sy e core hn hinv
    unfold ellipsePassX
    rw [if_neg (by omega)]
    exact hinv
  | succ n ih =>
    intro x y dx dy sx sy e core hn hinv
    unfold ellipsePassX
    split
    · simp only
      split
      · exact ih _ _ _ _ _ _ _ _ (by omega) (hpix _ _ _ _ (hpix _ _ _ _ (hpix _ _ _ _
          (hpix _ _ _ _ hinv))))
      · exact ih _ _ _ _ _ _ _ _ (by omega) (hpix _ _ _ _ (hpix _ _ _ _ (hpix _ _ _ _
          (hpix _ _ _ _ hinv))))
    · exact hinv

/-- An invariant of the pixel callback is kept by `drawEllipse`. -/
theorem drawEllipse_invariant (pix : Core → Int → Int → Nat → Core) (Inv : Core → Prop)
    (hpix : ∀ c x y col, Inv c → Inv (pix c x y col)) (core : Core) (x0 y0 a b : Int)
    (color : Nat) (hinv : Inv core) : Inv (drawEllipse core x0 y0 a b color pix) := by
  unfold drawEllipse
  split
  · exact hinv
  · split
    · exact hinv
    · exact ellipsePassX_invariant pix Inv hpix _ _ _ _ _ _ _ _ _ _ _ _ _ _ _ _ (le_refl _)
        (ellipsePassY_invariant pix Inv hpix _ _ _ _ _ _ _ _ _ _ _ _ _ _ _ _ (le_refl _) hinv)

theorem tileWrites_sameEnv {a c : Core} (h : SameEnv a c) (tile : Tile) (x y : Int)
    (colors : List Nat) (scale flip rotate : Int) :
    tileWrites c tile x y colors scale flip rotate =
      tileWrites a tile x y colors scale flip rotate := by
  unfold tileWrites
  rw [sameEnv_clip h, sameEnv_getPalette h]

theorem drawSprite_multi_paints (core : Core) (index x y w h : Int) (colors : List Nat)
    (scale flip rotate : Int) (hi : 0 ≤ index) (hwh : ¬ (w = 1 ∧ h = 1))
    (hec : ¬ EARLY_CLIP core x y (w * (TIC_SPRITESIZE * scale)) (h * (TIC_SPRITESIZE * scale))) :
    PaintsPx (spriteWrites core index x y w h colors scale flip rotate) core
      (drawSprite core index x y w h colors scale flip rotate) := by
  unfold drawSprite
  rw [if_neg (by omega)]
  simp only [if_neg hwh, if_neg hec]
  refine paintsPx_congr ?_ (paintsPx_forRange
    (S := fun i qx qy v => ∃ j, 0 ≤ j ∧ j < h ∧
      tileWrites core (spriteTile core index w h (flip % 4) (rotate % 4) i j)
        (spritePos x y scale (rotate % 4) i j).1 (spritePos x y scale (rotate % 4) i j).2
        colors scale (flip % 4) (rotate % 4) qx qy v) _ _ _ ?_)
  · intro qx qy v
    unfold spriteWrites
    constructor
    · rintro ⟨i, h1, h2, j, h3, h4, h5⟩
      exact ⟨i, j, h1, h2, h3, h4, h5⟩
    · rintro ⟨i, j, h1, h2, h3, h4, h5⟩
      exact ⟨i, h1, h2, j, h3, h4, h5⟩
  · intro i c _ _ hc
    refine paintsPx_forRange (S := fun j qx qy v =>
      tileWrites core (spriteTile core index w h (flip % 4) (rotate % 4) i j)
        (spritePos x y scale (rotate % 4) i j).1 (spritePos x y scale (rotate % 4) i j).2
        colors scale (flip % 4) (rotate % 4) qx qy v) _ _ _ ?_
    intro j d _ _ hd
    have hcd := sameEnv_trans hc hd
    beta_reduce
    rw [← tileWrites_sameEnv hcd]
    unfold spritePos spriteTile getTileSheetFromSegment
    split
    · exact drawTile_paints _ _ _ _ _ _ _ _
    · exact drawTile_paints _ _ _ _ _ _ _ _

/-- The source coordinate of the specification for the destination offset `(px, py)` within
the tile of iteration `(i, j)`: the cell `spriteCell` selects, at the sample the single-tile
orientation selects. -/
theorem specBlockSource_cell (w h flip rotate i j px py : Int) :
    specBlockSource w h flip rotate
        (if rotate % 4 = 0 ∨ rotate % 4 = 2 then 8 * i + px else 8 * j + px)
        (if rotate % 4 = 0 ∨ rotate % 4 = 2 then 8 * j + py else 8 * i + py) =
      (8 * (spriteCell w h (flip % 4) (rotate % 4) i j).1 +
          (scaledSource (orientation (flip % 4) (rotate % 4)) px py).1,
        8 * (spriteCell w h (flip % 4) (rotate % 4) i j).2 +
          (scaledSource (orientation (flip % 4) (rotate % 4)) px py).2) := by
  have hf : flip % 4 = 0 ∨ flip % 4 = 1 ∨ flip % 4 = 2 ∨ flip % 4 = 3 := by omega
  have hr : rotate % 4 = 0 ∨ rotate % 4 = 1 ∨ rotate % 4 = 2 ∨ rotate % 4 = 3 := by omega
  unfold specBlockSource spriteDestWidth spriteDestHeight
  rcases hf with hf | hf | hf | hf <;> rcases hr with hr | hr | hr | hr <;>
    simp only [hf, hr] <;>
    simp +decide [specBlockRotate, specBlockFlip, spriteCell, scaledSource, orientation,
      TIC_SPRITESIZE, tic_no_flip, tic_horz_flip, tic_vert_flip, vert_horz_flip,
      tic_90_rotate, tic_180_rotate, tic_270_rotate] <;>
    omega

theorem getPalette_nil (core : Core) (k : Nat) :
    getPalette core [] k = tic_tool_peek4 core.mapping k := rfl

theorem getPalette_nil_ne (core : Core) (k : Nat) :
    getPalette core [] k ≠ TRANSPARENT_COLOR := by
  rw [getPalette_nil]
  have := tic_tool_peek4_lt core.mapping k
  unfold TRANSPARENT_COLOR
  omega

/-- The value the multi-cell branch stores for the offset `(px, py)` of the tile of iteration
`(i, j)` is the palette-mapped pixel of the source block of the specification. -/
theorem spriteTile_value (core : Core) (index w h flip rotate i j px py X Y : Int)
    (hpx : 0 ≤ px ∧ px < 8) (hpy : 0 ≤ py ∧ py < 8)
    (hX : X = if rotate % 4 = 0 ∨ rotate % 4 = 2 then 8 * i + px else 8 * j + px)
    (hY : Y = if rotate % 4 = 0 ∨ rotate % 4 = 2 then 8 * j + py else 8 * i + py) :
    getPalette core []
        (spriteTile core index w h (flip % 4) (rotate % 4) i j
          (scaledSource (orientation (flip % 4) (rotate % 4)) px py).1
          (scaledSource (orientation (flip % 4) (rotate % 4)) px py).2) % 16 =
      tic_tool_peek4 core.mapping
        (specBlockPixel (getTileSheetFromSegment core core.blit_segment) index
          (specBlockSource w h flip rotate X Y).1 (specBlockSource w h flip rotate X Y).2) := by
  subst hX hY
  rw [specBlockSource_cell, getPalette_nil]
  have hr := scaledSource_range (orientation (flip % 4) (rotate % 4)) px py hpx hpy
  unfold specBlockPixel spriteTile
  simp only
  generalize (scaledSource (orientation (flip % 4) (rotate % 4)) px py).1 = a at hr
  generalize (scaledSource (orientation (flip % 4) (rotate % 4)) px py).2 = b at hr
  generalize (spriteCell w h (flip % 4) (rotate % 4) i j).1 = mx
  generalize (spriteCell w h (flip % 4) (rotate % 4) i j).2 = my
  have e1 : (8 * mx + a) / 8 = mx := by omega
  have e2 : (8 * mx + a) % 8 = a := by omega
  have e3 : (8 * my + b) / 8 = my := by omega
  have e4 : (8 * my + b) % 8 = b := by omega
  rw [e1, e2, e3, e4]
  have := tic_tool_peek4_lt core.mapping
    ((getTileSheetFromSegment core core.blit_segment).gettile
      (index + mx + my * (getTileSheetFromSegment core core.blit_segment).sheet_width) false a b)
  omega

/-- C9: for `w, h >= 1` (not both 1), `index >= 0`, scale 1, an empty transparency list and
the whole destination block inside the clip rectangle, `drawSprite` renders the `w x h`
tile block as one unit: the destination pixel at block offset `(X, Y)` reads back as the
palette-mapped pixel of the source block `S` at the coordinate obtained by rotating the
whole block clockwise by `rotate * 90` degrees and then mirroring it by `flip` (for 90 and
270 degrees the destination block is `8 h` wide and `8 w` tall). -/
theorem C9_sprite_block_as_unit (s : Core) (cx cy cw ch index x y w h flip rotate X Y : Int)
    (_hw : 1 ≤ w) (_hh : 1 ≤ h) (hwh : ¬ (w = 1 ∧ h = 1)) (hi : 0 ≤ index)
    (hin : (tic_api_clip s cx cy cw ch).clip.l ≤ x ∧
      x + spriteDestWidth w h rotate ≤ (tic_api_clip s cx cy cw ch).clip.r ∧
      (tic_api_clip s cx cy cw ch).clip.t ≤ y ∧
      y + spriteDestHeight w h rotate ≤ (tic_api_clip s cx cy cw ch).clip.b)
    (hX : 0 ≤ X ∧ X < spriteDestWidth w h rotate)
    (hY : 0 ≤ Y ∧ Y < spriteDestHeight w h rotate) :
    getPixel (drawSprite (tic_api_clip s cx cy cw ch) index x y w h [] 1 flip rotate)
        (x + X) (y + Y) =
      tic_tool_peek4 (tic_api_clip s cx cy cw ch).mapping
        (specBlockPixel
          (getTileSheetFromSegment (tic_api_clip s cx cy cw ch)
            (tic_api_clip s cx cy cw ch).blit_segment) index
          (specBlockSource w h flip rotate X Y).1 (specBlockSource w h flip rotate X Y).2) := by
  have hc := tic_api_clip_inScreen s cx cy cw ch
  generalize tic_api_clip s cx cy cw ch = core at hc hin
  have hclip : inClip core.clip (x + X) (y + Y) := by
    unfold inClip
    omega
  have hnec : ¬ EARLY_CLIP core x y (w * (TIC_SPRITESIZE * 1)) (h * (TIC_SPRITESIZE * 1)) := by
    unfold spriteDestWidth at hin hX
    unfold spriteDestHeight at hin hY
    unfold TIC_SPRITESIZE
    intro hec
    split at hX <;> split at hY <;> omega
  have hp := drawSprite_multi_paints core index x y w h [] 1 flip rotate hi hwh hnec
  have hr := (paintsPx_read hp hc
    (fun _ _ _ ⟨_, _, _, _, _, _, ht⟩ => tileWrites_inClip ht) (x + X) (y + Y)).1
  have hex : ∃ v, spriteWrites core index x y w h [] 1 flip rotate (x + X) (y + Y) v := by
    unfold spriteDestWidth at hX
    unfold spriteDestHeight at hY
    by_cases hre : rotate % 4 = 0 ∨ rotate % 4 = 2
    · rw [if_neg (by omega)] at hX hY
      refine ⟨_, X / 8, Y / 8, by omega, by omega, by omega, by omega,
        (tileWrites_one_iff _ _ _ _ _ _ _ _ _ _).2 ⟨?_, ?_, ?_, ?_, hclip,
          getPalette_nil_ne _ _, rfl⟩⟩ <;>
        simp only [spritePos, if_pos hre, TIC_SPRITESIZE] <;> omega
    · rw [if_pos (by omega)] at hX hY
      refine ⟨_, Y / 8, X / 8, by omega, by omega, by omega, by omega,
        (tileWrites_one_iff _ _ _ _ _ _ _ _ _ _).2 ⟨?_, ?_, ?_, ?_, hclip,
          getPalette_nil_ne _ _, rfl⟩⟩ <;>
        simp only [spritePos, if_neg hre, TIC_SPRITESIZE] <;> omega
  obtain ⟨v, hv⟩ := hex
  obtain ⟨i, j, -, -, -, -, ht⟩ := hr v hv
  obtain ⟨a1, a2, a3, a4, -, -, hval⟩ := (tileWrites_one_iff _ _ _ _ _ _ _ _ _ _).1 ht
  unfold getPixel tic_api_peek4
  rw [hval]
  have key := spriteTile_value core index w h flip rotate i j
    (x + X - (spritePos x y 1 (rotate % 4) i j).1)
    (y + Y - (spritePos x y 1 (rotate % 4) i j).2) X Y ⟨a1, a2⟩ ⟨a3, a4⟩
    (by
      unfold spritePos TIC_SPRITESIZE
      split <;> simp only <;> omega)
    (by
      unfold spritePos TIC_SPRITESIZE
      split <;> simp only <;> omega)
  rw [← key]
  omega

/-- C9 on a concrete call: the `2 x 1` sprite at tile 0 of `demoCore`, rotated by 90 degrees,
fills a block 8 wide and 16 tall; its pixel `(3, 10)` is the source pixel `(10, 4)`, that is
pixel `(2, 4)` of tile 1, colour 11. -/
theorem C9_sprite_block_as_unit_witness :
    getPixel (drawSprite (tic_api_clip demoCore 0 0 240 136) 0 0 0 2 1 [] 1 tic_no_flip
      tic_90_rotate) (0 + 3) (0 + 10) = 11 :=
  C9_sprite_block_as_unit demoCore 0 0 240 136 0 0 0 2 1 tic_no_flip tic_90_rotate 3 10
    (by decide) (by decide) (by decide) (by decide) (by decide) (by decide) (by decide)

/-- On a single tile the block transform of the specification is the single-tile
composition `specSource`. -/
theorem specBlockSource_single (flip rotate X Y : Int) :
    specBlockSource 1 1 flip rotate X Y = specSource flip rotate X Y := by
  have hf : flip % 4 = 0 ∨ flip % 4 = 1 ∨ flip % 4 = 2 ∨ flip % 4 = 3 := by omega
  have hr : rotate % 4 = 0 ∨ rotate % 4 = 1 ∨ rotate % 4 = 2 ∨ rotate % 4 = 3 := by omega
  unfold specBlockSource spriteDestWidth spriteDestHeight specSource
  rcases hf with hf | hf | hf | hf <;> rcases hr with hr | hr | hr | hr <;>
    simp only [hf, hr] <;>
    simp +decide [specBlockRotate, specBlockFlip, specFlip, specRotate,
      Function.iterate_succ, Function.iterate_zero]

/-! ## Map wrapping -/

theorem whileNegAdd_eq (n : Int) (hn : 0 < n) :
    ∀ (k : Nat) (m : Int), (-m).toNat ≤ k →
      whileNegAdd n hn m = if m < 0 then m % n else m := by
  intro k
  induction k with
  | zero =>
    intro m hk
    unfold whileNegAdd
    rw [if_neg (by omega), if_neg (by omega)]
  | succ k ih =>
    intro m hk
    unfold whileNegAdd
    split
    · rename_i hm
      rw [ih (m + n) (by omega)]
      split
      · exact Int.add_emod_self
      · rw [← Int.add_emod_self (a := m) (b := n)]
        exact (Int.emod_eq_of_lt (by omega) (by omega)).symm
    · rfl

theorem whileGeSub_eq (n : Int) (hn : 0 < n) :
    ∀ (k : Nat) (m : Int), m.toNat ≤ k → 0 ≤ m → whileGeSub n hn m = m % n := by
  intro k
  induction k with
  | zero =>
    intro m hk hm
    have h0 : m = 0 := by omega
    subst h0
    unfold whileGeSub
    rw [if_neg (by omega)]
    simp
  | succ k ih =>
    intro m hk hm
    unfold whileGeSub
    split
    · rename_i hge
      rw [ih (m - n) (by omega) (by omega)]
      have : m - n + n = m := by omega
      rw [← Int.add_emod_self (a := m - n) (b := n), this]
    · exact (Int.emod_eq_of_lt hm (by omega)).symm

/-- The two wrapping loops of `drawMap` compute the non-negative remainder. -/
theorem wrap_loops_eq_emod (n : Int) (hn : 0 < n) (m : Int) :
    whileGeSub n hn (whileNegAdd n hn m) = m % n := by
  rw [whileNegAdd_eq n hn _ m (le_refl _)]
  split
  · have h1 := Int.emod_nonneg m (show n ≠ 0 by omega)
    rw [whileGeSub_eq n hn _ _ (le_refl _) h1]
    exact Int.emod_emod_of_dvd m (dvd_refl n)
  · exact whileGeSub_eq n hn _ _ (le_refl _) (by omega)

theorem drawMap_eq_wrapped (core : Core) (src : Int → Int) (x y width height sx sy : Int)
    (colors : List Nat) (scale : Int)
    (remap : Option (Int → Int → RemapResult → RemapResult)) :
    drawMap core src x y width height sx sy colors scale remap =
      drawMapWrapped core src x y width height sx sy colors scale remap := by
  unfold drawMap drawMapWrapped
  simp only [wrap_loops_eq_emod]
  rfl

/-- C11: for every map region, negative origins and cells beyond the map size included, the
wrapping loops of `drawMap` terminate with the cell `(i mod 240, j mod 136)` (non-negative
remainders), the index `mi + mj * 240` lies in `[0, 240 * 136)`, and `drawMap` and
`tic_api_map` read the map data at such indices only. -/
theorem C11_map_wrap (core : Core) (src src2 : Int → Int) (x y width height sx sy : Int)
    (colors : List Nat) (scale : Int)
    (remap : Option (Int → Int → RemapResult → RemapResult)) (i j : Int) :
    whileGeSub TIC_MAP_WIDTH (by decide) (whileNegAdd TIC_MAP_WIDTH (by decide) i) = i % 240 ∧
    whileGeSub TIC_MAP_HEIGHT (by decide) (whileNegAdd TIC_MAP_HEIGHT (by decide) j) =
      j % 136 ∧
    (0 ≤ i % 240 ∧ i % 240 < 240 ∧ 0 ≤ j % 136 ∧ j % 136 < 136) ∧
    (0 ≤ i % 240 + j % 136 * TIC_MAP_WIDTH ∧
      i % 240 + j % 136 * TIC_MAP_WIDTH < 240 * 136) ∧
    drawMap core src x y width height sx sy colors scale remap =
      drawMapWrapped core src x y width height sx sy colors scale remap ∧
    tic_api_map core x y width height sx sy colors scale remap =
      drawMapWrapped core core.map x y width height sx sy colors scale remap ∧
    ((∀ k, 0 ≤ k → k < 240 * 136 → src2 k = src k) →
      drawMap core src2 x y width height sx sy colors scale remap =
        drawMap core src x y width height sx sy colors scale remap) := by
  refine ⟨wrap_loops_eq_emod _ _ i, wrap_loops_eq_emod _ _ j, by omega, ?_,
    drawMap_eq_wrapped _ _ _ _ _ _ _ _ _ _ _, drawMap_eq_wrapped _ _ _ _ _ _ _ _ _ _ _, ?_⟩
  · unfold TIC_MAP_WIDTH
    omega
  · intro h
    rw [drawMap_eq_wrapped, drawMap_eq_wrapped]
    unfold drawMapWrapped
    have e : ∀ a b : Int, src2 (a % 240 + b % 136 * 240) = src (a % 240 + b % 136 * 240) :=
      fun a b => h _ (by omega) (by omega)
    simp only [e]

/-- C11 on a concrete region: a map whose data outside `[0, 240 * 136)` differs draws the
same, for the region at the negative origin `(-1, -1)`. -/
theorem C11_map_wrap_witness :
    drawMap demoCore (fun k => if 0 ≤ k ∧ k < 240 * 136 then 0 else 7) (-1) (-1) 2 2 0 0 [] 1
        none =
      drawMap demoCore (fun _ => 0) (-1) (-1) 2 2 0 0 [] 1 none :=
  (C11_map_wrap demoCore (fun _ => 0) (fun k => if 0 ≤ k ∧ k < 240 * 136 then 0 else 7)
    (-1) (-1) 2 2 0 0 [] 1 none 0 0).2.2.2.2.2.2 (by
      intro k h1 h2
      rw [if_pos ⟨h1, h2⟩])

/-! ## The trace of `drawEllipse` -/

theorem ellipsePassY_eq_trace (pix : Core → Int → Int → Nat → Core) (x0 y0 aa2 bb2 : Int)
    (color : Nat) (haa : 0 < aa2) (hbb : 0 ≤ bb2) :
    ∀ (n : Nat) (x y dx dy sx sy e : Int) (core : Core), (sx - sy + 1).toNat ≤ n →
      ellipsePassY pix x0 y0 aa2 bb2 color haa hbb x y dx dy sx sy e core =
        ((tracePassY aa2 bb2 n x y dx dy sx sy e).flatMap (quadPoints x0 y0)).foldl
          (fun c p => pix c p.1 p.2 color) core := by
  intro n
  induction n with
  | zero =>
    intro x y dx dy sx sy e core hn
    unfold ellipsePassY
    rw [if_neg (by omega)]
    rfl
  | succ n ih =>
    intro x y dx dy sx sy e core hn
    unfold ellipsePassY tracePassY
    split
    · simp only
      split
      · rw [ih _ _ _ _ _ _ _ _ (by omega)]
        simp [quadPoints, List.flatMap_cons]
      · rw [ih _ _ _ _ _ _ _ _ (by omega)]
        simp [quadPoints, List.flatMap_cons]
    · rfl

theorem ellipsePassX_eq_trace (pix : Core → Int → Int → Nat → Core) (x0 y0 aa2 bb2 : Int)
    (color : Nat) (haa : 0 ≤ aa2) (hbb : 0 < bb2) :
    ∀ (n : Nat) (x y dx dy sx sy e : Int) (core : Core), (sy - sx + 1).toNat ≤ n →
      ellipsePassX pix x0 y0 aa2 bb2 color haa hbb x y dx dy sx sy e core =
        ((tracePassX aa2 bb2 n x y dx dy sx sy e).flatMap (quadPoints x0 y0)).foldl
          (fun c p => pix c p.1 p.2 color) core := by
  intro n
  induction n with
  | zero =>
    intro x y dx dy sx sy e core hn
    unfold ellipsePassX
    rw [if_neg (by omega)]
    rfl
  | succ n ih =>
    intro x y dx dy sx sy e core hn
    unfold ellipsePassX tracePassX
    split
    · simp only
      split
      · rw [ih _ _ _ _ _ _ _ _ (by omega)]
        simp [quadPoints, List.flatMap_cons]
      · rw [ih _ _ _ _ _ _ _ _ (by omega)]
        simp [quadPoints, List.flatMap_cons]
    · rfl

/-- The function `drawEllipse` calls the pixel callback at the points of `ellipseTrace`, in
order. -/
theorem drawEllipse_eq_trace (core : Core) (x0 y0 a b : Int) (color : Nat)
    (pix : Core → Int → Int → Nat → Core) :
    drawEllipse core x0 y0 a b color pix =
      (ellipseTrace x0 y0 a b).foldl (fun c p => pix c p.1 p.2 color) core := by
  unfold drawEllipse ellipseTrace ellipseSteps
  split
  · rfl
  · split
    · rfl
    · simp only [List.flatMap_append, List.foldl_append]
      rw [ellipsePassY_eq_trace pix x0 y0 _ _ color _ _ (b * b * 2 * a + 1).toNat _ _ _ _ _ _ _ _
        (by simp), ellipsePassX_eq_trace pix x0 y0 _ _ color _ _ (a * a * 2 * b + 1).toNat]
      simp

/-! ## The span buffer -/

theorem initSidesBuffer_rows (core : Core) (i : Int) (h0 : 0 ≤ i) (h1 : i < TIC80_HEIGHT) :
    (initSidesBuffer core).sides.Left i = TIC80_WIDTH ∧
      (initSidesBuffer core).sides.Right i = -1 := by
  unfold initSidesBuffer
  simp only
  have key := forRange_induct 0 TIC80_HEIGHT (fun i sb =>
      ({ Left := fun k => if k = i then TIC80_WIDTH else sb.Left k,
         Right := fun k => if k = i then -1 else sb.Right k } : SidesBuffer)) core.sides
    (fun k sb => ∀ j, 0 ≤ j → j < k → sb.Left j = TIC80_WIDTH ∧ sb.Right j = -1)
    (by
      intro j hj1 hj2
      omega)
    (by
      intro k sb hk1 hk2 ih j hj1 hj2
      simp only
      by_cases hjk : j = k
      · simp [hjk]
      · simp only [if_neg hjk]
        exact ih j hj1 (by omega))
    TIC80_HEIGHT (by decide) (le_refl _)
  exact key i h0 h1

theorem sameButSides_refl (a : Core) : SameButSides a a := rfl

theorem sameButSides_trans {a b c : Core} (h1 : SameButSides a b) (h2 : SameButSides b c) :
    SameButSides a c := by
  unfold SameButSides at *
  rw [h2, h1]

theorem sameButSides_screen {a b : Core} (h : SameButSides a b) : b.screen = a.screen := by
  unfold SameButSides at h
  rw [h]

theorem sameButSides_clip {a b : Core} (h : SameButSides a b) : b.clip = a.clip := by
  unfold SameButSides at h
  rw [h]

theorem initSidesBuffer_sameButSides (core : Core) : SameButSides core (initSidesBuffer core) :=
  rfl

theorem setSidePixel_sameButSides (core : Core) (x y : Int) :
    SameButSides core (setSidePixel core x y) := by
  unfold setSidePixel
  split
  · rfl
  · rfl

/-- The ellipse trace with the span callback changes the span buffer only. -/
theorem drawEllipse_sides_sameButSides (core : Core) (x0 y0 a b : Int) (color : Nat) :
    SameButSides core (drawEllipse core x0 y0 a b color setElliSide) :=
  drawEllipse_invariant setElliSide (fun c => SameButSides core c)
    (fun c px py _ h => sameButSides_trans h (setSidePixel_sameButSides c px py)) _ _ _ _ _ _
    (sameButSides_refl core)

theorem drawSidesBuffer_paints (core : Core) (y0 y1 : Int) (color : Nat) :
    PaintsPx (fun px py v => spanFilled core y0 y1 px py ∧ v = color % 16) core
      (drawSidesBuffer core y0 y1 color) := by
  unfold drawSidesBuffer
  refine paintsPx_congr ?_ (paintsPx_forRange
    (S := fun y px py v => py = y ∧ max (core.sides.Left y) core.clip.l ≤ px ∧
      px < min (core.sides.Right y + 1) core.clip.r ∧ v = color % 16) _ _ _ ?_)
  · intro px py v
    unfold spanFilled
    constructor
    · rintro ⟨y, h1, h2, h3, h4, h5, h6⟩
      subst h3
      exact ⟨⟨h1, h2, h4, h5⟩, h6⟩
    · rintro ⟨⟨h1, h2, h4, h5⟩, h6⟩
      exact ⟨py, h1, h2, rfl, h4, h5, h6⟩
  · intro y c _ _ hc
    simp only
    rw [sameEnv_sides hc, sameEnv_clip hc]
    refine paints_congr ?_ (paints_forRange (R := fun i addr v => addr = i ∧ v = color % 16)
      _ _ _ (fun i d _ _ _ => paints_poke d i color))
    intro addr v
    unfold TIC80_WIDTH
    constructor
    · rintro ⟨i, h1, h2, h3, h4⟩
      subst h3
      exact ⟨addr - y * 240, y, by omega, rfl, by omega, by omega, h4⟩
    · rintro ⟨px, py, h1, h2, h3, h4, h5⟩
      subst h2
      exact ⟨addr, by omega, by omega, rfl, h5⟩

theorem spanFilled_inClip {core : Core} {y0 y1 px py : Int}
    (h : spanFilled core y0 y1 px py) : inClip core.clip px py := by
  unfold spanFilled at h
  unfold inClip
  have e1 := le_max_right (core.sides.Left py) core.clip.l
  have e2 := min_le_right (core.sides.Right py + 1) core.clip.r
  have e3 := le_max_left core.clip.t y0
  have e4 := min_le_left core.clip.b (y1 + 1)
  omega

/-- Reading the video memory after the span fill. -/
theorem drawSidesBuffer_read (core : Core) (hc : core.clip.inScreen) (y0 y1 : Int)
    (color : Nat) (px py : Int) (hon : onScreen px py) :
    (drawSidesBuffer core y0 y1 color).screen (py * TIC80_WIDTH + px) =
      if spanFilled core y0 y1 px py then color % 16
      else core.screen (py * TIC80_WIDTH + px) := by
  have hr := paintsPx_read (drawSidesBuffer_paints core y0 y1 color) hc
    (fun _ _ _ h => spanFilled_inClip h.1) px py
  split
  · rename_i h
    exact (hr.1 _ ⟨h, rfl⟩).2
  · rename_i h
    exact hr.2 hon (fun ⟨_, hv⟩ => h hv.1)

theorem drawEllipse_degenerate (core : Core) (x0 y0 a b : Int) (color : Nat)
    (pix : Core → Int → Int → Nat → Core) (h : a ≤ 0 ∨ b ≤ 0) :
    drawEllipse core x0 y0 a b color pix = core := by
  unfold drawEllipse
  split
  · rfl
  · split
    · rfl
    · omega

/-- The span fill over a freshly reset span buffer writes nothing. -/
theorem drawSidesBuffer_after_init (core : Core) (hc : core.clip.inScreen) (y0 y1 : Int)
    (color : Nat) :
    drawSidesBuffer (initSidesBuffer core) y0 y1 color = initSidesBuffer core := by
  refine paintsPx_empty (drawSidesBuffer_paints (initSidesBuffer core) y0 y1 color) ?_
  rintro px py v ⟨h, -⟩
  have hin := spanFilled_inClip h
  have hon := @inClip_onScreen (initSidesBuffer core).clip hc px py hin
  unfold onScreen at hon
  have hrow := initSidesBuffer_rows core py hon.2.2.1 hon.2.2.2
  unfold spanFilled at h
  rw [hrow.1, hrow.2] at h
  have e1 := le_max_left TIC80_WIDTH (initSidesBuffer core).clip.l
  have e2 := min_le_left (-1 + 1) (initSidesBuffer core).clip.r
  unfold TIC80_WIDTH at e1 h
  omega

/-- C15: `tic_api_circ` and `tic_api_circb` with `r <= 0`, and `tic_api_elli` and
`tic_api_ellib` with `a <= 0` or `b <= 0`, leave the framebuffer unchanged, for every centre,
colour and clip rectangle (for the filled variants the span fill over the freshly reset span
buffer writes nothing). -/
theorem C15_degenerate_radii (s : Core) (cx cy cw ch x y r a b : Int) (color : Nat) :
    (r ≤ 0 →
      (tic_api_circ (tic_api_clip s cx cy cw ch) x y r color).screen =
        (tic_api_clip s cx cy cw ch).screen ∧
      tic_api_circb (tic_api_clip s cx cy cw ch) x y r color = tic_api_clip s cx cy cw ch) ∧
    (a ≤ 0 ∨ b ≤ 0 →
      (tic_api_elli (tic_api_clip s cx cy cw ch) x y a b color).screen =
        (tic_api_clip s cx cy cw ch).screen ∧
      tic_api_ellib (tic_api_clip s cx cy cw ch) x y a b color = tic_api_clip s cx cy cw ch) := by
  have hc := tic_api_clip_inScreen s cx cy cw ch
  generalize tic_api_clip s cx cy cw ch = core at hc
  constructor
  · intro hr
    constructor
    · unfold tic_api_circ
      simp only
      rw [drawEllipse_degenerate _ _ _ _ _ _ _ (Or.inl hr), drawSidesBuffer_after_init core hc]
      rfl
    · unfold tic_api_circb
      exact drawEllipse_degenerate _ _ _ _ _ _ _ (Or.inl hr)
  · intro hab
    constructor
    · unfold tic_api_elli
      simp only
      rw [drawEllipse_degenerate _ _ _ _ _ _ _ hab, drawSidesBuffer_after_init core hc]
      rfl
    · unfold tic_api_ellib
      exact drawEllipse_degenerate _ _ _ _ _ _ _ hab

/-- C15 on concrete calls: a circle of radius 0 and an ellipse with `b = -3`. -/
theorem C15_degenerate_radii_witness :
    (tic_api_circ (tic_api_clip demoCore 0 0 240 136) 10 10 0 5).screen =
      (tic_api_clip demoCore 0 0 240 136).screen ∧
    (tic_api_elli (tic_api_clip demoCore 0 0 240 136) 10 10 4 (-3) 5).screen =
      (tic_api_clip demoCore 0 0 240 136).screen :=
  ⟨((C15_degenerate_radii demoCore 0 0 240 136 10 10 0 4 (-3) 5).1 (by decide)).1,
   ((C15_degenerate_radii demoCore 0 0 240 136 10 10 0 4 (-3) 5).2 (by decide)).1⟩

theorem paints_determined {R : Int → Nat → Prop} {a1 b1 a2 b2 : Core} (h1 : Paints R a1 b1)
    (h2 : Paints R a2 b2) (hs : a1.screen = a2.screen)
    (hR : ∀ addr v w, R addr v → R addr w → v = w) : b1.screen = b2.screen := by
  funext addr
  by_cases hw : ∃ v, R addr v
  · exact hR addr _ _ ((h1.2 addr).1 hw) ((h2.2 addr).1 hw)
  · rw [(h1.2 addr).2 hw, (h2.2 addr).2 hw, hs]

theorem setSidePixel_agree (c1 c2 : Core) (x y : Int) (h : sidesAgree c1.sides c2.sides) :
    sidesAgree (setSidePixel c1 x y).sides (setSidePixel c2 x y).sides := by
  unfold setSidePixel
  by_cases hy : y ≥ 0 ∧ y < TIC80_HEIGHT
  · simp only [if_pos hy]
    have hrow := h y hy.1 hy.2
    intro i hi1 hi2
    have hi := h i hi1 hi2
    rw [hrow.1]
    by_cases hl : x < c2.sides.Left y
    · simp only [if_pos hl]
      rw [hrow.2]
      by_cases hr : x > c2.sides.Right y
      · simp only [if_pos hr]
        by_cases hiy : i = y
        · simp [hiy]
        · simp [hiy, hi.1, hi.2]
      · simp only [if_neg hr]
        by_cases hiy : i = y
        · subst hiy
          simp [hrow.2]
        · simp [hiy, hi.1, hi.2]
    · simp only [if_neg hl]
      rw [hrow.2]
      by_cases hr : x > c2.sides.Right y
      · simp only [if_pos hr]
        by_cases hiy : i = y
        · subst hiy
          simp [hrow.1]
        · simp [hiy, hi.1, hi.2]
      · simp only [if_neg hr]
        exact hi
  · simp only [if_neg hy]
    exact h

theorem foldl_setElliSide_agree (ps : List (Int × Int)) (color : Nat) :
    ∀ (c1 c2 : Core), sidesAgree c1.sides c2.sides →
      sidesAgree (ps.foldl (fun c p => setElliSide c p.1 p.2 color) c1).sides
        (ps.foldl (fun c p => setElliSide c p.1 p.2 color) c2).sides := by
  induction ps with
  | nil =>
    intro c1 c2 h
    exact h
  | cons p ps ih =>
    intro c1 c2 h
    simp only [List.foldl_cons]
    exact ih _ _ (setSidePixel_agree c1 c2 p.1 p.2 h)

theorem initSidesBuffer_agree (c1 c2 : Core) :
    sidesAgree (initSidesBuffer c1).sides (initSidesBuffer c2).sides := by
  intro i h0 h1
  have e1 := initSidesBuffer_rows c1 i h0 h1
  have e2 := initSidesBuffer_rows c2 i h0 h1
  rw [e1.1, e1.2, e2.1, e2.2]
  exact ⟨rfl, rfl⟩

/-- The filled ellipse drawn from two states that differ in the span buffer only gives the
same video memory. -/
theorem filled_ellipse_independent (core : Core) (hc : core.clip.inScreen)
    (sb1 sb2 : SidesBuffer) (x y a b y0 y1 : Int) (color : Nat) :
    (drawSidesBuffer (drawEllipse (initSidesBuffer { core with sides := sb1 }) x y a b 0
        setElliSide) y0 y1 color).screen =
      (drawSidesBuffer (drawEllipse (initSidesBuffer { core with sides := sb2 }) x y a b 0
        setElliSide) y0 y1 color).screen := by
  have hs1 := sameButSides_trans (initSidesBuffer_sameButSides { core with sides := sb1 })
    (drawEllipse_sides_sameButSides (initSidesBuffer { core with sides := sb1 }) x y a b 0)
  have hs2 := sameButSides_trans (initSidesBuffer_sameButSides { core with sides := sb2 })
    (drawEllipse_sides_sameButSides (initSidesBuffer { core with sides := sb2 }) x y a b 0)
  have hag : sidesAgree
      (drawEllipse (initSidesBuffer { core with sides := sb1 }) x y a b 0 setElliSide).sides
      (drawEllipse (initSidesBuffer { core with sides := sb2 }) x y a b 0 setElliSide).sides := by
    rw [drawEllipse_eq_trace, drawEllipse_eq_trace]
    exact foldl_setElliSide_agree _ _ _ _ (initSidesBuffer_agree _ _)
  generalize drawEllipse (initSidesBuffer { core with sides := sb1 }) x y a b 0 setElliSide = e1
    at hs1 hag
  generalize drawEllipse (initSidesBuffer { core with sides := sb2 }) x y a b 0 setElliSide = e2
    at hs2 hag
  have hc1 : e1.clip = core.clip := sameButSides_clip hs1
  have hc2 : e2.clip = core.clip := sameButSides_clip hs2
  have hsc1 : e1.screen = core.screen := sameButSides_screen hs1
  have hsc2 : e2.screen = core.screen := sameButSides_screen hs2
  have hspan : ∀ px py, spanFilled e1 y0 y1 px py ↔ spanFilled e2 y0 y1 px py := by
    intro px py
    unfold spanFilled
    rw [hc1, hc2]
    have e3 := le_max_left core.clip.t y0
    have e4 := min_le_left core.clip.b (y1 + 1)
    constructor
    · rintro ⟨h1, h2, h3, h4⟩
      have hrow := hag py (by unfold ClipRect.inScreen at hc; omega)
        (by unfold ClipRect.inScreen at hc; omega)
      rw [← hrow.1, ← hrow.2]
      exact ⟨h1, h2, h3, h4⟩
    · rintro ⟨h1, h2, h3, h4⟩
      have hrow := hag py (by unfold ClipRect.inScreen at hc; omega)
        (by unfold ClipRect.inScreen at hc; omega)
      rw [hrow.1, hrow.2]
      exact ⟨h1, h2, h3, h4⟩
  have p1 := drawSidesBuffer_paints e1 y0 y1 color
  have p2 := drawSidesBuffer_paints e2 y0 y1 color
  have p1b : PaintsPx (fun px py v => spanFilled e2 y0 y1 px py ∧ v = color % 16) e1
      (drawSidesBuffer e1 y0 y1 color) :=
    paintsPx_congr (fun px py v => by rw [hspan]) p1
  refine paints_determined p1b p2 (by rw [hsc1, hsc2]) ?_
  rintro addr v w ⟨_, _, _, _, hv⟩ ⟨_, _, _, _, hw⟩
  rw [hv, hw]

/-- C16: the result of `tic_api_circ` and of `tic_api_elli` does not depend on the prior
contents of the span buffer: from two states that differ in the span buffer only (and are
equal otherwise, with the same arguments) the resulting framebuffers are equal. -/
theorem C16_span_buffer_independent (s : Core) (cx cy cw ch : Int) (sb1 sb2 : SidesBuffer)
    (x y r a b : Int) (color : Nat) :
    (tic_api_circ { tic_api_clip s cx cy cw ch with sides := sb1 } x y r color).screen =
      (tic_api_circ { tic_api_clip s cx cy cw ch with sides := sb2 } x y r color).screen ∧
    (tic_api_elli { tic_api_clip s cx cy cw ch with sides := sb1 } x y a b color).screen =
      (tic_api_elli { tic_api_clip s cx cy cw ch with sides := sb2 } x y a b color).screen := by
  have hc := tic_api_clip_inScreen s cx cy cw ch
  generalize tic_api_clip s cx cy cw ch = core at hc
  constructor
  · unfold tic_api_circ
    exact filled_ellipse_independent core hc sb1 sb2 x y r r _ _ color
  · unfold tic_api_elli
    exact filled_ellipse_independent core hc sb1 sb2 x y a b _ _ color

/-- Reading the video memory after `tic_api_elli`: a pixel of a filled span holds the low
four bits of the colour argument itself, every other pixel of the screen is as before. -/
theorem tic_api_elli_read (core : Core) (hc : core.clip.inScreen) (x y a b : Int) (color : Nat)
    (px py : Int) (hon : onScreen px py) :
    (tic_api_elli core x y a b color).screen (py * TIC80_WIDTH + px) =
      if spanFilled (drawEllipse (initSidesBuffer core) x y a b 0 setElliSide)
          (y - b) (y + b + 1) px py then color % 16
      else core.screen (py * TIC80_WIDTH + px) := by
  have hs := sameButSides_trans (initSidesBuffer_sameButSides core)
    (drawEllipse_sides_sameButSides (initSidesBuffer core) x y a b 0)
  unfold tic_api_elli
  simp only
  rw [drawSidesBuffer_read _ (by rw [sameButSides_clip hs]; exact hc) _ _ _ _ _ hon,
    sameButSides_screen hs]

set_option maxRecDepth 100000 in
/-- C14, evaluated on the code: with the colour mapping `i -> (i + 1) % 16`, colour argument 1
is mapped to 2, and `tic_api_circb`, `tic_api_ellib` and `tic_api_rect` store 2, but the
filled variants `tic_api_circ` and `tic_api_elli` store the unmapped 1. -/
theorem C14_filled_variants_skip_mapping :
    mapColor (tic_api_clip demoCoreShifted 0 0 240 136) 1 = 2 ∧
    getPixel (tic_api_circb (tic_api_clip demoCoreShifted 0 0 240 136) 10 10 2 1) 12 10 = 2 ∧
    getPixel (tic_api_ellib (tic_api_clip demoCoreShifted 0 0 240 136) 10 10 2 3 1) 12 10 = 2 ∧
    getPixel (tic_api_rect (tic_api_clip demoCoreShifted 0 0 240 136) 10 10 1 1 1) 10 10 = 2 ∧
    getPixel (tic_api_circ (tic_api_clip demoCoreShifted 0 0 240 136) 10 10 2 1) 10 10 = 1 ∧
    getPixel (tic_api_elli (tic_api_clip demoCoreShifted 0 0 240 136) 10 10 2 3 1) 10 10 = 1 := by
  refine ⟨by decide, ?_, ?_, by decide, ?_, ?_⟩
  · unfold tic_api_circb
    rw [drawEllipse_eq_trace]
    decide
  · unfold tic_api_ellib
    rw [drawEllipse_eq_trace]
    decide
  · unfold tic_api_circ
    simp only
    rw [drawEllipse_eq_trace]
    decide
  · unfold tic_api_elli
    simp only
    rw [drawEllipse_eq_trace]
    decide

/-! ## Evaluation of the ellipse rasteriser on concrete inputs -/

/-- The points of the second midpoint pass keep `1 <= y <= ` the starting `y`, as long as the
accumulators hold `sx = bb2 * x` and `sy = aa2 * y`. -/
theorem tracePassX_rows (aa2 bb2 : Int) (haa : 0 < aa2) (hbb : 0 < bb2) :
    ∀ (n : Nat) (x y dx dy sx sy e : Int), sy = aa2 * y → sx = bb2 * x → 0 ≤ x →
      (1 ≤ y ∨ 1 ≤ x) →
      ∀ p ∈ tracePassX aa2 bb2 n x y dx dy sx sy e, 1 ≤ p.2 ∧ p.2 ≤ y := by
  intro n
  induction n with
  | zero =>
    intro x y dx dy sx sy e _ _ _ _ p hp
    simp [tracePassX] at hp
  | succ n ih =>
    intro x y dx dy sx sy e hsy hsx hx hxy p hp
    unfold tracePassX at hp
    split at hp
    · rename_i hcond
      have hy : 1 ≤ y := by
        rcases hxy with h | h
        · exact h
        · by_contra hlt
          have h1 : aa2 * y ≤ 0 :=
            Int.mul_nonpos_of_nonneg_of_nonpos (by omega) (by omega)
          have h2 : 0 < bb2 * x := Int.mul_pos hbb (by omega)
          omega
      rw [List.mem_cons] at hp
      rcases hp with hp | hp
      · subst hp
        exact ⟨hy, le_refl _⟩
      · split at hp
        · have := ih (x + 1) (y - 1) _ _ _ _ _ (by rw [hsy]; ring) (by rw [hsx]; ring)
            (by omega) (Or.inr (by omega)) p hp
          omega
        · have := ih (x + 1) y _ _ _ _ _ hsy (by rw [hsx]; ring) (by omega)
            (Or.inr (by omega)) p hp
          omega
    · simp at hp

/-- Points on other rows leave the extents recorded for row `r` as they are. -/
theorem foldl_setElliSide_other_rows (r : Int) (color : Nat) (ps : List (Int × Int)) :
    ∀ (c : Core), (∀ p ∈ ps, p.2 ≠ r) →
      (ps.foldl (fun c p => setElliSide c p.1 p.2 color) c).sides.Left r = c.sides.Left r ∧
      (ps.foldl (fun c p => setElliSide c p.1 p.2 color) c).sides.Right r =
        c.sides.Right r := by
  induction ps with
  | nil =>
    intro c _
    exact ⟨rfl, rfl⟩
  | cons p ps ih =>
    intro c h
    simp only [List.foldl_cons]
    have h1 := ih (setElliSide c p.1 p.2 color) (fun q hq => h q (List.mem_cons_of_mem _ hq))
    have hp : r ≠ p.2 := fun e => h p (List.mem_cons_self _ _) e.symm
    rw [h1.1, h1.2]
    unfold setElliSide setSidePixel
    split
    · simp only
      split <;> split <;> simp [hp]
    · exact ⟨rfl, rfl⟩

theorem ellipseSteps_flat_ellipse :
    ellipseSteps 40000 1 =
      (40000, 0) :: tracePassX (40000 * 40000 * 2) (1 * 1 * 2) (40000 * 40000 * 2 * 1 + 1 : Int).toNat
        0 1 (1 * 1) ((1 - 2 * 1) * 40000 * 40000) 0 (40000 * 40000 * 2 * 1) 0 := by
  unfold ellipseSteps
  rw [if_neg (by decide), if_neg (by decide)]
  have h : tracePassY (40000 * 40000 * 2) (1 * 1 * 2) (1 * 1 * 2 * 40000 + 1 : Int).toNat 40000 0
      ((1 - 2 * 40000) * 1 * 1) (40000 * 40000) (1 * 1 * 2 * 40000) 0 0 = [(40000, 0)] := by
    decide
  rw [h]
  rfl

theorem drawEllipse_flat_ellipse (c : Core) :
    drawEllipse c 100 50 40000 1 0 setElliSide =
      List.foldl (fun c p => setElliSide c p.1 p.2 0)
        (List.foldl (fun c p => setElliSide c p.1 p.2 0) c (quadPoints 100 50 (40000, 0)))
        ((tracePassX (40000 * 40000 * 2) (1 * 1 * 2)
          (40000 * 40000 * 2 * 1 + 1 : Int).toNat 0 1 (1 * 1) ((1 - 2 * 1) * 40000 * 40000) 0
          (40000 * 40000 * 2 * 1) 0).flatMap (quadPoints 100 50)) := by
  rw [drawEllipse_eq_trace]
  unfold ellipseTrace
  rw [ellipseSteps_flat_ellipse]
  simp only [List.flatMap_cons, List.foldl_append]

theorem flat_ellipse_second_pass_rows :
    ∀ p ∈ (tracePassX (40000 * 40000 * 2) (1 * 1 * 2)
      (40000 * 40000 * 2 * 1 + 1 : Int).toNat 0 1 (1 * 1) ((1 - 2 * 1) * 40000 * 40000) 0
      (40000 * 40000 * 2 * 1) 0).flatMap (quadPoints 100 50), p.2 ≠ 50 := by
  intro p hp
  rw [List.mem_flatMap] at hp
  obtain ⟨q, hq, hpq⟩ := hp
  have hq2 := tracePassX_rows (40000 * 40000 * 2) (1 * 1 * 2) (by decide) (by decide) _ _ _ _ _
    _ _ _ (by norm_num) (by norm_num) (le_refl _) (Or.inl (le_refl _)) q hq
  have hq1 : q.2 = 1 := by omega
  unfold quadPoints at hpq
  rw [hq1] at hpq
  simp only [List.mem_cons, List.mem_singleton, List.not_mem_nil, or_false] at hpq
  unfold wrapS32 at hpq
  rcases hpq with h | h | h | h <;> rw [h] <;> simp only <;> omega

set_option maxRecDepth 100000 in
theorem flat_ellipse_first_pass_extents :
    (List.foldl (fun c p => setElliSide c p.1 p.2 0)
      (initSidesBuffer (tic_api_clip demoCore 0 0 240 136))
      (quadPoints 100 50 (40000, 0))).sides.Left 50 = 25636 ∧
    (List.foldl (fun c p => setElliSide c p.1 p.2 0)
      (initSidesBuffer (tic_api_clip demoCore 0 0 240 136))
      (quadPoints 100 50 (40000, 0))).sides.Right 50 = -25436 := by
  decide

/-- The extents recorded for row 50 by the trace of the ellipse with centre `(100, 50)`,
`a = 40000`, `b = 1`: the traced columns -39900 and 40100 are stored narrowed to `s16`. -/
theorem flat_ellipse_row_extents :
    (drawEllipse (initSidesBuffer (tic_api_clip demoCore 0 0 240 136)) 100 50 40000 1 0
      setElliSide).sides.Left 50 = 25636 ∧
    (drawEllipse (initSidesBuffer (tic_api_clip demoCore 0 0 240 136)) 100 50 40000 1 0
      setElliSide).sides.Right 50 = -25436 := by
  rw [drawEllipse_flat_ellipse]
  have key := foldl_setElliSide_other_rows 50 0 _
    (List.foldl (fun c p => setElliSide c p.1 p.2 0)
      (initSidesBuffer (tic_api_clip demoCore 0 0 240 136)) (quadPoints 100 50 (40000, 0)))
    flat_ellipse_second_pass_rows
  exact ⟨key.1.trans flat_ellipse_first_pass_extents.1,
    key.2.trans flat_ellipse_first_pass_extents.2⟩

theorem flat_ellipse_trace_mem (p : Int × Int) (hp : p ∈ quadPoints 100 50 (40000, 0)) :
    p ∈ ellipseTrace 100 50 40000 1 := by
  unfold ellipseTrace
  rw [ellipseSteps_flat_ellipse, List.flatMap_cons]
  exact List.mem_append_left _ hp

theorem flat_ellipse_pixel_kept :
    (tic_api_elli (tic_api_clip demoCore 0 0 240 136) 100 50 40000 1 5).screen
        (50 * TIC80_WIDTH + 100) =
      (tic_api_clip demoCore 0 0 240 136).screen (50 * TIC80_WIDTH + 100) := by
  rw [tic_api_elli_read _ (tic_api_clip_inScreen _ _ _ _ _) _ _ _ _ _ _ _ (by decide)]
  have hext := flat_ellipse_row_extents
  rw [if_neg]
  intro h
  unfold spanFilled at h
  rw [hext.1] at h
  have := le_max_left (25636 : Int)
    (drawEllipse (initSidesBuffer (tic_api_clip demoCore 0 0 240 136)) 100 50 40000 1 0
      setElliSide).clip.l
  omega

theorem getPixel_eq_screen (c : Core) (x y : Int) :
    getPixel c x y = c.screen (y * TIC80_WIDTH + x) % 16 := rfl

theorem demo_pixel_black :
    (tic_api_clip demoCore 0 0 240 136).screen (50 * TIC80_WIDTH + 100) % 16 = 0 := by
  decide

theorem flat_ellipse_trace_left : (-39900, 50) ∈ ellipseTrace 100 50 40000 1 :=
  flat_ellipse_trace_mem _ (by decide)

theorem flat_ellipse_trace_right : (40100, 50) ∈ ellipseTrace 100 50 40000 1 :=
  flat_ellipse_trace_mem _ (by decide)

/-- C12, evaluated on the code: for the filled ellipse with centre `(100, 50)`, `a = 40000`,
`b = 1` on the full-screen clip, the trace holds the points `(-39900, 50)` and `(40100, 50)`,
so the pixel `(100, 50)` lies between the leftmost and the rightmost traced column of its
row and inside the clip rectangle; yet `tic_api_elli` leaves it as it was (colour 0, not the
colour 5 of the call), because the extents are stored narrowed to `s16`. -/
theorem C12_filled_ellipse_span_narrowed :
    (-39900, 50) ∈ ellipseTrace 100 50 40000 1 ∧
    (40100, 50) ∈ ellipseTrace 100 50 40000 1 ∧
    inClip (tic_api_clip demoCore 0 0 240 136).clip 100 50 ∧
    getPixel (tic_api_clip demoCore 0 0 240 136) 100 50 = 0 ∧
    getPixel (tic_api_elli (tic_api_clip demoCore 0 0 240 136) 100 50 40000 1 5) 100 50 = 0 :=
  ⟨flat_ellipse_trace_left, flat_ellipse_trace_right, by decide,
    (getPixel_eq_screen _ _ _).trans demo_pixel_black,
    (getPixel_eq_screen _ _ _).trans
      ((congrArg (fun v => v % 16) flat_ellipse_pixel_kept).trans demo_pixel_black)⟩

theorem thin_ellipse_trace :
    ellipseTrace 20 20 1 4 =
      [(21, 20), (21, 20), (19, 20), (19, 20), (21, 21), (21, 19), (19, 21), (19, 19),
        (21, 22), (21, 18), (19, 22), (19, 18), (20, 24), (20, 16), (20, 24), (20, 16)] := by
  decide

theorem thin_ellipse_outline :
    getPixel (tic_api_ellib (tic_api_clip demoCore 0 0 240 136) 20 20 1 4 3) 21 22 = 3 ∧
    getPixel (tic_api_ellib (tic_api_clip demoCore 0 0 240 136) 20 20 1 4 3) 19 23 = 0 ∧
    getPixel (tic_api_ellib (tic_api_clip demoCore 0 0 240 136) 20 20 1 4 3) 20 23 = 0 ∧
    getPixel (tic_api_ellib (tic_api_clip demoCore 0 0 240 136) 20 20 1 4 3) 21 23 = 0 ∧
    getPixel (tic_api_ellib (tic_api_clip demoCore 0 0 240 136) 20 20 1 4 3) 20 24 = 3 := by
  unfold tic_api_ellib
  rw [drawEllipse_eq_trace]
  decide

/-- C13, evaluated on the code: both passes return, but the trace of the ellipse with
`a = 1`, `b = 4` consists of the sixteen points listed, none of which lies on the row
`y0 + 3` (nor on `y0 - 3`), although `|3| <= b`, so the outline drawn by `tic_api_ellib` is
open between the rows `y0 + 2` and `y0 + 4`; likewise the trace for `a = 4`, `b = 1` has no
point on the columns `x0 + 3` and `x0 - 3`. -/
theorem C13_thin_ellipse_gap (core : Core) (color : Nat) (pix : Core → Int → Int → Nat → Core) :
    drawEllipse core 20 20 1 4 color pix =
      ([(21, 20), (21, 20), (19, 20), (19, 20), (21, 21), (21, 19), (19, 21), (19, 19),
        (21, 22), (21, 18), (19, 22), (19, 18), (20, 24), (20, 16), (20, 24), (20, 16)] :
        List (Int × Int)).foldl (fun c p => pix c p.1 p.2 color) core ∧
    (∀ p ∈ ellipseTrace 20 20 1 4, p.2 ≠ 23 ∧ p.2 ≠ 17) ∧
    (∀ p ∈ ellipseTrace 20 20 4 1, p.1 ≠ 23 ∧ p.1 ≠ 17) ∧
    getPixel (tic_api_ellib (tic_api_clip demoCore 0 0 240 136) 20 20 1 4 3) 21 22 = 3 ∧
    getPixel (tic_api_ellib (tic_api_clip demoCore 0 0 240 136) 20 20 1 4 3) 19 23 = 0 ∧
    getPixel (tic_api_ellib (tic_api_clip demoCore 0 0 240 136) 20 20 1 4 3) 20 23 = 0 ∧
    getPixel (tic_api_ellib (tic_api_clip demoCore 0 0 240 136) 20 20 1 4 3) 21 23 = 0 ∧
    getPixel (tic_api_ellib (tic_api_clip demoCore 0 0 240 136) 20 20 1 4 3) 20 24 = 3 := by
  refine ⟨?_, by decide, by decide, thin_ellipse_outline⟩
  rw [drawEllipse_eq_trace, thin_ellipse_trace]

/-! ## Flags -/

theorem and_shift_ne_zero_iff (n i : Nat) : n &&& (1 <<< i) ≠ 0 ↔ n.testBit i = true := by
  rw [Nat.one_shiftLeft, Nat.and_two_pow]
  cases h : n.testBit i
  · simp
  · simp

theorem testBit_set_byte (b f g : Nat) (hg : g < 8) :
    ((b ||| (1 <<< f)) % 256).testBit g = (decide (f = g) || b.testBit g) := by
  have h256 : (256 : Nat) = 2 ^ 8 := by decide
  rw [h256, Nat.testBit_mod_two_pow, Nat.testBit_or, Nat.one_shiftLeft, Nat.testBit_two_pow]
  simp [hg, Bool.or_comm]

theorem testBit_clear_byte (b f g : Nat) (hg : g < 8) :
    ((b ^^^ (b &&& (1 <<< f))) % 256).testBit g = (!decide (f = g) && b.testBit g) := by
  have h256 : (256 : Nat) = 2 ^ 8 := by decide
  rw [h256, Nat.testBit_mod_two_pow, Nat.testBit_xor, Nat.testBit_and, Nat.one_shiftLeft,
    Nat.testBit_two_pow]
  simp only [hg, decide_True, Bool.true_and]
  cases b.testBit g <;> cases decide (f = g) <;> rfl

/-- C20: for an index in `[0, TIC_FLAGS)`, a flag in `[0, 8)` and a boolean `v`, after
`tic_api_fset (index, flag, v)` the call `tic_api_fget (index, flag)` returns `v`, and
`tic_api_fget` returns for every other in-range pair what it returned before. -/
theorem C20_flag_set_get (core : Core) (index : Int) (flag : Nat) (v : Bool)
    (hi : 0 ≤ index ∧ index < TIC_FLAGS) (hf : flag < 8) :
    tic_api_fget (tic_api_fset core index flag v) index flag = v ∧
    ∀ (index2 : Int) (flag2 : Nat), 0 ≤ index2 ∧ index2 < TIC_FLAGS → flag2 < 8 →
      ¬ (index2 = index ∧ flag2 = flag) →
      tic_api_fget (tic_api_fset core index flag v) index2 flag2 =
        tic_api_fget core index2 flag2 := by
  have hg : ∀ (i : Int) (f : Nat), i < TIC_FLAGS → f < 8 → getFlag i f = FlagCell.data i := by
    intro i f h1 h2
    unfold getFlag BITS_IN_BYTE
    rw [if_neg (by omega)]
  constructor
  · unfold tic_api_fget tic_api_fset
    rw [hg index flag hi.2 hf]
    cases v
    · simp only [FlagCell.read, FlagCell.write, if_true, Bool.false_eq_true, if_false]
      rw [decide_eq_false_iff_not, not_not]
      by_contra hne
      have := (and_shift_ne_zero_iff _ _).1 hne
      rw [testBit_clear_byte _ _ _ hf] at this
      simp at this
    · simp only [FlagCell.read, FlagCell.write, if_true]
      rw [decide_eq_true_iff, and_shift_ne_zero_iff, testBit_set_byte _ _ _ hf]
      simp
  · intro index2 flag2 hi2 hf2 hne
    unfold tic_api_fget tic_api_fset
    rw [hg index flag hi.2 hf, hg index2 flag2 hi2.2 hf2]
    have hiff : ∀ (a b : Nat), (a.testBit flag2 = b.testBit flag2) →
        decide (a &&& (1 <<< flag2) ≠ 0) = decide (b &&& (1 <<< flag2) ≠ 0) := by
      intro a b hab
      apply decide_eq_decide.2
      rw [and_shift_ne_zero_iff, and_shift_ne_zero_iff, hab]
    by_cases hidx : index2 = index
    · subst hidx
      have hfl : flag ≠ flag2 := fun e => hne ⟨rfl, e.symm⟩
      cases v
      · simp only [FlagCell.read, FlagCell.write, if_true, Bool.false_eq_true, if_false]
        apply hiff
        rw [testBit_clear_byte _ _ _ hf2]
        simp [hfl]
      · simp only [FlagCell.read, FlagCell.write, if_true]
        apply hiff
        rw [testBit_set_byte _ _ _ hf2]
        simp [hfl]
    · cases v <;> simp [FlagCell.read, FlagCell.write, hidx]

/-- C20 on a concrete call: setting flag 3 of tile 7 and reading it back. -/
theorem C20_flag_set_get_witness :
    tic_api_fget (tic_api_fset demoCore 7 3 true) 7 3 = true :=
  (C20_flag_set_get demoCore 7 3 true (by decide) (by decide)).1

/-! ## Text width -/

theorem trim_eq_specTrimmedWidth (font_char : Tile) (mapping : Nat → Nat) :
    trimEnd font_char mapping (trimStart font_char mapping 8 0) 8 TIC_SPRITESIZE
        - trimStart font_char mapping 8 0
      = specTrimmedWidth (glyphColumnUsed font_char mapping) := by
  have hr : List.range 8 = [0, 1, 2, 3, 4, 5, 6, 7] := by decide
  simp only [specTrimmedWidth, hr, trimStart, trimEnd, TIC_SPRITESIZE]
  have e1 : (0 : Int) + 1 = 1 := rfl
  have e2 : (1 : Int) + 1 = 2 := rfl
  have e3 : (2 : Int) + 1 = 3 := rfl
  have e4 : (3 : Int) + 1 = 4 := rfl
  have e5 : (4 : Int) + 1 = 5 := rfl
  have e6 : (5 : Int) + 1 = 6 := rfl
  have e7 : (6 : Int) + 1 = 7 := rfl
  have e8 : (7 : Int) + 1 = 8 := rfl
  have d1 : (8 : Int) - 1 = 7 := rfl
  have d2 : (7 : Int) - 1 = 6 := rfl
  have d3 : (6 : Int) - 1 = 5 := rfl
  have d4 : (5 : Int) - 1 = 4 := rfl
  have d5 : (4 : Int) - 1 = 3 := rfl
  have d6 : (3 : Int) - 1 = 2 := rfl
  have d7 : (2 : Int) - 1 = 1 := rfl
  have d8 : (1 : Int) - 1 = 0 := rfl
  simp only [e1, e2, e3, e4, e5, e6, e7, e8, d1, d2, d3, d4, d5, d6, d7, d8, Nat.cast_ofNat,
    Nat.cast_zero, Nat.cast_one, List.filter]
  generalize glyphColumnUsed font_char mapping 0 = b0
  generalize glyphColumnUsed font_char mapping 1 = b1
  generalize glyphColumnUsed font_char mapping 2 = b2
  generalize glyphColumnUsed font_char mapping 3 = b3
  generalize glyphColumnUsed font_char mapping 4 = b4
  generalize glyphColumnUsed font_char mapping 5 = b5
  generalize glyphColumnUsed font_char mapping 6 = b6
  generalize glyphColumnUsed font_char mapping 7 = b7
  revert b0 b1 b2 b3 b4 b5 b6 b7
  decide

theorem trimStart_bounds (font_char : Tile) (mapping : Nat → Nat) (n : Nat) (start : Int) :
    start ≤ trimStart font_char mapping n start ∧
      trimStart font_char mapping n start ≤ start + n := by
  induction n generalizing start with
  | zero => simp [trimStart]
  | succ n ih =>
    unfold trimStart
    split
    · constructor
      · exact le_refl _
      · push_cast; omega
    · have h := ih (start + 1)
      constructor
      · omega
      · push_cast; omega

theorem trimEnd_ge (font_char : Tile) (mapping : Nat → Nat) (start : Int) (n : Nat) (e : Int)
    (h : start ≤ e) : start ≤ trimEnd font_char mapping start n e := by
  induction n generalizing e with
  | zero => simpa [trimEnd] using h
  | succ n ih =>
    unfold trimEnd
    split
    · split
      · exact h
      · exact ih (e - 1) (by omega)
    · exact h

theorem specTrimmedWidth_nonneg (font_char : Tile) (mapping : Nat → Nat) :
    0 ≤ specTrimmedWidth (glyphColumnUsed font_char mapping) := by
  rw [← trim_eq_specTrimmedWidth]
  have h1 := trimStart_bounds font_char mapping 8 0
  have h2 := trimEnd_ge font_char mapping (trimStart font_char mapping 8 0) 8 TIC_SPRITESIZE
    (by simp only [TIC_SPRITESIZE]; push_cast at h1; omega)
  omega

theorem drawChar_width (core : Core) (font_char : Tile) (x y scale : Int) (fixed : Bool)
    (mapping : Nat → Nat) :
    (drawChar core font_char x y scale fixed mapping).1 =
      if fixed then TIC_SPRITESIZE else specTrimmedWidth (glyphColumnUsed font_char mapping) := by
  rw [← trim_eq_specTrimmedWidth]
  unfold drawChar
  cases fixed <;> simp only [] <;> split <;> simp

theorem drawChar_advance (core : Core) (font_face : Tilesheet) (x y width scale : Int)
    (fixed : Bool) (mapping : Nat → Nat) (alt : Bool) (sym : Int) :
    (if !fixed ∧ (drawChar core
          (font_face.gettile ((if alt then 1 else 0) * TIC_FONT_CHARS + sym) true)
          x y scale fixed mapping).1 ≠ 0
      then (drawChar core
          (font_face.gettile ((if alt then 1 else 0) * TIC_FONT_CHARS + sym) true)
          x y scale fixed mapping).1 + 1 else width) * scale
      = specGlyphAdvance font_face width scale fixed mapping alt sym := by
  rw [drawChar_width]
  unfold specGlyphAdvance
  cases fixed
  · by_cases h : specTrimmedWidth (glyphColumnUsed
        (font_face.gettile ((if alt then 1 else 0) * TIC_FONT_CHARS + sym) true) mapping) = 0
    · simp [h]
    · simp [h]
  · simp

theorem specGlyphAdvance_nonneg (font_face : Tilesheet) (width scale : Int) (fixed : Bool)
    (mapping : Nat → Nat) (alt : Bool) (sym : Int) (hw : 0 ≤ width) (hs : 0 ≤ scale) :
    0 ≤ specGlyphAdvance font_face width scale fixed mapping alt sym := by
  unfold specGlyphAdvance
  have h := specTrimmedWidth_nonneg
    (font_face.gettile ((if alt then 1 else 0) * TIC_FONT_CHARS + sym) true) mapping
  generalize font_face.gettile ((if alt then 1 else 0) * TIC_FONT_CHARS + sym) true = fc at h
  simp only []
  by_cases hc : fixed = true ∨ specTrimmedWidth (glyphColumnUsed fc mapping) = 0
  · rw [if_pos hc]; exact mul_nonneg hw hs
  · rw [if_neg hc]; exact mul_nonneg (by omega) hs

theorem specLineWidths_nil (adv : Int → Int) : specLineWidths adv [] = [0] := by
  simp [specLineWidths, List.splitOn]

theorem specLineWidths_newline (adv : Int → Int) (text : List Int) :
    specLineWidths adv (10 :: text) = 0 :: specLineWidths adv text := by
  simp [specLineWidths, List.splitOn, List.splitOnP_cons]

theorem specLineWidths_char (adv : Int → Int) (sym : Int) (text : List Int) (h : sym ≠ 10) :
    ∃ w ws, specLineWidths adv text = w :: ws ∧
      specLineWidths adv (sym :: text) = (adv sym + w) :: ws := by
  unfold specLineWidths List.splitOn
  rw [List.splitOnP_cons]
  have hne := List.splitOnP_ne_nil (fun x => x == (10 : Int)) text
  cases hsp : List.splitOnP (fun x => x == (10 : Int)) text with
  | nil => exact absurd hsp hne
  | cons l ls =>
    refine ⟨(l.map adv).sum, ls.map (fun line => (line.map adv).sum), by simp, ?_⟩
    simp [h, List.modifyHead]

theorem foldr_max_base (l : List Int) (a b : Int) :
    l.foldr max (max a b) = max b (l.foldr max a) := by
  induction l with
  | nil => simp [max_comm]
  | cons c l ih => simp only [List.foldr_cons, ih]; exact max_left_comm _ _ _

theorem foldr_max_shift (l : List Int) (x a : Int) :
    (l.map (fun w => x + w)).foldr max (x + a) = x + l.foldr max a := by
  induction l with
  | nil => simp
  | cons c l ih => simp only [List.map_cons, List.foldr_cons, ih]; omega

theorem drawTextLoop_max (font_face : Tilesheet) (x width height : Int) (fixed : Bool)
    (mapping : Nat → Nat) (scale : Int) (alt : Bool) (text : List Int) :
    ∀ (pos MAX y : Int) (core : Core),
      ∃ w ws, specLineWidths (specGlyphAdvance font_face width scale fixed mapping alt) text
          = w :: ws ∧
        max (drawTextLoop font_face x width height fixed mapping scale alt text pos MAX y core).1
            (drawTextLoop font_face x width height fixed mapping scale alt text pos MAX y
              core).2.1
          = (ws.map (fun v => x + v)).foldr max (max MAX (pos + w)) := by
  induction text with
  | nil =>
    intro pos MAX y core
    refine ⟨0, [], specLineWidths_nil _, ?_⟩
    simp [drawTextLoop, max_comm]
  | cons sym text ih =>
    intro pos MAX y core
    by_cases hs : sym = 10
    · subst hs
      obtain ⟨w, ws, hw, hm⟩ := ih x (if pos > MAX then pos else MAX) (y + height * scale) core
      refine ⟨0, w :: ws, by rw [specLineWidths_newline, hw], ?_⟩
      simp only [drawTextLoop, if_true]
      rw [hm]
      simp only [List.map_cons, List.foldr_cons, add_zero]
      rw [foldr_max_base]
      congr 2
      split <;> omega
    · obtain ⟨w, ws, hw, hsym⟩ := specLineWidths_char
        (specGlyphAdvance font_face width scale fixed mapping alt) sym text hs
      simp only [drawTextLoop, if_neg hs]
      rw [drawChar_advance]
      obtain ⟨w2, ws2, hw2, hm⟩ := ih
        (pos + specGlyphAdvance font_face width scale fixed mapping alt sym) MAX y
        (drawChar core (font_face.gettile ((if alt then 1 else 0) * TIC_FONT_CHARS + sym) true)
          pos y scale fixed mapping).2
      rw [hw] at hw2
      obtain ⟨rfl, rfl⟩ := List.cons.inj hw2
      refine ⟨_, _, hsym, ?_⟩
      rw [hm, add_assoc]

theorem specLineWidths_head_nonneg (adv : Int → Int) (hadv : ∀ s, 0 ≤ adv s) (text : List Int) :
    ∃ w ws, specLineWidths adv text = w :: ws ∧ 0 ≤ w := by
  induction text with
  | nil => exact ⟨0, [], specLineWidths_nil adv, le_refl _⟩
  | cons sym text ih =>
    by_cases hs : sym = 10
    · subst hs
      exact ⟨0, _, specLineWidths_newline adv text, le_refl _⟩
    · obtain ⟨w, ws, hw, hsym⟩ := specLineWidths_char adv sym text hs
      obtain ⟨w2, ws2, hw2, hpos⟩ := ih
      rw [hw] at hw2
      obtain ⟨rfl, rfl⟩ := List.cons.inj hw2
      exact ⟨_, _, hsym, add_nonneg (hadv sym) hpos⟩

theorem drawText_width (core : Core) (font_face : Tilesheet) (text : List Int)
    (x y width height : Int) (fixed : Bool) (mapping : Nat → Nat) (scale : Int) (alt : Bool)
    (hw : 0 ≤ width) (hs : 0 ≤ scale) :
    (drawText core font_face text x y width height fixed mapping scale alt).1 =
      specWidest (specLineWidths (specGlyphAdvance font_face width scale fixed mapping alt)
        text) := by
  obtain ⟨w, ws, hsp, hm⟩ := drawTextLoop_max font_face x width height fixed mapping scale alt
    text x x y core
  obtain ⟨w2, ws2, hsp2, hpos⟩ := specLineWidths_head_nonneg
    (specGlyphAdvance font_face width scale fixed mapping alt)
    (fun s => specGlyphAdvance_nonneg font_face width scale fixed mapping alt s hw hs) text
  rw [hsp] at hsp2
  obtain ⟨rfl, rfl⟩ := List.cons.inj hsp2
  rw [hsp]
  have h1 : max x (x + w) = x + w := max_eq_right (by omega)
  rw [h1, foldr_max_shift] at hm
  simp only [specWidest]
  unfold drawText
  simp only []
  split <;> omega

theorem tic_api_print_width (core : Core) (text : List Int) (x y : Int) (color : Nat)
    (fixed : Bool) (scale : Int) (alt : Bool)
    (hw : 0 ≤ (if alt then core.font_alt else core.font_regular).width
      - (if fixed then 0 else 2))
    (hs : 0 ≤ scale) :
    (tic_api_print core text x y color fixed scale alt).1 =
      specWidest (specLineWidths (specGlyphAdvance (getTileSheetFromSegment core 1)
        ((if alt then core.font_alt else core.font_regular).width - (if fixed then 0 else 2))
        scale fixed (fun i => if i = 0 then 255 else color) alt) text) := by
  unfold tic_api_print
  simp only []
  cases fixed
  · exact drawText_width _ _ _ _ _ _ _ _ _ _ _ (by simpa using hw) hs
  · simp only [Bool.not_true, Bool.false_eq_true, if_false, if_true, sub_zero] at hw ⊢
    exact drawText_width _ _ _ _ _ _ _ _ _ _ _ hw hs

theorem log2Fuel_spec : ∀ (fuel n : Nat), n ≤ fuel → 0 < n →
    2 ^ log2Fuel fuel n ≤ n ∧ n < 2 ^ (log2Fuel fuel n + 1) := by
  intro fuel
  induction fuel with
  | zero => intro n h1 h2; omega
  | succ fuel ih =>
    intro n h1 h2
    unfold log2Fuel
    by_cases h : n < 2
    · rw [if_pos h]
      simp
      omega
    · rw [if_neg h]
      have hh := ih (n / 2) (by omega) (by omega)
      rw [pow_succ, pow_succ]
      rw [pow_succ] at hh
      omega

theorem ilog2_spec (n : Nat) (h : 0 < n) : 2 ^ ilog2 n ≤ n ∧ n < 2 ^ (ilog2 n + 1) :=
  log2Fuel_spec n n (le_refl n) h

theorem pow2_pos (k : Int) : 0 < pow2 k := by
  unfold pow2
  positivity

theorem binade_spec (a : ℚ) (ha : 0 < a) : pow2 (binade a) ≤ a ∧ a < pow2 (binade a + 1) := by
  have hnum : 0 < a.num := Rat.num_pos.mpr ha
  have hn0 : 0 < a.num.natAbs := Int.natAbs_pos.mpr (ne_of_gt hnum)
  have hd0 : 0 < a.den := a.den_pos
  obtain ⟨hn1, hn2⟩ := ilog2_spec a.num.natAbs hn0
  obtain ⟨hd1, hd2⟩ := ilog2_spec a.den hd0
  have hnq : (a.num.natAbs : ℚ) = (a.num : ℚ) := by
    rw [← Int.cast_natCast, Int.natAbs_of_nonneg (le_of_lt hnum)]
  have haq : (a.num.natAbs : ℚ) / (a.den : ℚ) = a := by
    rw [hnq]
    exact Rat.num_div_den a
  have hN1 : (2 : ℚ) ^ ilog2 a.num.natAbs ≤ (a.num.natAbs : ℚ) := by exact_mod_cast hn1
  have hN2 : (a.num.natAbs : ℚ) < (2 : ℚ) ^ (ilog2 a.num.natAbs + 1) := by exact_mod_cast hn2
  have hD1 : (2 : ℚ) ^ ilog2 a.den ≤ (a.den : ℚ) := by exact_mod_cast hd1
  have hD2 : (a.den : ℚ) < (2 : ℚ) ^ (ilog2 a.den + 1) := by exact_mod_cast hd2
  have hdq : (0 : ℚ) < (a.den : ℚ) := by exact_mod_cast hd0
  have hlow : pow2 ((ilog2 a.num.natAbs : Int) - (ilog2 a.den : Int) - 1) ≤ a := by
    unfold pow2
    have e : (2 : ℚ) ^ ((ilog2 a.num.natAbs : Int) - (ilog2 a.den : Int) - 1) =
        (2 : ℚ) ^ ilog2 a.num.natAbs / (2 : ℚ) ^ (ilog2 a.den + 1) := by
      rw [show ((ilog2 a.num.natAbs : Int) - (ilog2 a.den : Int) - 1) =
        (ilog2 a.num.natAbs : Int) - ((ilog2 a.den + 1 : Nat) : Int) by push_cast; ring]
      rw [zpow_sub₀ (by norm_num), zpow_natCast, zpow_natCast]
    have key : (2 : ℚ) ^ ilog2 a.num.natAbs / (2 : ℚ) ^ (ilog2 a.den + 1) ≤
        (a.num.natAbs : ℚ) / (a.den : ℚ) :=
      div_le_div₀ (by positivity) hN1 hdq (le_of_lt hD2)
    rw [haq] at key
    rw [e]
    exact key
  have hup : a < pow2 ((ilog2 a.num.natAbs : Int) - (ilog2 a.den : Int) + 1) := by
    unfold pow2
    have e : (2 : ℚ) ^ ((ilog2 a.num.natAbs : Int) - (ilog2 a.den : Int) + 1) =
        (2 : ℚ) ^ (ilog2 a.num.natAbs + 1) / (2 : ℚ) ^ ilog2 a.den := by
      rw [show ((ilog2 a.num.natAbs : Int) - (ilog2 a.den : Int) + 1) =
        ((ilog2 a.num.natAbs + 1 : Nat) : Int) - (ilog2 a.den : Int) by push_cast; ring]
      rw [zpow_sub₀ (by norm_num), zpow_natCast, zpow_natCast]
    have key : (a.num.natAbs : ℚ) / (a.den : ℚ) <
        (2 : ℚ) ^ (ilog2 a.num.natAbs + 1) / (2 : ℚ) ^ ilog2 a.den :=
      div_lt_div₀ hN2 hD1 (by positivity) (by positivity)
    rw [haq] at key
    rw [e]
    exact key
  unfold binade
  simp only
  split
  · rename_i h
    refine ⟨hlow, ?_⟩
    rw [sub_add_cancel]
    exact h
  · rename_i h
    exact ⟨not_lt.mp h, hup⟩

theorem roundHalfEven_spec (m : ℚ) : |((roundHalfEven m : Int) : ℚ) - m| ≤ 1 / 2 := by
  have h1 := Int.floor_le m
  have h2 := Int.lt_floor_add_one m
  unfold roundHalfEven
  simp only
  rw [abs_le]
  split
  · constructor <;> linarith
  · split
    · push_cast
      constructor <;> linarith
    · split
      · constructor <;> linarith
      · push_cast
        constructor <;> linarith

theorem roundHalfEven_le (m : ℚ) (n : Int) (h : m ≤ n) : roundHalfEven m ≤ n := by
  have h1 := Int.floor_le m
  have hf : Int.floor m ≤ n := by
    have := Int.floor_mono h
    rwa [Int.floor_intCast] at this
  unfold roundHalfEven
  simp only
  by_cases hfn : Int.floor m = n
  · have hm : m = n := le_antisymm h (by rw [← hfn]; exact h1)
    have hr : m - (Int.floor m : ℚ) = 0 := by rw [hfn, hm]; ring
    rw [hr, if_pos (by norm_num)]
    exact hf
  · have hlt : Int.floor m + 1 ≤ n := by omega
    split
    · omega
    · split
      · omega
      · split <;> omega

theorem roundHalfEven_nonneg (m : ℚ) (h : 0 ≤ m) : 0 ≤ roundHalfEven m := by
  have hf : 0 ≤ Int.floor m := Int.floor_nonneg.mpr h
  unfold roundHalfEven
  simp only
  split
  · exact hf
  · split
    · omega
    · split <;> omega

/-- The rounding is to a multiple of the quantum of the binade of `q` with a significand of at
most `p` bits, at most half a quantum away from `q`. -/
theorem roundBinary_spec (p : Nat) (emin : Int) (q : ℚ) (hq : q ≠ 0) :
    ∃ m : Int, roundBinary p emin q = m * pow2 (max (binade |q| - ((p : Int) - 1)) emin) ∧
      |m| ≤ 2 ^ p ∧
      |roundBinary p emin q - q| ≤ pow2 (max (binade |q| - ((p : Int) - 1)) emin) / 2 := by
  have ha : 0 < |q| := abs_pos.mpr hq
  obtain ⟨hb1, hb2⟩ := binade_spec |q| ha
  generalize hk : max (binade |q| - ((p : Int) - 1)) emin = k
  have hkpos := pow2_pos k
  have hkge : binade |q| - ((p : Int) - 1) ≤ k := by rw [← hk]; exact le_max_left _ _
  have hr := roundHalfEven_spec (|q| / pow2 k)
  have hnn := roundHalfEven_nonneg (|q| / pow2 k) (by positivity)
  have hle : roundHalfEven (|q| / pow2 k) ≤ ((2 ^ p : Nat) : Int) := by
    apply roundHalfEven_le
    rw [div_le_iff₀ hkpos]
    have e : pow2 (binade |q| + 1) ≤ ((2 ^ p : Nat) : Int) * pow2 k := by
      unfold pow2
      push_cast
      rw [← zpow_natCast, ← zpow_add₀ (by norm_num)]
      exact zpow_le_zpow_right₀ (by norm_num) (by omega)
    exact le_of_lt (lt_of_lt_of_le hb2 e)
  have hval : roundBinary p emin q =
      ((if q < 0 then -1 else 1) * roundHalfEven (|q| / pow2 k) : Int) * pow2 k := by
    unfold roundBinary
    rw [if_neg hq]
    simp only [hk]
    split <;> push_cast <;> ring
  refine ⟨(if q < 0 then -1 else 1) * roundHalfEven (|q| / pow2 k), hval, ?_, ?_⟩
  · push_cast at hle
    split
    · rw [abs_mul]
      simp only [abs_neg, abs_one, one_mul]
      rw [abs_of_nonneg hnn]
      exact hle
    · rw [one_mul, abs_of_nonneg hnn]
      exact hle
  · rw [hval]
    have herr : abs ((roundHalfEven (|q| / pow2 k) : ℚ) * pow2 k - abs q) ≤ pow2 k / 2 := by
      have : (roundHalfEven (|q| / pow2 k) : ℚ) * pow2 k - |q| =
          ((roundHalfEven (|q| / pow2 k) : ℚ) - |q| / pow2 k) * pow2 k := by
        field_simp
      rw [this, abs_mul, abs_of_pos hkpos]
      calc abs ((roundHalfEven (|q| / pow2 k) : ℚ) - abs q / pow2 k) * pow2 k
          ≤ 1 / 2 * pow2 k := mul_le_mul_of_nonneg_right hr (le_of_lt hkpos)
        _ = pow2 k / 2 := by ring
    rcases lt_or_gt_of_ne hq with hlt | hgt
    · rw [if_pos hlt]
      have habs : |q| = -q := abs_of_neg hlt
      rw [habs] at herr
      have : ((-1 * roundHalfEven (|q| / pow2 k) : Int) : ℚ) * pow2 k - q =
          -((roundHalfEven (|q| / pow2 k) : ℚ) * pow2 k - -q) := by
        push_cast; ring
      rw [this, abs_neg]
      rw [habs]
      exact herr
    · rw [if_neg (not_lt.mpr (le_of_lt hgt))]
      have habs : |q| = q := abs_of_pos hgt
      rw [habs] at herr
      rw [habs]
      simpa using herr

/-! ## Triangles -/

theorem roundBinary_neg (p : Nat) (emin : Int) (q : ℚ) :
    roundBinary p emin (-q) = -roundBinary p emin q := by
  unfold roundBinary
  by_cases h0 : q = 0
  · subst h0
    simp
  · have hn : -q ≠ 0 := neg_ne_zero.mpr h0
    rw [if_neg hn, if_neg h0, abs_neg]
    rcases lt_or_gt_of_ne h0 with hlt | hgt
    · have h1 : ¬ (-q < 0) := by linarith
      rw [if_neg h1, if_pos hlt]
      ring
    · have h1 : -q < 0 := by linarith
      have h2 : ¬ (q < 0) := by linarith
      rw [if_pos h1, if_neg h2]
      ring

theorem dsub_swap (a b : ℚ) : dsub b a = -dsub a b := by
  unfold dsub roundDouble
  rw [← roundBinary_neg]
  congr 1
  ring

theorem dmul_comm (a b : ℚ) : dmul a b = dmul b a := by
  unfold dmul
  rw [mul_comm]

theorem truncS32_zero : truncS32 ((Int.floor (0 : ℚ) : Int) : ℚ) = 0 := by
  decide!

theorem drawTri_zero_area {V : Type} (pos : V → Vec2) (core : Core) (v0 v1 v2 : V)
    (shader : ShaderAttr V → Nat) (h : edgeFn (pos v0) (pos v1) (pos v2) = 0) :
    drawTri pos core v0 v1 v2 shader = core := by
  unfold drawTri
  simp only [h, truncS32_zero, if_true, ite_self]

theorem tic_api_tri_winding_a : tic_api_tri demoCore 0 0 (3 / 4) 0 (1 / 2) 1 12 = demoCore := by
  have h : truncS32 (Int.floor
      (edgeFn (id (⟨0, 0⟩ : Vec2)) (id ⟨3 / 4, 0⟩) (id ⟨1 / 2, 1⟩)) : Int) = 0 := by
    decide!
  unfold tic_api_tri drawTri
  simp only [h, if_true, ite_self]

theorem tic_api_tri_winding_b :
    getPixel (tic_api_tri demoCore 0 0 (1 / 2) 1 (3 / 4) 0 12) 0 0 = 12 := by
  decide!

theorem edgeFn_swap (a b c : Vec2) : edgeFn a c b = -edgeFn a b c := by
  unfold edgeFn
  rw [dsub_swap, dmul_comm (dsub c.x a.x), dmul_comm (dsub c.y a.y)]

theorem MIN3_swap (a b c : ℚ) : MIN3 a c b = MIN3 a b c := by
  unfold MIN3; exact min_right_comm a c b

theorem MAX3_swap (a b c : ℚ) : MAX3 a c b = MAX3 a b c := by
  unfold MAX3; rw [max_assoc, max_comm c b, ← max_assoc]

theorem drawTri_winding {V : Type} (pos : V → Vec2) (core : Core) (v0 v1 v2 : V)
    (shader : ShaderAttr V → Nat)
    (h1 : truncS32 (Int.floor (edgeFn (pos v0) (pos v1) (pos v2)) : Int) ≠ 0)
    (h2 : truncS32 (Int.floor (edgeFn (pos v0) (pos v2) (pos v1)) : Int) ≠ 0) :
    drawTri pos core v0 v1 v2 shader = drawTri pos core v0 v2 v1 shader := by
  have h2n : truncS32 (Int.floor (-edgeFn (pos v0) (pos v1) (pos v2)) : Int) ≠ 0 := by
    rw [← edgeFn_swap]; exact h2
  have hne : edgeFn (pos v0) (pos v1) (pos v2) ≠ 0 := by
    intro h
    rw [h] at h1
    exact h1 truncS32_zero
  unfold drawTri
  simp only [MIN3_swap _ (pos v2).x (pos v1).x, MIN3_swap _ (pos v2).y (pos v1).y,
    MAX3_swap _ (pos v2).x (pos v1).x, MAX3_swap _ (pos v2).y (pos v1).y,
    edgeFn_swap (pos v0) (pos v1) (pos v2), if_neg h1, if_neg h2n]
  rcases lt_or_gt_of_ne hne with hlt | hgt
  · have hnn : ¬ (-edgeFn (pos v0) (pos v1) (pos v2) < 0) := by
      rw [neg_lt_zero]; exact not_lt.mpr (le_of_lt hlt)
    simp only [if_pos hlt, if_neg hnn]
  · have hnn : ¬ (edgeFn (pos v0) (pos v1) (pos v2) < 0) := not_lt.mpr (le_of_lt hgt)
    have hn : -edgeFn (pos v0) (pos v1) (pos v2) < 0 := by rw [neg_lt_zero]; exact hgt
    simp only [if_neg hnn, if_pos hn, neg_neg]

/-- The rounding of the incremental weights is part of the embedding: for the triangle
`(0, 0)`, `(5, 5)`, `(5, 0)` the pixels `(0, 0)`, `(1, 1)` and `(2, 2)` on the diagonal edge are
written, and `(3, 3)` and `(4, 4)` are not, because the accumulated weight falls just below
zero there. -/
theorem drawTri_diagonal_rounding :
    getPixel (tic_api_tri demoCore 0 0 5 5 5 0 12) 0 0 = 12 ∧
      getPixel (tic_api_tri demoCore 0 0 5 5 5 0 12) 1 1 = 12 ∧
      getPixel (tic_api_tri demoCore 0 0 5 5 5 0 12) 2 2 = 12 ∧
      getPixel (tic_api_tri demoCore 0 0 5 5 5 0 12) 3 3 = 0 ∧
      getPixel (tic_api_tri demoCore 0 0 5 5 5 0 12) 4 4 = 0 ∧
      getPixel (tic_api_tri demoCore 0 0 5 5 5 0 12) 4 3 = 12 := by
  refine ⟨by decide!, by decide!, by decide!, by decide!, by decide!, by decide!⟩

/-- C17, as stated, fails: the vertices `(3 / 2^25, 5 / 2^25)`, `(3 * 2^26, 5 * 2^26)` and
`(-3 * 2^23, -5 * 2^23)` are finite `float` values and lie on the line `3 y = 5 x` (their
signed area is exactly zero), yet the edge function `drawTri` computes for them in `double`
arithmetic is `1`, and with the clip rectangle `(1, 2, 2, 3)` the call writes the pixel
`(1, 2)`. -/
theorem C17_collinear_vertices_drawn :
    (isFloat (3 / 33554432) ∧ isFloat (5 / 33554432) ∧ isFloat 201326592 ∧
        isFloat 335544320 ∧ isFloat (-25165824) ∧ isFloat (-41943040)) ∧
      ((201326592 : ℚ) - 3 / 33554432) * ((-41943040 : ℚ) - 5 / 33554432) -
        ((335544320 : ℚ) - 5 / 33554432) * ((-25165824 : ℚ) - 3 / 33554432) = 0 ∧
      edgeFn ⟨3 / 33554432, 5 / 33554432⟩ ⟨201326592, 335544320⟩ ⟨-25165824, -41943040⟩ = 1 ∧
      getPixel (tic_api_clip demoCore 1 2 1 1) 1 2 = 0 ∧
      getPixel (tic_api_tri (tic_api_clip demoCore 1 2 1 1) (3 / 33554432) (5 / 33554432)
        201326592 335544320 (-25165824) (-41943040) 12) 1 2 = 12 := by
  refine ⟨by decide!, by decide!, by decide!, by decide!, by decide!⟩

/-- C17, amended: three vertices whose edge function, as `edgeFn` computes it in `double`
arithmetic, is exactly zero make `drawTri` leave the state as it is, whatever the shader and
the clip rectangle: no pixel is written.  The same holds of `tic_api_tri` for every colour
and of `tic_api_textri` for every texture source, texture coordinates and list of
transparent colours. -/
theorem C17_zero_edge_function_writes_nothing {V : Type} (pos : V → Vec2) (v0 v1 v2 : V)
    (h : edgeFn (pos v0) (pos v1) (pos v2) = 0) :
    (∀ (core : Core) (shader : ShaderAttr V → Nat), drawTri pos core v0 v1 v2 shader = core) ∧
      (∀ (core : Core) (color : Nat),
        tic_api_tri core (pos v0).x (pos v0).y (pos v1).x (pos v1).y (pos v2).x (pos v2).y
          color = core) ∧
      (∀ (core : Core) (tu1 tv1 tu2 tv2 tu3 tv3 : ℚ) (texsrc : tic_texture_src)
          (colors : List Nat),
        tic_api_textri core (pos v0).x (pos v0).y (pos v1).x (pos v1).y (pos v2).x (pos v2).y
          tu1 tv1 tu2 tv2 tu3 tv3 texsrc colors = core) := by
  refine ⟨fun core shader => drawTri_zero_area pos core v0 v1 v2 shader h, ?_, ?_⟩
  · intro core color
    exact drawTri_zero_area id core _ _ _ _ h
  · intro core tu1 tv1 tu2 tv2 tu3 tv3 texsrc colors
    exact drawTri_zero_area TexVert.pos core _ _ _ _ h

/-- C17 on a concrete triangle: for the vertices `(1, 2)`, `(3, 5)`, `(5, 8)` the computed
edge function is zero, and filling them in colour `7` leaves the black screen as it is. -/
theorem C17_zero_edge_function_writes_nothing_witness :
    edgeFn (id (⟨1, 2⟩ : Vec2)) (id ⟨3, 5⟩) (id ⟨5, 8⟩) = 0 ∧
      tic_api_tri demoCore 1 2 3 5 5 8 7 = demoCore :=
  ⟨by decide!,
    (C17_zero_edge_function_writes_nothing id (⟨1, 2⟩ : Vec2) ⟨3, 5⟩ ⟨5, 8⟩
      (by decide!)).2.1 demoCore 7⟩

/-- C18: the fill depends on the winding.  The triangle `(0, 0)`, `(3/4, 0)`, `(1/2, 1)` has
signed area `3/4`, whose floor is `0`, and `tic_api_tri` returns before the swap without
writing; with the last two vertices exchanged the signed area is `-3/4`, whose floor is `-1`,
the vertices are swapped and the pixel `(0, 0)` is written. -/
theorem C18_winding_changes_fill :
    tic_api_tri demoCore 0 0 (3 / 4) 0 (1 / 2) 1 12 = demoCore ∧
      getPixel demoCore 0 0 = 0 ∧
      getPixel (tic_api_tri demoCore 0 0 (1 / 2) 1 (3 / 4) 0 12) 0 0 = 12 :=
  ⟨tic_api_tri_winding_a, by decide, tic_api_tri_winding_b⟩

/-! ## Out-of-range flags -/

theorem tic_api_fset_above_range (core : Core) (index : Int) (flag : Nat) (value : Bool)
    (h : index ≥ TIC_FLAGS ∨ flag ≥ BITS_IN_BYTE) :
    (tic_api_fset core index flag value).flags = core.flags := by
  unfold tic_api_fset getFlag
  rw [if_pos h]
  cases value <;> rfl

theorem tic_api_fget_high_flag (core : Core) (index : Int) (flag : Nat)
    (hf : flag ≥ BITS_IN_BYTE) (hs : core.flag_stub < 256) :
    tic_api_fget core index flag = false := by
  unfold tic_api_fget getFlag
  rw [if_pos (Or.inr hf)]
  unfold BITS_IN_BYTE at hf
  have hlt : core.flag_stub < 2 ^ flag :=
    lt_of_lt_of_le hs (by
      have : (2 : Nat) ^ 8 ≤ 2 ^ flag := Nat.pow_le_pow_right (by decide) hf
      simpa using this)
  have hb : core.flag_stub.testBit flag = false := Nat.testBit_lt_two_pow hlt
  have hz : ¬ (core.flag_stub &&& (1 <<< flag) ≠ 0) := by
    rw [and_shift_ne_zero_iff, hb]
    simp
  simp only [FlagCell.read]
  exact decide_eq_false hz

/-- C21: writes through an out-of-range index are observable.  On a state whose flag bytes
and fallback cell are all `0`: `tic_api_fget (600, 3)` is `false`, but after
`tic_api_fset (600, 3, true)` the call `tic_api_fget (700, 3)` is `true`, because both go
through the static fallback cell, which keeps the bit; and `tic_api_fset (-1, 0, true)` passes
the bounds check of `getFlag`, stores `1` into the byte before the flag table, and
`tic_api_fget (-1, 0)` then returns `true`. -/
theorem C21_out_of_range_flag_observable :
    tic_api_fget demoCore 600 3 = false ∧
      tic_api_fget (tic_api_fset demoCore 600 3 true) 700 3 = true ∧
      getFlag (-1) 0 = FlagCell.data (-1) ∧
      demoCore.flags (-1) = 0 ∧
      (tic_api_fset demoCore (-1) 0 true).flags (-1) = 1 ∧
      tic_api_fget (tic_api_fset demoCore (-1) 0 true) (-1) 0 = true := by
  refine ⟨by decide, by decide, ?_, by decide, by decide, by decide⟩
  unfold getFlag
  rw [if_neg (by decide)]

/-! ## Bounds of the clip rectangle -/

/-- The sums of `tic_api_clip` wrap: `x = 100` and `width = 2147483647` give
`clip.r = -2147483549`. -/
theorem tic_api_clip_sum_wraps :
    (tic_api_clip demoCore 100 0 2147483647 10).clip.r = -2147483549 := by
  decide

/-- C22, as stated, fails: `tic_api_clip (300, 200, 10, 10)` sets `clip.l = 300` and
`clip.t = 200`, beyond the framebuffer, and `tic_api_clip (-20, -20, 10, 10)` sets
`clip.r = -10` and `clip.b = -10`, below zero. -/
theorem C22_clip_bounds_beyond_screen :
    240 < (tic_api_clip demoCore 300 200 10 10).clip.l ∧
      136 < (tic_api_clip demoCore 300 200 10 10).clip.t ∧
      (tic_api_clip demoCore (-20) (-20) 10 10).clip.r < 0 ∧
      (tic_api_clip demoCore (-20) (-20) 10 10).clip.b < 0 := by
  decide

/-- C22, amended: after `tic_api_clip`, for all integer arguments, the left and top bounds
are clamped from below and the right and bottom bounds from above, `0 <= clip.l`,
`0 <= clip.t`, `clip.r <= 240` and `clip.b <= 136`; and whenever the rectangle holds a pixel,
the other four bounds of the claim hold as well. -/
theorem C22_clip_clamped_one_sided (s : Core) (x y width height : Int) :
    0 ≤ (tic_api_clip s x y width height).clip.l ∧
      0 ≤ (tic_api_clip s x y width height).clip.t ∧
      (tic_api_clip s x y width height).clip.r ≤ 240 ∧
      (tic_api_clip s x y width height).clip.b ≤ 136 ∧
      ∀ px py, inClip (tic_api_clip s x y width height).clip px py →
        (tic_api_clip s x y width height).clip.l ≤ 240 ∧
        0 ≤ (tic_api_clip s x y width height).clip.r ∧
        (tic_api_clip s x y width height).clip.t ≤ 136 ∧
        0 ≤ (tic_api_clip s x y width height).clip.b := by
  have hc := tic_api_clip_inScreen s x y width height
  unfold ClipRect.inScreen TIC80_WIDTH TIC80_HEIGHT at hc
  refine ⟨hc.1, hc.2.2.1, hc.2.1, hc.2.2.2, ?_⟩
  intro px py hin
  unfold inClip at hin
  omega

/-- C22 on a concrete call: `tic_api_clip (-10, 20, 100, 200)` gives the rectangle
`(0, 20, 90, 136)`, which holds the pixel `(5, 30)`. -/
theorem C22_clip_clamped_one_sided_witness :
    inClip (tic_api_clip demoCore (-10) 20 100 200).clip 5 30 ∧
      (tic_api_clip demoCore (-10) 20 100 200).clip.l ≤ 240 ∧
      0 ≤ (tic_api_clip demoCore (-10) 20 100 200).clip.r ∧
      (tic_api_clip demoCore (-10) 20 100 200).clip.t ≤ 136 ∧
      0 ≤ (tic_api_clip demoCore (-10) 20 100 200).clip.b :=
  ⟨by decide,
    (C22_clip_clamped_one_sided demoCore (-10) 20 100 200).2.2.2.2 5 30 (by decide)⟩

/-! ## Border rectangles of non-positive size -/

/-- C23: a border rectangle of width `0` is drawn.  On a black screen with the full-screen
clip, `tic_api_rectb (10, 10, 0, 5, 3)` writes the columns `x = 10` and `x + width - 1 = 9`
over the rows `10 .. 14`, and `tic_api_rectb (10, 10, 5, 0, 3)` writes the rows `y = 10` and
`y + height - 1 = 9` over the columns `10 .. 14`. -/
theorem C23_rectb_zero_size_draws :
    getPixel demoCore 10 10 = 0 ∧
      getPixel (tic_api_rectb demoCore 10 10 0 5 3) 10 10 = 3 ∧
      getPixel (tic_api_rectb demoCore 10 10 0 5 3) 9 14 = 3 ∧
      getPixel (tic_api_rectb demoCore 10 10 5 0 3) 14 10 = 3 ∧
      getPixel (tic_api_rectb demoCore 10 10 5 0 3) 10 9 = 3 := by
  refine ⟨by decide, by decide, by decide, by decide, by decide⟩

/-! ## Keys of the palette table beyond its sixteen entries -/

/-- C24: a key is not masked.  For the transparency list `[17]`, entry `1` (the masked
key) of the table `getPalette` returns is the mapped colour `1`, not the sentinel `255`; the
sentinel is stored at index `17`, past the sixteen entries of the table. -/
theorem C24_palette_key_not_masked :
    17 % 16 = 1 ∧
      getPalette demoCore [17] 1 = 1 ∧
      getPalette demoCore [17] 17 = TRANSPARENT_COLOR ∧
      (∀ i, i < TIC_PALETTE_SIZE → getPalette demoCore [17] i = getPalette demoCore [] i) := by
  refine ⟨by decide, by decide, by decide, ?_⟩
  intro i hi
  unfold TIC_PALETTE_SIZE at hi
  rw [getPalette_apply, getPalette_apply]
  have h1 : i ∉ [17] := by simp; omega
  rw [if_neg h1, if_neg (List.not_mem_nil i)]

/-! ## The fast path and the generic path of `drawTile` -/

theorem drawTile_eq_scaled (core : Core) (tile : Tile) (x y : Int) (colors : List Nat)
    (scale flip rotate : Int) (hs : scale ≠ 1) :
    drawTile core tile x y colors scale flip rotate =
      drawTileScaled core tile x y colors scale flip rotate := by
  unfold drawTile drawTileScaled
  simp only [if_neg hs]

theorem demoCoreClipped_early_clip :
    EARLY_CLIP demoCoreClipped 0 0 (1 * (TIC_SPRITESIZE * 1)) (2 * (TIC_SPRITESIZE * 1)) := by
  decide

theorem drawSprite_rotated_block_skipped :
    drawSprite demoCoreClipped 0 0 0 1 2 [] 1 0 1 = demoCoreClipped := by
  unfold drawSprite
  rw [if_neg (by decide)]
  simp only
  rw [if_neg (by decide), if_pos demoCoreClipped_early_clip]

/-- For a block that is not rotated by a quarter turn, the early return of `drawSprite` is
sound: when `EARLY_CLIP` holds for the block, the blit of the tile of iteration `(i, j)` at
`(x + i * step, y + j * step)` writes nothing. -/
theorem early_clip_tile_unrotated (core : Core) (tile : Tile) (x y w h i j : Int)
    (colors : List Nat) (scale flip rotate : Int) (hi : 0 ≤ i ∧ i < w) (hj : 0 ≤ j ∧ j < h)
    (hec : EARLY_CLIP core x y (w * (TIC_SPRITESIZE * scale)) (h * (TIC_SPRITESIZE * scale))) :
    drawTile core tile (x + i * (TIC_SPRITESIZE * scale)) (y + j * (TIC_SPRITESIZE * scale))
      colors scale flip rotate = core := by
  refine paintsPx_empty (drawTile_paints core tile _ _ colors scale flip rotate) ?_
  rintro qx qy v ⟨px, py, h1, h2, h3, h4, h5, h6, h7, h8, ⟨c1, c2, c3, c4⟩, -, -⟩
  unfold TIC_SPRITESIZE at hec h5 h6 h7 h8
  have hpos : 0 < scale := by omega
  have e1 : px * scale + scale ≤ 8 * scale := by nlinarith
  have e2 : py * scale + scale ≤ 8 * scale := by nlinarith
  have e3 : 0 ≤ px * scale := by positivity
  have e4 : 0 ≤ py * scale := by positivity
  have f1 : i * (8 * scale) + 8 * scale ≤ w * (8 * scale) := by
    nlinarith [mul_nonneg (by omega : (0 : Int) ≤ w - i - 1) hpos.le]
  have f2 : j * (8 * scale) + 8 * scale ≤ h * (8 * scale) := by
    nlinarith [mul_nonneg (by omega : (0 : Int) ≤ h - j - 1) hpos.le]
  have f3 : 0 ≤ i * (8 * scale) := by
    have := mul_nonneg hi.1 (by omega : (0 : Int) ≤ 8 * scale)
    exact this
  have f4 : 0 ≤ j * (8 * scale) := by
    have := mul_nonneg hj.1 (by omega : (0 : Int) ≤ 8 * scale)
    exact this
  rcases hec with hec | hec | hec | hec <;> omega

/-- C26: the early return of `drawSprite` suppresses visible output for a rotated block.
With the clip rectangle `(10, 0, 240, 136)`, the block `w = 1`, `h = 2` at `(0, 0)` with
`rotate = 1` satisfies `EARLY_CLIP (0, 0, 8, 16)` and `drawSprite` returns at once; yet the
loop would blit the tile of iteration `(i, j) = (0, 1)` at `(x + j * step, y + i * step)
= (8, 0)`, and that blit writes the pixel `(10, 0)`, inside the clip rectangle. -/
theorem C26_early_clip_hides_rotated_tile :
    EARLY_CLIP demoCoreClipped 0 0 (1 * (TIC_SPRITESIZE * 1)) (2 * (TIC_SPRITESIZE * 1)) ∧
      drawSprite demoCoreClipped 0 0 0 1 2 [] 1 0 1 = demoCoreClipped ∧
      inClip demoCoreClipped.clip 10 0 ∧
      getPixel demoCoreClipped 10 0 = 0 ∧
      getPixel (drawTile demoCoreClipped
        ((getTileSheetFromSegment demoCoreClipped demoCoreClipped.blit_segment).gettile
          (0 + (spriteCell 1 2 0 1 0 1).1 + (spriteCell 1 2 0 1 0 1).2 *
            (getTileSheetFromSegment demoCoreClipped demoCoreClipped.blit_segment).sheet_width)
          false)
        (0 + 1 * (TIC_SPRITESIZE * 1)) (0 + 0 * (TIC_SPRITESIZE * 1)) [] 1 0 1) 10 0 = 10 := by
  refine ⟨demoCoreClipped_early_clip, drawSprite_rotated_block_skipped, by decide, by decide,
    by decide⟩

/-! ## Writes and reads stay in range -/

end TIC80
